import Mathlib

/-!
# Verification of the Sora-Webapp resilient structured-generation pipeline

A shallow embedding, in Lean 4, of the JavaScript core of the repository:

* the credential pool and failover HTTP client of `src/lib/document-text.js`
  (`createKeyManager`, `post`, `backoffMs`, `sanitizeKey`, the retryable
  error classifiers);
* the summarization pipeline of `src/unnamed/part_006`
  (`toAscii`, `collapseWhitespace`, `truncateSummaryText`, the
  `normalizeStructuredResponse` family, `slideHasMeaningfulContent`,
  `determineSlideCount`, `buildHeuristicSummary`, `tryExtractJson`,
  `parseStructuredResponse`, `tryHeuristicFallback`, and the slide-gating
  stage of `summarizeToSlides`).

JavaScript values flowing through the pipeline are modelled by the `JsonV`
type; JavaScript strings by Lean `String` (see the notes on the individual
definitions for the few places where the UTF-16 representation matters).
Numbers are modelled exactly as rationals rather than IEEE doubles: none of
the verified properties depends on float rounding, and all concrete inputs
evaluated below use small integers, where the two representations agree.

Runtime type errors thrown by the JavaScript code (calling a string method
on a non-string) are modelled with `Except`: `.error` marks a thrown
exception, carrying the thrown value.
-/

set_option maxRecDepth 10000

/-! ## JavaScript string primitives -/

/-- The character class of the JavaScript `\s` regex class, which is also the
set of characters removed by `String.prototype.trim`: ASCII whitespace,
`\v`, `\f`, NBSP, the Unicode space separators, line/paragraph separators,
and the BOM. -/
def jsWhitespace (c : Char) : Bool :=
  c = ' ' ∨ c = '\t' ∨ c = '\n' ∨ c = '\r' ∨ c.val = 11 ∨ c.val = 12 ∨
  c.val = 0xa0 ∨ c.val = 0x1680 ∨ (0x2000 ≤ c.val ∧ c.val ≤ 0x200a) ∨
  c.val = 0x2028 ∨ c.val = 0x2029 ∨ c.val = 0x202f ∨ c.val = 0x205f ∨
  c.val = 0x3000 ∨ c.val = 0xfeff

/-- `String.prototype.trim` on a character list: strip leading and trailing
JavaScript whitespace. -/
def jsTrimL (cs : List Char) : List Char :=
  ((cs.dropWhile jsWhitespace).reverse.dropWhile jsWhitespace).reverse

/-- `String.prototype.trim`. -/
def jsTrim (s : String) : String := ⟨jsTrimL s.data⟩

/-- Maximal runs of non-whitespace characters, in order: the pieces kept by
`replace(/\s+/g, ' ')` followed by `trim`. -/
def wsChunksL : List Char → List (List Char)
  | [] => []
  | c :: cs =>
    if jsWhitespace c then wsChunksL cs
    else
      match wsChunksL cs, cs with
      | chunks, [] => [c] :: chunks
      | chunks, c2 :: _ =>
        if jsWhitespace c2 then [c] :: chunks
        else
          match chunks with
          | [] => [[c]]
          | w :: ws => (c :: w) :: ws

/-- `value.replace(/\s+/g, ' ').trim()` on a character list. -/
def collapseL (cs : List Char) : List Char :=
  match wsChunksL cs with
  | [] => []
  | w :: ws => ws.foldl (fun acc chunk => acc ++ ' ' :: chunk) w

/-- `collapseWhitespace` from `part_006`, applied to a string it is always
called with (the JavaScript version also accepts `null`/`undefined`, which
become `''`; the `JsonV` call sites below go through `toAsciiV`, which
already yields a string). -/
def collapseWhitespace (s : String) : String := ⟨collapseL s.data⟩

/-- ASCII lowercasing of one character, used for `toLowerCase()` on the
ASCII-only strings this code compares (error messages, chart types,
placeholder keys). Non-ASCII letters are left unchanged. -/
def lowerChar (c : Char) : Char :=
  if 'A' ≤ c ∧ c ≤ 'Z' then Char.ofNat (c.val.toNat + 32) else c

/-- `String.prototype.toLowerCase` restricted to ASCII case folding. -/
def lowerStr (s : String) : String := ⟨s.data.map lowerChar⟩

/-- Is the first list a prefix of the second (over characters)? -/
def listIsPre : List Char → List Char → Bool
  | [], _ => true
  | _ :: _, [] => false
  | p :: ps, c :: cs => p = c && listIsPre ps cs

/-- Does the pattern occur as a contiguous run inside the list? -/
def listHasRun (pat : List Char) : List Char → Bool
  | [] => listIsPre pat []
  | c :: cs => listIsPre pat (c :: cs) || listHasRun pat cs

/-- `String.prototype.includes`: substring containment. -/
def strContains (s pat : String) : Bool := listHasRun pat.data s.data

/-- First-occurrence de-duplication, the semantics of
`Array.from(new Set(list))` for an array of strings. -/
def jsSetDedup (xs : List String) : List String :=
  xs.foldl (fun acc x => if x ∈ acc then acc else acc ++ [x]) []

/-- `String.prototype.startsWith`. -/
def strStarts (s pat : String) : Bool := listIsPre pat.data s.data

/-! ## JavaScript values -/

/-- A JavaScript value as it flows through the pipeline: every value that
`JSON.parse` can produce, plus `undefined` (the result of reading an absent
property). Numbers are exact rationals (see the header note). -/
inductive JsonV where
  | null
  | undef
  | bool (b : Bool)
  | num (q : ℚ)
  | str (s : String)
  | arr (elems : List JsonV)
  | obj (fields : List (String × JsonV))

/-- JavaScript falsiness: `null`, `undefined`, `false`, `0`, and `''` are
falsy; every other `JsonV` (objects and arrays included) is truthy. -/
def jsFalsy : JsonV → Bool
  | .null => true
  | .undef => true
  | .bool b => !b
  | .num q => q = 0
  | .str s => s = ""
  | .arr _ => false
  | .obj _ => false

/-- Property read `v[k]`: the last binding of `k` on an object (the parser
below keeps keys unique, overwriting duplicates as `JSON.parse` does), and
`undefined` everywhere else. -/
def jsGet (v : JsonV) (k : String) : JsonV :=
  match v with
  | .obj fields =>
    match fields.reverse.find? (fun f => f.1 = k) with
    | some f => f.2
    | none => .undef
  | _ => .undef

mutual
/-- Structural equality test for JavaScript values. -/
def beqV : JsonV → JsonV → Bool
  | .null, .null => true
  | .undef, .undef => true
  | .bool a, .bool b => a = b
  | .num a, .num b => a = b
  | .str a, .str b => a = b
  | .arr a, .arr b => beqL a b
  | .obj a, .obj b => beqF a b
  | _, _ => false

def beqL : List JsonV → List JsonV → Bool
  | [], [] => true
  | x :: xs, y :: ys => beqV x y && beqL xs ys
  | _, _ => false

def beqF : List (String × JsonV) → List (String × JsonV) → Bool
  | [], [] => true
  | (k, v) :: xs, (k2, v2) :: ys => k = k2 && beqV v v2 && beqF xs ys
  | _, _ => false
end

mutual
theorem beqV_iff : ∀ (a b : JsonV), beqV a b = true ↔ a = b
  | .null, b => by cases b <;> simp [beqV]
  | .undef, b => by cases b <;> simp [beqV]
  | .bool a, b => by cases b <;> simp [beqV]
  | .num a, b => by cases b <;> simp [beqV]
  | .str a, b => by cases b <;> simp [beqV]
  | .arr xs, b => by
    cases b <;> simp [beqV]
    exact beqL_iff xs _
  | .obj fs, b => by
    cases b <;> simp [beqV]
    exact beqF_iff fs _

theorem beqL_iff : ∀ (a b : List JsonV), beqL a b = true ↔ a = b
  | [], b => by cases b <;> simp [beqL]
  | x :: xs, [] => by simp [beqL]
  | x :: xs, y :: ys => by simp [beqL, beqV_iff x y, beqL_iff xs ys]

theorem beqF_iff : ∀ (a b : List (String × JsonV)), beqF a b = true ↔ a = b
  | [], b => by cases b <;> simp [beqF]
  | x :: xs, [] => by simp [beqF]
  | (k, v) :: xs, (k2, v2) :: ys => by
    simp [beqF, beqV_iff v v2, beqF_iff xs ys, Prod.ext_iff, and_assoc]
end

instance : DecidableEq JsonV := fun a b => decidable_of_iff _ (beqV_iff a b)

/-- The minimal exponent `k ≤ fuel` with `d ∣ 10^k`, if any: the length of
the terminating decimal expansion of a fraction with denominator `d`. -/
def decExpLen (d : ℕ) : ℕ → Option ℕ
  | 0 => if d = 1 then some 0 else none
  | fuel + 1 =>
    if d ∣ 10 ^ (fuel + 1) then
      match decExpLen d fuel with
      | some k => some k
      | none => some (fuel + 1)
    else none

/-- `String()` applied to a number. Exact for integers and terminating
decimals (every numeric literal evaluated in this development); a
non-terminating rational, which no modelled computation produces, is
rendered with a `#` marker. -/
def numToString (q : ℚ) : String :=
  if q.den = 1 then toString q.num
  else
    match decExpLen q.den 40 with
    | some k =>
      let scaled : ℤ := q.num * ((10 ^ k : ℕ) / q.den)
      let mag := scaled.natAbs
      let digits := toString mag
      let digits := if digits.length ≤ k then
        ⟨List.replicate (k + 1 - digits.length) '0' ++ digits.data⟩ else digits
      let intPart : String := ⟨digits.data.take (digits.length - k)⟩
      let fracPart : String := ⟨digits.data.drop (digits.length - k)⟩
      (if q.num < 0 then "-" else "") ++ intPart ++ "." ++ fracPart
    | none => "#" ++ toString q.num ++ "/" ++ toString q.den

mutual
/-- `String()` coercion of a JavaScript value. -/
def jsToString : JsonV → String
  | .null => "null"
  | .undef => "undefined"
  | .bool b => if b then "true" else "false"
  | .num q => numToString q
  | .str s => s
  | .arr xs => jsArrJoin xs
  | .obj _ => "[object Object]"

/-- `Array.prototype.join(',')` as used by array-to-string coercion:
`null` and `undefined` elements become empty strings. -/
def jsArrJoin : List JsonV → String
  | [] => ""
  | [x] => (match x with | .null => "" | .undef => "" | v => jsToString v)
  | x :: y :: xs =>
    (match x with | .null => "" | .undef => "" | v => jsToString v) ++ "," ++
      jsArrJoin (y :: xs)
end

/-- Numeric value of a JavaScript string (the `StringToNumber` coercion):
trimmed empty string is `0`; decimal, hex, octal and binary literals parse to
their value; `Infinity` and unparsable strings give no finite value
(`none` stands for `NaN` and the infinities alike, since the code only ever
asks `Number.isFinite`). -/
def jsStringToNumber (s : String) : Option ℚ :=
  let t := jsTrimL s.data
  if t = [] then some 0
  else
    let digitsVal : List Char → ℕ → Option ℕ := fun ds base =>
      ds.foldl (fun acc c =>
        match acc with
        | none => none
        | some n =>
          let dv : ℕ :=
            if '0' ≤ c ∧ c ≤ '9' then c.toNat - '0'.toNat
            else if 'a' ≤ c ∧ c ≤ 'z' then c.toNat - 'a'.toNat + 10
            else if 'A' ≤ c ∧ c ≤ 'Z' then c.toNat - 'A'.toNat + 10
            else 99
          if dv < base then some (n * base + dv) else none) (some 0)
    match t with
    | '0' :: 'x' :: ds => (digitsVal ds 16).map (fun n => mkRat n 1)
    | '0' :: 'X' :: ds => (digitsVal ds 16).map (fun n => mkRat n 1)
    | '0' :: 'o' :: ds => (digitsVal ds 8).map (fun n => mkRat n 1)
    | '0' :: 'b' :: ds => (digitsVal ds 2).map (fun n => mkRat n 1)
    | t =>
      let (sign, t) : ℤ × List Char :=
        match t with
        | '-' :: r => (-1, r)
        | '+' :: r => (1, r)
        | r => (1, r)
      if t = 'I' :: 'n' :: 'f' :: 'i' :: 'n' :: 'i' :: 't' :: 'y' :: [] then none
      else
        let isDigit : Char → Bool := fun c => '0' ≤ c ∧ c ≤ '9'
        let intDs := t.takeWhile isDigit
        let rest := t.dropWhile isDigit
        let (fracDs, rest) : List Char × List Char :=
          match rest with
          | '.' :: r => (r.takeWhile isDigit, r.dropWhile isDigit)
          | r => ([], r)
        let (hasExpMark, expNeg, expDs, rest) : Bool × Bool × List Char × List Char :=
          match rest with
          | 'e' :: '-' :: r => (true, true, r.takeWhile isDigit, r.dropWhile isDigit)
          | 'e' :: '+' :: r => (true, false, r.takeWhile isDigit, r.dropWhile isDigit)
          | 'e' :: r => (true, false, r.takeWhile isDigit, r.dropWhile isDigit)
          | 'E' :: '-' :: r => (true, true, r.takeWhile isDigit, r.dropWhile isDigit)
          | 'E' :: '+' :: r => (true, false, r.takeWhile isDigit, r.dropWhile isDigit)
          | 'E' :: r => (true, false, r.takeWhile isDigit, r.dropWhile isDigit)
          | r => (false, false, [], r)
        if rest ≠ [] then none
        else if intDs = [] ∧ fracDs = [] then none
        else if hasExpMark ∧ expDs = [] then none
        else
          match digitsVal intDs 10, digitsVal fracDs 10, digitsVal expDs 10 with
          | some ip, some fp, some e =>
            let mant : ℤ := sign * (ip * 10 ^ fracDs.length + fp)
            let scale : ℤ := (if expNeg then (-e : ℤ) else (e : ℤ)) - fracDs.length
            if 0 ≤ scale then some (mkRat (mant * 10 ^ scale.toNat) 1)
            else some (mkRat mant (10 ^ (-scale).toNat))
          | _, _, _ => none

/-- `Number()` coercion of a JavaScript value, returning `some q` exactly
when the result is a finite number (`none` for `NaN`/infinite results, the
only distinction `Number.isFinite` observes). Single-element arrays coerce
through their string form, here reproduced for the value shapes that occur:
nested numbers and strings keep their value, booleans and objects become
`NaN`. -/
def jsToNumber : JsonV → Option ℚ
  | .null => some 0
  | .undef => none
  | .bool b => some (if b then 1 else 0)
  | .num q => some q
  | .str s => jsStringToNumber s
  | .arr [] => some 0
  | .arr [x] =>
    match x with
    | .null => some 0
    | .undef => some 0
    | .num q => some q
    | .str s => jsStringToNumber s
    | _ => none
  | .arr (_ :: _ :: _) => none
  | .obj _ => none

example : collapseWhitespace "  a   b \t c  " = "a b c" := by decide
example : jsTrim "  x " = "x" := by decide
example : jsSetDedup ["a", "b", "a", "c", "b"] = ["a", "b", "c"] := by decide
example : jsStringToNumber " 12.5 " = some (mkRat 25 2) := by decide
example : numToString (mkRat 25 2) = "12.5" := by decide
example : jsToNumber (.str "1e2") = some (mkRat 100 1) := by decide
example : jsToNumber .null = some 0 := by decide
example : jsToString (.arr [.num (mkRat 3 1), .null, .str "x"]) = "3,,x" := by decide
example : strContains "hello fetch failed now" "fetch failed" = true := by decide

/-! ## Thrown JavaScript errors -/

/-- A JavaScript `Error` as the pipeline observes it: constructor name,
message, the `code`/`errno` properties carried by transport errors, and the
`cause` chain. -/
inductive JsErr where
  | mk (name message : String) (code errno : Option String) (cause : Option JsErr)

def JsErr.name : JsErr → String | .mk n _ _ _ _ => n
def JsErr.message : JsErr → String | .mk _ m _ _ _ => m
def JsErr.code : JsErr → Option String | .mk _ _ c _ _ => c
def JsErr.errno : JsErr → Option String | .mk _ _ _ e _ => e
def JsErr.cause : JsErr → Option JsErr | .mk _ _ _ _ c => c

/-- `new Error(message)`. -/
def jsError (message : String) : JsErr := .mk "Error" message none none none

/-- `new Error(message, \x7b cause \x7d)`. -/
def jsErrorC (message : String) (cause : JsErr) : JsErr :=
  .mk "Error" message none none (some cause)

/-- The `TypeError` thrown by `cleanBulletLine` when a truthy non-string
reaches `line.replace(...)` (message paraphrases the engine's). -/
def replaceTypeError : JsErr :=
  .mk "TypeError" "line.replace is not a function" none none none

/-! ## part_006: ASCII transliteration and text sanitation -/

/-- The `ASCII_REPLACEMENTS` table: typographic punctuation transliterated to
plain ASCII. Keys are written by code point; all of them are non-ASCII. -/
def asciiRepl (c : Char) : Option (List Char) :=
  if c.val = 0x201c ∨ c.val = 0x201d ∨ c.val = 0x201e ∨ c.val = 0xab ∨
     c.val = 0xbb ∨ c.val = 0x201f then some [Char.ofNat 0x22]
  else if c.val = 0x2018 ∨ c.val = 0x2019 ∨ c.val = 0x201b then
    some [Char.ofNat 0x27]
  else if c.val = 0x201a then some [',']
  else if c.val = 0x2013 ∨ c.val = 0x2014 ∨ c.val = 0x2015 ∨ c.val = 0x2212 ∨
     c.val = 0x2010 ∨ c.val = 0x2011 ∨ c.val = 0xb7 ∨ c.val = 0x2022 then
    some ['-']
  else if c.val = 0x2026 then some ['.', '.', '.']
  else none

/-- Is the character a combining mark in `[̀-ͯ]`? -/
def isCombining (c : Char) : Bool := 0x300 ≤ c.val ∧ c.val ≤ 0x36f

/-- One step of `toAscii`'s character loop: replacement table first, then
newline/carriage-return/tab to space, then printable ASCII kept, everything
else dropped. A JavaScript astral code point reports a surrogate through
`charCodeAt(0)`; surrogate values fall in the dropped range exactly as the
full code point value does, so iterating Lean `Char`s is faithful. -/
def asciiCharOut (c : Char) : List Char :=
  match asciiRepl c with
  | some r => r
  | none =>
    if c.val = 10 ∨ c.val = 13 ∨ c.val = 9 then [' ']
    else if 32 ≤ c.val ∧ c.val ≤ 126 then [c]
    else []

/-- `toAscii` on a character list. The source first applies
`normalize('NFKD')`; NFKD normalization is the identity on the ASCII range
and on every code point without a compatibility decomposition, which covers
all inputs evaluated concretely below, so the model omits the (identity)
normalization step and keeps the subsequent combining-mark strip. -/
def toAsciiL (cs : List Char) : List Char :=
  (cs.filter (fun c => !isCombining c)).flatMap asciiCharOut

/-- `toAscii` on a string argument (`String(input)` is the identity there). -/
def toAscii (s : String) : String := ⟨toAsciiL s.data⟩

/-- `toAscii` on an arbitrary value: `null`/`undefined` become `''`, other
values are coerced with `String()` first. -/
def toAsciiV (v : JsonV) : String :=
  match v with
  | .null => ""
  | .undef => ""
  | v => toAscii (jsToString v)

/-- `placeholderKey`: collapse the transliterated text and lowercase it. -/
def placeholderKey (s : String) : String := lowerStr (collapseWhitespace (toAscii s))

def SUMMARY_PARAGRAPH_PLACEHOLDER : String := "Summary forthcoming."

def BULLET_FILLER_STRINGS : List String :=
  ["Add key detail drawn from the source material.",
   "Highlight a concrete detail from the document."]

def PARAGRAPH_PLACEHOLDER_KEYS : List String :=
  [SUMMARY_PARAGRAPH_PLACEHOLDER, "Summary forthcoming"].map placeholderKey

def BULLET_PLACEHOLDER_KEYS : List String :=
  ([SUMMARY_PARAGRAPH_PLACEHOLDER, "Summary forthcoming"] ++
    BULLET_FILLER_STRINGS).map placeholderKey

def isPlaceholderParagraph (text : String) : Bool :=
  let key := placeholderKey text
  key = "" ∨ key ∈ PARAGRAPH_PLACEHOLDER_KEYS

def isPlaceholderBullet (text : String) : Bool :=
  let key := placeholderKey text
  key = "" ∨ key ∈ BULLET_PLACEHOLDER_KEYS

/-- A leading bullet marker character: `*`, `-`, or `•`. -/
def bulletMarker (c : Char) : Bool := c = '*' ∨ c = '-' ∨ c.val = 0x2022

/-- `cleanBulletLine` on a string: strip one leading run of bullet markers
plus following whitespace (`replace(/^[*\-•]+\s*/, '')`), then trim. -/
def cleanBulletLineStr (line : String) : String :=
  if line = "" then ""
  else
    let stripped :=
      match line.data with
      | c :: _ =>
        if bulletMarker c then (line.data.dropWhile bulletMarker).dropWhile jsWhitespace
        else line.data
      | [] => []
    jsTrim ⟨stripped⟩

/-- `cleanBulletLine` on an arbitrary value: falsy values yield `''`, truthy
strings are cleaned, and any truthy non-string crashes with a `TypeError`
(the JavaScript code calls `.replace` on it unconditionally). -/
def jsCleanBulletLine (v : JsonV) : Except JsErr String :=
  if jsFalsy v then .ok ""
  else
    match v with
    | .str s => .ok (cleanBulletLineStr s)
    | _ => .error replaceTypeError

/-- The principal blocks of the Unicode `Extended_Pictographic` property.
Nothing below depends on the exact extent of this predicate beyond it being
false on the ASCII range. -/
def isEmojiPicto (c : Char) : Bool :=
  (0x2600 ≤ c.val ∧ c.val ≤ 0x27bf) ∨ (0x1f000 ≤ c.val ∧ c.val ≤ 0x1faff) ∨
  (0x2b00 ≤ c.val ∧ c.val ≤ 0x2bff) ∨ c.val = 0xa9 ∨ c.val = 0xae ∨
  c.val = 0x203c ∨ c.val = 0x2049 ∨ c.val = 0x2122 ∨ c.val = 0x2139

/-- `stripEmojiPrefix` from the source (renamed for Lean): strip one leading
run of pictographics, zero-width joiners and whitespace, then trim. -/
def stripEmojiLead (text : String) : String :=
  if text = "" then ""
  else jsTrim ⟨text.data.dropWhile (fun c => isEmojiPicto c ∨ c.val = 0x200d ∨ jsWhitespace c)⟩

/-- Index of the last space in a character list, if any (`lastIndexOf(' ')`). -/
def lastSpaceIdx (cs : List Char) : Option ℕ :=
  (cs.reverse.findIdx? (fun c => c = ' ')).map (fun i => cs.length - 1 - i)

/-- `truncateSummaryText`: sanitize, and cut at a word boundary near the
limit. The sanitized text is ASCII-only, so JavaScript's UTF-16 `length`
and `slice` coincide with Lean's character count and `take`. -/
def truncateSummaryText (text : String) (maxChars : ℕ) : String :=
  let ascii := collapseWhitespace (toAscii text)
  if ascii = "" then ""
  else if ascii.length ≤ maxChars then ascii
  else
    let slice := ascii.data.take maxChars
    match lastSpaceIdx slice with
    | some i => if i > maxChars / 2 then jsTrim ⟨slice.take i⟩ else jsTrim ⟨slice⟩
    | none => jsTrim ⟨slice⟩

/-- Split a collapsed character list at spaces preceded by `.`, `!` or `?`:
the `split(/(?<=[.!?])\s+/)` of `splitIntoSentences` (whose argument is
always whitespace-collapsed, so every `\s+` run is one space). -/
def sentenceAux (cur : List Char) : List Char → List (List Char)
  | [] => [cur.reverse]
  | c :: cs =>
    if c = ' ' then
      match cur with
      | p :: _ =>
        if p = '.' ∨ p = '!' ∨ p = '?' then cur.reverse :: sentenceAux [] cs
        else sentenceAux (c :: cur) cs
      | [] => sentenceAux (c :: cur) cs
    else sentenceAux (c :: cur) cs

/-- Split a character list on a single separator character. -/
def splitOnCharL (sep : Char) : List Char → List (List Char)
  | [] => [[]]
  | c :: cs =>
    if c = sep then [] :: splitOnCharL sep cs
    else
      match splitOnCharL sep cs with
      | [] => [[c]]
      | p :: ps => (c :: p) :: ps

/-- `splitIntoSentences`: sentence-boundary split of the sanitized text, with
a semicolon-split fallback. -/
def splitIntoSentences (text : String) : List String :=
  if text = "" then []
  else
    let normalized := collapseWhitespace (toAscii text)
    if normalized = "" then []
    else
      let sentences :=
        ((sentenceAux [] normalized.data).map (fun p => jsTrim ⟨p⟩)).filter (· ≠ "")
      if sentences ≠ [] then sentences
      else ((splitOnCharL ';' normalized.data).map (fun p => jsTrim ⟨p⟩)).filter (· ≠ "")

/-- `paragraphHighlights`: up to four truncated sentences of the paragraph. -/
def paragraphHighlights (paragraph : String) : List String :=
  (((splitIntoSentences paragraph).map (truncateSummaryText · 110)).filter (· ≠ "")).take 4

example : toAscii "a–b…" = "a-b..." := by decide
example : cleanBulletLineStr "- hello" = "hello" := by decide
example : cleanBulletLineStr "‍- hi" = "‍- hi" := by decide
example : stripEmojiLead "‍- hi" = "- hi" := by decide
example : truncateSummaryText "abcdef uvw xyz" 10 = "abcdef" := by decide
example : truncateSummaryText "  lots   of space " 420 = "lots of space" := by decide
example : splitIntoSentences "One two. Three! Four" = ["One two.", "Three!", "Four"] := by decide
example : isPlaceholderBullet "  summary FORTHCOMING. " = true := by decide

/-! ## part_006: the Content Normalizer -/

/-- `normalizeHeadline`: clean markers, emoji and asterisks, transliterate,
truncate at 64, with `Section n` as fallback at every empty stage. -/
def normalizeHeadline (headline : JsonV) (index : ℕ) : String :=
  let fallbackHl := "Section " ++ toString (index + 1)
  if jsFalsy headline then fallbackHl
  else
    let cleaned :=
      jsTrim ⟨(stripEmojiLead (cleanBulletLineStr (jsToString headline))).data.filter (· ≠ '*')⟩
    let ascii := collapseWhitespace (toAscii cleaned)
    if ascii = "" then fallbackHl
    else
      let truncated := truncateSummaryText ascii 64
      if truncated = "" then fallbackHl else truncated

/-- `normalizeParagraph`: collapse the paragraph if it is a string; derive
from the bullets when empty; place the fixed placeholder when still empty.
Crashes (like the source) if a truthy non-string bullet is reached. -/
def normalizeParagraph (paragraph bullets : JsonV) : Except JsErr String := do
  let text := match paragraph with | .str s => s | _ => ""
  let cleaned := collapseWhitespace text
  if cleaned ≠ "" then return truncateSummaryText cleaned 420
  let fallback ←
    match bullets with
    | .arr xs => do
      let mapped ← xs.mapM jsCleanBulletLine
      pure (String.intercalate " " (mapped.filter (· ≠ "")))
    | _ => pure ""
  if jsTrim fallback ≠ "" then return truncateSummaryText fallback 420
  return SUMMARY_PARAGRAPH_PLACEHOLDER

/-- The `while (cleaned.length < 2)` filler loop of `normalizeBullets`:
push `BULLET_FILLER_STRINGS[cleaned.length % 2]` until two bullets exist. -/
def fillBullets (xs : List String) : List String :=
  match xs with
  | [] => BULLET_FILLER_STRINGS
  | [x] => [x, BULLET_FILLER_STRINGS[1]!]
  | xs => xs

/-- `normalizeBullets`: clean, de-duplicate and truncate the raw bullets, top
up with paragraph sentences (to at most 4, skipping ones already present),
pad with fillers to at least 2, and cap at 4. -/
def normalizeBullets (input : JsonV) (paragraph : String) : Except JsErr (List String) := do
  let raw := match input with | .arr xs => xs | _ => []
  let mapped ← raw.mapM jsCleanBulletLine
  let cleaned := jsSetDedup ((mapped.filter (· ≠ "")).map (truncateSummaryText · 110))
  let highlights := paragraphHighlights paragraph
  let cleaned := highlights.foldl
    (fun acc h => if acc.length ≥ 4 then acc else if h ∈ acc then acc else acc ++ [h]) cleaned
  return (fillBullets cleaned).take 4

/-- `normalizeChart`: validate the chart shape, returning `null` for anything
not fully valid. Never throws: every property access is type-checked first. -/
def normalizeChart (input : JsonV) : JsonV :=
  if jsFalsy input then .null
  else
    match input with
    | .obj _ | .arr _ =>
      let ctype := match jsGet input "type" with | .str s => lowerStr s | _ => ""
      if ¬(ctype = "bar" ∨ ctype = "line" ∨ ctype = "pie") then .null
      else
        let categories :=
          match jsGet input "categories" with
          | .arr xs => (((xs.map jsToString).filter (fun v => jsTrim v ≠ "")).take 20)
          | _ => []
        let series : List (String × List ℚ) :=
          match jsGet input "series" with
          | .arr xs =>
            let numericSeries := (xs.map jsToNumber).filterMap id
            if numericSeries.length = xs.length ∧ xs.length ≠ 0 then
              let label0 := collapseWhitespace (toAsciiV (jsGet input "label"))
              let label := if label0 = "" then "Series 1" else label0
              [(label, numericSeries.take 20)]
            else
              ((xs.map (fun entry =>
                if jsFalsy entry then none
                else
                  match entry with
                  | .obj _ | .arr _ =>
                    let label := match jsGet entry "label" with | .str s => jsTrim s | _ => ""
                    let values :=
                      match jsGet entry "values" with
                      | .arr vs => (vs.map jsToNumber).filterMap id
                      | _ => []
                    if label = "" ∨ values = [] then none
                    else some (label, values.take 20)
                  | _ => none)).filterMap id).take 6
          | _ => []
        if categories = [] ∨ series = [] then .null
        else
          .obj [("type", .str ctype),
                ("categories", .arr (categories.map .str)),
                ("series", .arr (series.map (fun sv =>
                  .obj [("label", .str sv.1), ("values", .arr (sv.2.map .num))])))]
    | _ => .null

/-- `isSlideLike`: a truthy object with a non-blank headline plus either a
non-blank paragraph or at least one non-blank string bullet. -/
def isSlideLike (candidate : JsonV) : Bool :=
  if jsFalsy candidate then false
  else
    match candidate with
    | .obj _ | .arr _ =>
      let headline := match jsGet candidate "headline" with | .str s => jsTrim s | _ => ""
      let paragraph := match jsGet candidate "paragraph" with | .str s => jsTrim s | _ => ""
      let bulletList :=
        match jsGet candidate "bullets" with
        | .arr xs => xs.filter (fun (e : JsonV) =>
            match e with
            | JsonV.str s => decide (jsTrim s ≠ "")
            | _ => false)
        | _ => []
      if headline = "" then false
      else if paragraph ≠ "" then true
      else !bulletList.isEmpty
    | _ => false

/-- `extractSlideCandidates`: `slides` array, else `sections` array, else the
object itself when slide-like, else nothing. -/
def extractSlideCandidates (data : JsonV) : List JsonV :=
  if jsFalsy data then []
  else
    match data with
    | .obj _ | .arr _ =>
      match jsGet data "slides" with
      | .arr xs => xs
      | _ =>
        match jsGet data "sections" with
        | .arr xs => xs
        | _ => if isSlideLike data then [data] else []
    | _ => []

/-- `deriveDocTitle`: first candidate among the document's title-like fields
and the first slide's headline that survives sanitation, truncated to 120. -/
def deriveDocTitle (data : JsonV) (slides : List JsonV) : String :=
  let candidates :=
    (if jsFalsy data then []
     else
       match data with
       | .obj _ | .arr _ =>
         [jsGet data "docTitle", jsGet data "title", jsGet data "subject",
          jsGet data "topic", jsGet data "headline"]
       | _ => []) ++
    (match slides with
     | [] => []
     | s0 :: _ => [jsGet s0 "headline"])
  let rec firstClean : List JsonV → String
    | [] => "Generated Summary"
    | c :: cs =>
      let cleaned := collapseWhitespace (toAsciiV c)
      if cleaned ≠ "" then truncateSummaryText cleaned 120 else firstClean cs
  firstClean candidates

/-- The per-slide body of `normalizeStructuredResponse`'s `map`. -/
def normalizeOneSlide (slide : JsonV) (index : ℕ) : Except JsErr JsonV := do
  let safeSlide := match slide with | .obj _ => slide | .arr _ => slide | _ => .obj []
  let headlineText :=
    match jsGet safeSlide "headline" with
    | .str s => if jsTrim s ≠ "" then jsTrim s else "Section " ++ toString (index + 1)
    | _ => "Section " ++ toString (index + 1)
  let paragraph ← normalizeParagraph (jsGet safeSlide "paragraph") (jsGet safeSlide "bullets")
  let bullets ← normalizeBullets (jsGet safeSlide "bullets") paragraph
  return .obj [("headline", .str (normalizeHeadline (.str headlineText) index)),
               ("paragraph", .str paragraph),
               ("bullets", .arr (bullets.map .str)),
               ("chart", normalizeChart (jsGet safeSlide "chart"))]

/-- The `while (normalizedSlides.length < 2)` padding of
`normalizeStructuredResponse`: append placeholder slides built with the
real normalization calls (which cannot throw on these fixed arguments). -/
def padSlide (index : ℕ) : Except JsErr JsonV := do
  let paragraph ← normalizeParagraph (.str "") (.arr [])
  let bullets ← normalizeBullets (.arr []) paragraph
  return .obj [("headline", .str (normalizeHeadline (.str ("Section " ++ toString (index + 1))) index)),
               ("paragraph", .str paragraph),
               ("bullets", .arr (bullets.map .str)),
               ("chart", .null)]

def padSlides (xs : List JsonV) : Except JsErr (List JsonV) := do
  match xs with
  | [] => do
    let a ← padSlide 0
    let b ← padSlide 1
    return [a, b]
  | [x] => do
    let b ← padSlide 1
    return [x, b]
  | xs => return xs

/-- An indexed effectful map, for `Array.prototype.map((slide, index) => …)`. -/
def mapIdxM (f : JsonV → ℕ → Except JsErr JsonV) : List JsonV → ℕ → Except JsErr (List JsonV)
  | [], _ => .ok []
  | x :: xs, i => do
    let y ← f x i
    let ys ← mapIdxM f xs (i + 1)
    return y :: ys

/-- `normalizeStructuredResponse`: non-objects pass through unchanged;
otherwise extract up to 8 slide candidates, normalize each, pad to at least
2, and attach a derived title. -/
def normalizeStructuredResponse (data : JsonV) : Except JsErr JsonV :=
  if jsFalsy data then .ok data
  else
    match data with
    | .obj _ | .arr _ => do
      let candidates := extractSlideCandidates data
      let mapped ← mapIdxM normalizeOneSlide (candidates.take 8) 0
      let normalized ← padSlides mapped
      return .obj [("docTitle", .str (deriveDocTitle data normalized)),
                   ("slides", .arr normalized)]
    | _ => .ok data

/-! ## part_006: the Quality Gate -/

/-- JavaScript `String.prototype.length` (UTF-16 code units): astral code
points count twice. -/
def jsLength (s : String) : ℕ :=
  (s.data.map (fun c => if c.val ≥ 0x10000 then 2 else 1)).sum

/-- `slideHasMeaningfulContent`: the per-slide Quality Gate. Throws (like the
source) when a truthy non-string bullet reaches `cleanBulletLine`. -/
def slideHasMeaningfulContent (slide : JsonV) : Except JsErr Bool := do
  if jsFalsy slide then return false
  match slide with
  | .obj _ | .arr _ =>
    let paragraphText :=
      match jsGet slide "paragraph" with | .str s => collapseWhitespace s | _ => ""
    let bulletsRaw := match jsGet slide "bullets" with | .arr xs => xs | _ => []
    let mapped ← bulletsRaw.mapM jsCleanBulletLine
    let bulletTexts := mapped.filter (fun t => t ≠ "" ∧ ¬isPlaceholderBullet t)
    let isParagraphPh := isPlaceholderParagraph paragraphText
    let meaningfulBulletCount := (bulletTexts.filter (fun t => jsLength t ≥ 12)).length
    let totalBulletChars := (bulletTexts.map jsLength).sum
    if ¬isParagraphPh ∧ jsLength paragraphText ≥ 80 then return true
    if meaningfulBulletCount ≥ 2 ∧ totalBulletChars ≥ 50 then return true
    if ¬isParagraphPh ∧ jsLength paragraphText ≥ 40 ∧
        (meaningfulBulletCount ≥ 1 ∨ totalBulletChars ≥ 30) then return true
    return false
  | _ => return false

/-- `isDocTitleWeak`: empty, blank, or one of the generic titles. -/
def isDocTitleWeak (title : String) : Bool :=
  if title = "" then true
  else
    let normalized := collapseWhitespace title
    if normalized = "" then true
    else
      lowerStr normalized ∈
        ["generated summary", "summary", "section 1", "section one", "section 2", "section two"]

/-! ## part_006: document statistics -/

def wordChar (c : Char) : Bool :=
  ('a' ≤ c ∧ c ≤ 'z') ∨ ('A' ≤ c ∧ c ≤ 'Z') ∨ ('0' ≤ c ∧ c ≤ '9') ∨ c = '_'

def digitChar (c : Char) : Bool := '0' ≤ c ∧ c ≤ '9'

/-- Does a `\b` hold between a word character and this continuation? -/
def boundaryAfter : List Char → Bool
  | [] => true
  | c :: _ => !wordChar c

/-- The scanner for `countNumericTokens`'s global regex
`/\b\d+(?:\.\d+)?\b/g`: leftmost non-overlapping matches of a digit run with
an optional fraction, between word boundaries; a fraction whose trailing
boundary fails backtracks to the bare integer (whose boundary at the `.` is
automatic). `prevWord` records whether the previously scanned character is a
word character (for `\b`); `fuel` bounds the recursion by the input length. -/
def numTokGo (prevWord : Bool) (cs : List Char) : ℕ → ℕ
  | 0 => 0
  | fuel + 1 =>
    match cs with
    | [] => 0
    | c :: rest =>
      if digitChar c ∧ ¬prevWord then
        let r1 := (c :: rest).dropWhile digitChar
        match r1 with
        | '.' :: r2 =>
          let fds := r2.takeWhile digitChar
          let r3 := r2.dropWhile digitChar
          if fds ≠ [] ∧ boundaryAfter r3 then 1 + numTokGo true r3 fuel
          else 1 + numTokGo true r1 fuel
        | _ =>
          if boundaryAfter r1 then 1 + numTokGo true r1 fuel
          else numTokGo true rest fuel
      else numTokGo (wordChar c) rest fuel

/-- `countNumericTokens`. -/
def countNumericTokens (text : String) : ℕ :=
  numTokGo false text.data (text.data.length + 1)

/-- Split at runs of two or more newlines (`split(/\n{2,}/)`); a single
newline stays inside its piece. State `st`: 0 = inside a piece, 1 = one
pending newline, 2 = absorbing a confirmed separator run (piece emitted). -/
def blankGo (cur : List Char) (st : ℕ) : List Char → List (List Char)
  | [] =>
    match st with
    | 1 => [('\n' :: cur).reverse]
    | _ => [cur.reverse]
  | c :: rest =>
    if c = '\n' then
      match st with
      | 0 => blankGo cur 1 rest
      | 1 => cur.reverse :: blankGo [] 2 rest
      | _ => blankGo [] 2 rest
    else
      match st with
      | 1 => blankGo (c :: '\n' :: cur) 0 rest
      | _ => blankGo (c :: cur) 0 rest

/-- `countSections`: blank-line-delimited blocks of at least 120 units,
de-duplicated by their first 80 units (`slice` counts UTF-16 units; the
ASCII inputs evaluated below make units and characters agree). -/
def countSections (text : String) : ℕ :=
  let sections :=
    ((blankGo [] 0 text.data).map (fun p => jsTrim ⟨p⟩)).filter (fun s => jsLength s ≥ 120)
  let unique := (jsSetDedup (sections.map (fun s => (⟨s.data.take 80⟩ : String)))).length
  max unique (if sections.isEmpty then 0 else 1)

structure SummaryStats where
  slideCount : ℕ
  charCount : ℕ
  numericTokens : ℕ
  uniqueSections : ℕ
deriving Repr, DecidableEq

/-- `determineSlideCount`: thresholds on character count and section count,
a raise-to-6 override for section-rich documents, and a final clamp. -/
def determineSlideCount (text : String) : SummaryStats :=
  let charCount := jsLength text
  let numericTokens := countNumericTokens text
  let uniqueSections := countSections text
  let sc :=
    if charCount < 1200 ∧ uniqueSections ≤ 1 then 2
    else if charCount < 2600 ∧ uniqueSections ≤ 2 then 3
    else if charCount < 4200 then 4
    else if charCount < 6200 then 5
    else if charCount < 8800 then 6
    else if charCount < 11500 ∨ uniqueSections ≥ 6 then 7
    else 8
  let sc := if uniqueSections ≥ 5 ∧ sc < 6 then min 8 (max sc 6) else sc
  let sc := min 8 (max 2 sc)
  ⟨sc, charCount, numericTokens, uniqueSections⟩

/-! ## part_006: the Heuristic Fallback Summarizer -/

def asciiAlphaNum (c : Char) : Bool :=
  ('a' ≤ c ∧ c ≤ 'z') ∨ ('A' ≤ c ∧ c ≤ 'Z') ∨ ('0' ≤ c ∧ c ≤ '9')

def upperChar (c : Char) : Char :=
  if 'a' ≤ c ∧ c ≤ 'z' then Char.ofNat (c.val.toNat - 32) else c

/-- `heuristicHeadline`: strip markers and leading non-alphanumerics,
capitalize, truncate at 70, with `Section n` fallback. -/
def heuristicHeadline (source : String) (index : ℕ) : String :=
  let cleaned := cleanBulletLineStr source
  if cleaned = "" then "Section " ++ toString (index + 1)
  else
    let trimmed := jsTrim ⟨cleaned.data.dropWhile (fun c => !asciiAlphaNum c)⟩
    match trimmed.data with
    | [] => "Section " ++ toString (index + 1)
    | c :: rest => truncateSummaryText ⟨upperChar c :: rest⟩ 70

/-- `heuristicDocTitle`. -/
def heuristicDocTitle (source : String) : String :=
  let cleaned := cleanBulletLineStr source
  if cleaned = "" then "Generated Summary" else truncateSummaryText cleaned 120

/-- `replace(/\r\n/g, '\n')`. -/
def crlfToLf : List Char → List Char
  | [] => []
  | '\r' :: '\n' :: rest => '\n' :: crlfToLf rest
  | c :: cs => c :: crlfToLf cs

/-- `buildFallbackSlides`: two `Section` slides sharing one paragraph derived
from the seed (the source's `seed?.join?.(' ') || seed || ''` passes the
joined seed, or the array itself when the join is empty — which
`normalizeParagraph` treats exactly like the empty string). -/
def buildFallbackSlides (seed : List String) : Except JsErr (List JsonV) := do
  let paragraph ← normalizeParagraph (.str (String.intercalate " " seed)) (.arr [])
  let bullets ← normalizeBullets (.arr []) paragraph
  let mk := fun (h : String) =>
    JsonV.obj [("headline", .str h), ("paragraph", .str paragraph),
               ("bullets", .arr (bullets.map JsonV.str)), ("chart", .null)]
  return [mk "Section 1", mk "Section 2"]

/-- `buildHeuristicSummary`: the pure extractive summarizer — sentence split,
contiguous chunking to the target count, one slide per non-empty chunk. -/
def buildHeuristicSummary (text : String) (stats : SummaryStats) : Except JsErr JsonV := do
  let cleaned := jsTrim ⟨crlfToLf text.data⟩
  if cleaned = "" then
    let slides ← buildFallbackSlides ["No readable content found in document."]
    return .obj [("docTitle", .str "Generated Summary"), ("slides", .arr slides)]
  let sentences := splitIntoSentences cleaned
  let targetSections := min (max (if stats.slideCount = 0 then 3 else stats.slideCount) 2) 8
  let chunkSize := max 1 ((sentences.length + targetSections - 1) / targetSections)
  let slides := (List.range targetSections).filterMap (fun index =>
    let chunk := (sentences.drop (index * chunkSize)).take chunkSize
    if chunk.isEmpty then none
    else
      let paragraph := truncateSummaryText (String.intercalate " " chunk) 420
      let headline := heuristicHeadline paragraph index
      let bullets := (paragraphHighlights paragraph).take 4
      some (JsonV.obj [("headline", .str headline), ("paragraph", .str paragraph),
                       ("bullets", .arr (bullets.map JsonV.str)), ("chart", .null)]))
  if slides.isEmpty then
    let fb ← buildFallbackSlides [(⟨cleaned.data.take 200⟩ : String)]
    return .obj [("docTitle", .str (heuristicDocTitle cleaned)), ("slides", .arr fb)]
  let titleSrc :=
    match slides with
    | s0 :: _ => (match jsGet s0 "headline" with
      | .str h => if h ≠ "" then h else cleaned
      | _ => cleaned)
    | [] => cleaned
  return .obj [("docTitle", .str (heuristicDocTitle titleSrc)),
               ("slides", .arr (slides.take targetSections))]

/-! ## part_006: the zod schema (`SummarySchema`) -/

/-- `ChartSchema`: `null`, or a chart object with an enumerated type,
at least one string category, and at least one series of `\x7blabel, values\x7d`
with at least one numeric value. zod rejects non-plain-objects and treats a
missing (`undefined`) chart as invalid even under `.nullable()`. -/
def zodChartOk (v : JsonV) : Bool :=
  match v with
  | .null => true
  | .obj _ =>
    (match jsGet v "type" with
     | .str s => s = "bar" ∨ s = "line" ∨ s = "pie"
     | _ => false) &&
    (match jsGet v "categories" with
     | .arr xs => xs.length ≥ 1 && xs.all (fun x => match x with | .str _ => true | _ => false)
     | _ => false) &&
    (match jsGet v "series" with
     | .arr ys => ys.length ≥ 1 && ys.all (fun y =>
        match y with
        | .obj _ =>
          (match jsGet y "label" with | .str _ => true | _ => false) &&
          (match jsGet y "values" with
           | .arr vs => vs.length ≥ 1 && vs.all (fun q => match q with | .num _ => true | _ => false)
           | _ => false)
        | _ => false)
     | _ => false)
  | _ => false

/-- `SlideSchema`: string headline, non-empty paragraph, 2–4 string bullets,
valid-or-null chart. -/
def zodSlideOk (v : JsonV) : Bool :=
  match v with
  | .obj _ =>
    (match jsGet v "headline" with | .str _ => true | _ => false) &&
    (match jsGet v "paragraph" with | .str s => jsLength s ≥ 1 | _ => false) &&
    (match jsGet v "bullets" with
     | .arr xs => 2 ≤ xs.length && xs.length ≤ 4 &&
        xs.all (fun x => match x with | .str _ => true | _ => false)
     | _ => false) &&
    zodChartOk (jsGet v "chart")
  | _ => false

/-- `SummarySchema`: non-empty title and 2–8 valid slides. -/
def zodSummaryOk (v : JsonV) : Bool :=
  match v with
  | .obj _ =>
    (match jsGet v "docTitle" with | .str s => jsLength s ≥ 1 | _ => false) &&
    (match jsGet v "slides" with
     | .arr xs => 2 ≤ xs.length && xs.length ≤ 8 && xs.all zodSlideOk
     | _ => false)
  | _ => false

/-- The error thrown by `SummarySchema.parse` on invalid data (message
paraphrases zod's). -/
def zodError : JsErr := .mk "ZodError" "invalid structured summary" none none none

/-- `SummarySchema.parse`: zod strips unknown keys on success; since every
consumer reads only schema keys, returning the input unchanged is
observationally identical, and the model does so. -/
def zodParseSummary (v : JsonV) : Except JsErr JsonV :=
  if zodSummaryOk v then .ok v else .error zodError

/-! ## part_006: network-error classification and whole-pipeline fallback -/

/-- The cause-code set of `isLikelyNetworkError`. -/
def NETWORK_ERROR_CODES : List String :=
  ["UND_ERR_CONNECT_TIMEOUT", "UND_ERR_HEADERS_TIMEOUT", "UND_ERR_SOCKET",
   "UND_ERR_BODY_TIMEOUT", "ECONNRESET", "ETIMEDOUT", "EHOSTUNREACH",
   "ENOTFOUND", "EAI_AGAIN"]

/-- `isLikelyNetworkError`: a recognized `code`/`errno` on the error's cause
(or the error itself), or one of three phrases in the joined lowercased
messages. -/
def isLikelyNetworkError (error : JsErr) : Bool :=
  let causeE := match error.cause with | some c => c | none => error
  let codeStr : String :=
    match causeE.code with
    | some c => if c = "" then (causeE.errno.getD "") else c
    | none => causeE.errno.getD ""
  if codeStr ≠ "" ∧ codeStr ∈ NETWORK_ERROR_CODES then true
  else
    let message :=
      lowerStr (String.intercalate " " (([error.message, causeE.message]).filter (· ≠ "")))
    strContains message "fetch failed" ∨ strContains message "timeout" ∨
      strContains message "temporarily"

/-- A natural number as a JavaScript number value. -/
def natNum (n : ℕ) : JsonV := .num (mkRat n 1)

/-- The `\x7b...stats, plannedSections, targetSections\x7d` stats object (the
`fallbackReplacements` key is appended only when substitutions happened). -/
def statsJson (stats : SummaryStats) (planned target : ℕ) (fallbackReplacements : Option ℕ) : JsonV :=
  .obj ([("slideCount", natNum stats.slideCount), ("charCount", natNum stats.charCount),
         ("numericTokens", natNum stats.numericTokens),
         ("uniqueSections", natNum stats.uniqueSections),
         ("plannedSections", natNum planned), ("targetSections", natNum target)] ++
    (match fallbackReplacements with
     | some n => [("fallbackReplacements", natNum n)]
     | none => []))

/-- `tryHeuristicFallback`: `none` for a non-network error; otherwise the
heuristic summary is built, validated (re-normalizing and `parse`-ing when
the strict parse fails), clipped to the desired count, re-normalized
per-slide, and wrapped with stats and the fixed warning. -/
def tryHeuristicFallback (error : JsErr) (text : String) (stats : SummaryStats) :
    Except JsErr (Option JsonV) := do
  if ¬isLikelyNetworkError error then return none
  let summary ← buildHeuristicSummary text stats
  let safe ←
    if zodSummaryOk summary then pure summary
    else do
      let n ← normalizeStructuredResponse summary
      zodParseSummary n
  let desiredCount := min (max stats.slideCount 2) 8
  let slides0 := (match jsGet safe "slides" with | .arr xs => xs | _ => []).take desiredCount
  let slides ← if slides0.isEmpty then buildFallbackSlides [SUMMARY_PARAGRAPH_PLACEHOLDER]
    else pure slides0
  let normalizedSlides ← mapIdxM (fun slide index => do
    let safeSlide :=
      match slide with
      | .obj _ | .arr _ => slide
      | _ => JsonV.obj [("headline", .str ("Section " ++ toString (index + 1))),
                        ("paragraph", .str ""), ("bullets", .arr []), ("chart", .null)]
    let paragraph ← normalizeParagraph (jsGet safeSlide "paragraph") (jsGet safeSlide "bullets")
    let bullets ← normalizeBullets (jsGet safeSlide "bullets") paragraph
    return JsonV.obj [("headline", .str (normalizeHeadline (jsGet safeSlide "headline") index)),
                      ("paragraph", .str paragraph),
                      ("bullets", .arr (bullets.map JsonV.str)),
                      ("chart", normalizeChart (jsGet safeSlide "chart"))]) slides 0
  return some (.obj [("docTitle", jsGet safe "docTitle"),
                     ("slides", .arr normalizedSlides),
                     ("stats", statsJson stats normalizedSlides.length desiredCount none),
                     ("warnings", .arr [.str "Longcat request failed; generated heuristic summary instead."])])

/-- The `catch` block of `summarizeToSlides`: a network-classified failure is
replaced by the heuristic fallback document; anything else is re-thrown. -/
def summarizeCatchStage (error : JsErr) (text : String) : Except JsErr JsonV :=
  match tryHeuristicFallback error text (determineSlideCount text) with
  | .error e => .error e
  | .ok none => .error error
  | .ok (some fb) => .ok fb

example : countNumericTokens "12 cats, 3.5 dogs, x9, 1.2x" = 3 := by decide
example : (determineSlideCount "short").slideCount = 2 := by decide
example : isLikelyNetworkError (.mk "Error" "fetch failed toward host" none none none) = true := by
  decide
example : isLikelyNetworkError (.mk "Error" "Longcat response was not valid JSON" none none none)
    = false := by decide

/-! ## `JSON.parse` (for `safeParse`) -/

/-- JSON insignificant whitespace. -/
def jsonWs (c : Char) : Bool := c = ' ' ∨ c = '\t' ∨ c = '\n' ∨ c = '\r'

def hexDigitVal (c : Char) : Option ℕ :=
  if '0' ≤ c ∧ c ≤ '9' then some (c.toNat - '0'.toNat)
  else if 'a' ≤ c ∧ c ≤ 'f' then some (c.toNat - 'a'.toNat + 10)
  else if 'A' ≤ c ∧ c ≤ 'F' then some (c.toNat - 'A'.toNat + 10)
  else none

/-- Insert a member, overwriting an existing key in place (`JSON.parse`
keeps the first position and the last value for duplicate keys). -/
def objInsert (fields : List (String × JsonV)) (k : String) (v : JsonV) :
    List (String × JsonV) :=
  if fields.any (fun f => f.1 = k) then
    fields.map (fun f => if f.1 = k then (k, v) else f)
  else fields ++ [(k, v)]

/-- JSON string body after the opening quote. Raw control characters are
rejected, standard escapes are decoded, and `\uXXXX` surrogate pairs are
combined into the astral code point (a lone surrogate, which no evaluated
input contains, becomes U+FFFD since Lean characters exclude surrogates). -/
def jsonStrGo (acc : List Char) (cs : List Char) : ℕ → Option (String × List Char)
  | 0 => none
  | fuel + 1 =>
  match cs with
  | [] => none
  | '"' :: rest => some (⟨acc.reverse⟩, rest)
  | '\\' :: esc =>
    match esc with
    | '"' :: r => jsonStrGo ('"' :: acc) r fuel
    | '\\' :: r => jsonStrGo ('\\' :: acc) r fuel
    | '/' :: r => jsonStrGo ('/' :: acc) r fuel
    | 'b' :: r => jsonStrGo (Char.ofNat 8 :: acc) r fuel
    | 'f' :: r => jsonStrGo (Char.ofNat 12 :: acc) r fuel
    | 'n' :: r => jsonStrGo ('\n' :: acc) r fuel
    | 'r' :: r => jsonStrGo ('\r' :: acc) r fuel
    | 't' :: r => jsonStrGo ('\t' :: acc) r fuel
    | 'u' :: a :: b :: c :: d :: '\\' :: 'u' :: a2 :: b2 :: c2 :: d2 :: r2 =>
      (match hexDigitVal a, hexDigitVal b, hexDigitVal c, hexDigitVal d with
       | some va, some vb, some vc, some vd =>
         let n := ((va * 16 + vb) * 16 + vc) * 16 + vd
         if 0xd800 ≤ n ∧ n ≤ 0xdbff then
           (match hexDigitVal a2, hexDigitVal b2, hexDigitVal c2, hexDigitVal d2 with
            | some va2, some vb2, some vc2, some vd2 =>
              let n2 := ((va2 * 16 + vb2) * 16 + vc2) * 16 + vd2
              if 0xdc00 ≤ n2 ∧ n2 ≤ 0xdfff then
                jsonStrGo (Char.ofNat (0x10000 + (n - 0xd800) * 0x400 + (n2 - 0xdc00)) :: acc) r2 fuel
              else jsonStrGo (Char.ofNat 0xfffd :: acc) ('\\' :: 'u' :: a2 :: b2 :: c2 :: d2 :: r2) fuel
            | _, _, _, _ => none)
         else if 0xdc00 ≤ n ∧ n ≤ 0xdfff then
           jsonStrGo (Char.ofNat 0xfffd :: acc) ('\\' :: 'u' :: a2 :: b2 :: c2 :: d2 :: r2) fuel
         else jsonStrGo (Char.ofNat n :: acc) ('\\' :: 'u' :: a2 :: b2 :: c2 :: d2 :: r2) fuel
       | _, _, _, _ => none)
    | 'u' :: a :: b :: c :: d :: r =>
      (match hexDigitVal a, hexDigitVal b, hexDigitVal c, hexDigitVal d with
       | some va, some vb, some vc, some vd =>
         let n := ((va * 16 + vb) * 16 + vc) * 16 + vd
         if (0xd800 ≤ n ∧ n ≤ 0xdbff) ∨ (0xdc00 ≤ n ∧ n ≤ 0xdfff) then
           jsonStrGo (Char.ofNat 0xfffd :: acc) r fuel
         else jsonStrGo (Char.ofNat n :: acc) r fuel
       | _, _, _, _ => none)
    | _ => none
  | c :: rest => if c.val < 0x20 then none else jsonStrGo (c :: acc) rest fuel

/-- A strict JSON number: `-?(0|[1-9][0-9]*)(\.[0-9]+)?([eE][+-]?[0-9]+)?`. -/
def jsonNum (cs : List Char) : Option (ℚ × List Char) :=
  let (neg, cs1) : Bool × List Char := match cs with | '-' :: r => (true, r) | r => (false, r)
  let intDs := cs1.takeWhile digitChar
  let cs2 := cs1.dropWhile digitChar
  if intDs = [] then none
  else if intDs.length > 1 ∧ intDs.headD '0' = '0' then none
  else
    let intVal := intDs.foldl (fun n c => n * 10 + (c.toNat - '0'.toNat)) 0
    let (fracDs, cs3) : List Char × List Char :=
      match cs2 with
      | '.' :: r => (r.takeWhile digitChar, r.dropWhile digitChar)
      | r => ([], r)
    if (match cs2 with | '.' :: _ => decide (fracDs = []) | _ => false) then none
    else
      let (hasExp, expNeg, expDs, cs4) : Bool × Bool × List Char × List Char :=
        match cs3 with
        | 'e' :: '-' :: r => (true, true, r.takeWhile digitChar, r.dropWhile digitChar)
        | 'e' :: '+' :: r => (true, false, r.takeWhile digitChar, r.dropWhile digitChar)
        | 'e' :: r => (true, false, r.takeWhile digitChar, r.dropWhile digitChar)
        | 'E' :: '-' :: r => (true, true, r.takeWhile digitChar, r.dropWhile digitChar)
        | 'E' :: '+' :: r => (true, false, r.takeWhile digitChar, r.dropWhile digitChar)
        | 'E' :: r => (true, false, r.takeWhile digitChar, r.dropWhile digitChar)
        | r => (false, false, [], r)
      if hasExp ∧ expDs = [] then none
      else
        let fracVal := fracDs.foldl (fun n c => n * 10 + (c.toNat - '0'.toNat)) 0
        let expVal := expDs.foldl (fun n c => n * 10 + (c.toNat - '0'.toNat)) 0
        let mant : ℤ := (if neg then -1 else 1) * (intVal * 10 ^ fracDs.length + fracVal)
        let scale : ℤ := (if expNeg then (-(expVal : ℤ)) else (expVal : ℤ)) - fracDs.length
        let q := if 0 ≤ scale then mkRat (mant * 10 ^ scale.toNat) 1
          else mkRat mant (10 ^ (-scale).toNat)
        some (q, cs4)

mutual
/-- One JSON value, leading whitespace allowed. -/
def jsonVal (cs : List Char) : ℕ → Option (JsonV × List Char)
  | 0 => none
  | fuel + 1 =>
    match cs.dropWhile jsonWs with
    | [] => none
    | c :: rest =>
      if c = Char.ofNat 0x7b then
        match (rest.dropWhile jsonWs) with
        | c2 :: r2 =>
          if c2 = Char.ofNat 0x7d then some (.obj [], r2)
          else jsonMembers (rest.dropWhile jsonWs) [] fuel
        | [] => none
      else if c = '[' then
        match (rest.dropWhile jsonWs) with
        | ']' :: r2 => some (.arr [], r2)
        | _ => jsonItems (rest.dropWhile jsonWs) [] fuel
      else if c = '"' then
        match jsonStrGo [] rest (rest.length * 2 + 2) with
        | some (s, r) => some (.str s, r)
        | none => none
      else if listIsPre "true".data (c :: rest) then some (.bool true, rest.drop 3)
      else if listIsPre "false".data (c :: rest) then some (.bool false, rest.drop 4)
      else if listIsPre "null".data (c :: rest) then some (.null, rest.drop 3)
      else
        match jsonNum (c :: rest) with
        | some (q, r) => some (.num q, r)
        | none => none
termination_by structural fuel => fuel

/-- Object members, positioned at the first key (no leading `\x7b`). -/
def jsonMembers (cs : List Char) (acc : List (String × JsonV)) :
    ℕ → Option (JsonV × List Char)
  | 0 => none
  | fuel + 1 =>
    match cs.dropWhile jsonWs with
    | '"' :: rest =>
      match jsonStrGo [] rest (rest.length * 2 + 2) with
      | some (k, r1) =>
        match r1.dropWhile jsonWs with
        | ':' :: r2 =>
          match jsonVal r2 fuel with
          | some (v, r3) =>
            let acc := objInsert acc k v
            match r3.dropWhile jsonWs with
            | ',' :: r4 => jsonMembers r4 acc fuel
            | c5 :: r5 =>
              if c5 = Char.ofNat 0x7d then some (.obj acc, r5) else none
            | [] => none
          | none => none
        | _ => none
      | none => none
    | _ => none
termination_by structural fuel => fuel

/-- Array items, positioned at the first item (no leading `[`). -/
def jsonItems (cs : List Char) (acc : List JsonV) : ℕ → Option (JsonV × List Char)
  | 0 => none
  | fuel + 1 =>
    match jsonVal cs fuel with
    | some (v, r1) =>
      match r1.dropWhile jsonWs with
      | ',' :: r2 => jsonItems r2 (acc ++ [v]) fuel
      | ']' :: r2 => some (.arr (acc ++ [v]), r2)
      | _ => none
    | none => none
termination_by structural fuel => fuel
end

/-- `safeParse`: `JSON.parse` returning `null` on any syntax error
(modelled as `none`); trailing garbage after the value is an error. -/
def safeParse (s : String) : Option JsonV :=
  match jsonVal s.data (s.data.length + 8) with
  | some (v, rest) => if rest.dropWhile jsonWs = [] then some v else none
  | none => none

example : safeParse " \x7b\x22a\x22: [1, true, \x22x\x22]\x7d " =
    some (.obj [("a", .arr [.num (mkRat 1 1), .bool true, .str "x"])]) := rfl
example : safeParse "\x7b\x22a\x22:1,\x22a\x22:2\x7d" =
    some (.obj [("a", .num (mkRat 2 1))]) := rfl
example : safeParse "12 x" = none := rfl
example : safeParse "-2.5e1" = some (.num (mkRat (-25) 1)) := rfl
example : safeParse "01" = none := rfl

/-! ## part_006: the Response Salvage Parser -/

/-- Split at the first occurrence of a triple backtick, returning the text
before it and the remainder after it. -/
def splitAtTriple (acc : List Char) : List Char → Option (List Char × List Char)
  | [] => none
  | c :: rest =>
    if listIsPre "```".data (c :: rest) then some (acc.reverse, rest.drop 2)
    else splitAtTriple (c :: acc) rest

/-- The scan of `/\x60\x60\x60(?:json)?\s*([\s\S]*?)\x60\x60\x60/i` (the fenced-block
regex): at the leftmost opening fence, optionally consume `json`
(case-insensitively), greedily consume whitespace, and capture lazily up to
the next fence; when no closing fence follows, matching resumes one
character later. Backtracking cannot help a failed start (neither `json`
nor the whitespace run can contain a backtick), so this scan is exact. -/
def fencedGo : List Char → Option String
  | [] => none
  | c :: rest =>
    if listIsPre "```".data (c :: rest) then
      let j := rest.drop 2
      let j2 := match j with
        | a :: b :: c2 :: d :: r =>
          if lowerChar a = 'j' ∧ lowerChar b = 's' ∧ lowerChar c2 = 'o' ∧ lowerChar d = 'n'
          then r else j
        | _ => j
      match splitAtTriple [] (j2.dropWhile jsWhitespace) with
      | some (cap, _) => some ⟨cap⟩
      | none => fencedGo rest
    else fencedGo rest

/-- `tryExtractJson`: fenced block, then the whole payload, then the
first-`\x7b`-to-last-`\x7d` slice; an attempt succeeds when `safeParse` yields a
truthy value (the source tests the parse result with `if (parsed)`). -/
def tryExtractJson (content : String) : Option JsonV :=
  let cleaned := jsTrim content
  let tP : String → Option JsonV := fun t =>
    match safeParse t with
    | some v => if jsFalsy v then none else some v
    | none => none
  let afterFence : Option JsonV :=
    match fencedGo cleaned.data with
    | some cap => tP (jsTrim cap)
    | none => none
  match afterFence with
  | some v => some v
  | none =>
    match tP cleaned with
    | some v => some v
    | none =>
      match cleaned.data.findIdx? (· = Char.ofNat 0x7b),
            (cleaned.data.reverse.findIdx? (· = Char.ofNat 0x7d)).map
              (fun i => cleaned.data.length - 1 - i) with
      | some firstB, some lastB =>
        if lastB > firstB then
          tP (jsTrim ⟨(cleaned.data.drop firstB).take (lastB + 1 - firstB)⟩)
        else none
      | _, _ => none

/-- Strip a case-insensitive literal. -/
def stripCI : List Char → List Char → Option (List Char)
  | [], cs => some cs
  | _ :: _, [] => none
  | p :: ps, c :: cs => if lowerChar c = lowerChar p then stripCI ps cs else none

/-- Match the full slide marker `\*\*Slide\s+\d+:\*\*` at the head (with the
`/i` flag), returning the remainder. -/
def slideMarkAt (cs : List Char) : Option (List Char) :=
  match stripCI "**slide".data cs with
  | none => none
  | some r1 =>
    if r1.takeWhile jsWhitespace = [] then none
    else
      let r2 := r1.dropWhile jsWhitespace
      if r2.takeWhile digitChar = [] then none
      else
        match r2.dropWhile digitChar with
        | ':' :: '*' :: '*' :: r4 => some r4
        | _ => none

/-- The lookahead alternative `\*\*Slide\s+\d+:` (no trailing stars). -/
def slideMark2At (cs : List Char) : Bool :=
  match stripCI "**slide".data cs with
  | none => false
  | some r1 =>
    if r1.takeWhile jsWhitespace = [] then false
    else
      let r2 := r1.dropWhile jsWhitespace
      if r2.takeWhile digitChar = [] then false
      else
        match r2.dropWhile digitChar with
        | ':' :: _ => true
        | _ => false

/-- The lookahead alternative `\(\d+\s+slides`. -/
def parenSlidesAt (cs : List Char) : Bool :=
  match cs with
  | '(' :: r1 =>
    if r1.takeWhile digitChar = [] then false
    else
      let r2 := r1.dropWhile digitChar
      if r2.takeWhile jsWhitespace = [] then false
      else (stripCI "slides".data (r2.dropWhile jsWhitespace)).isSome
  | _ => false

/-- The block-terminating lookahead `(?=(\*\*Slide\s+\d+:)|\(\d+\s+slides|\Z)`.
The regex has no `u` flag, so `\Z` is the literal letter `Z` — matched
case-insensitively under `/i`, hence any `z` ends a block, and a final block
not followed by one of the alternatives fails to match at all. -/
def lookaheadOk (cs : List Char) : Bool :=
  slideMark2At cs || parenSlidesAt cs ||
    (match cs with | c :: _ => decide (lowerChar c = 'z') | [] => false)

/-- Lazy capture up to the first position satisfying the lookahead. -/
def scanCapture (acc : List Char) : List Char → Option (List Char × List Char)
  | [] => none
  | c :: rest =>
    if lookaheadOk (c :: rest) then some (acc.reverse, c :: rest)
    else scanCapture (c :: acc) rest

/-- All block captures of the slide-marker regex under `/g`: successive
non-overlapping leftmost matches; a failed start resumes one character on. -/
def explicitGo : List Char → ℕ → List (List Char)
  | _, 0 => []
  | [], _ + 1 => []
  | c :: rest, fuel + 1 =>
    match slideMarkAt (c :: rest) with
    | some afterMark =>
      (match scanCapture [] (afterMark.dropWhile jsWhitespace) with
       | some (cap, contFrom) => cap :: explicitGo contFrom fuel
       | none => explicitGo rest fuel)
    | none => explicitGo rest fuel

/-- `replace(/\*\*/g, '')`: drop non-overlapping double-star pairs. -/
def removeDoubleStar : List Char → List Char
  | '*' :: '*' :: rest => removeDoubleStar rest
  | c :: cs => c :: removeDoubleStar cs
  | [] => []

/-- `cleanHeadline`. -/
def cleanHeadline (line : String) (index : ℕ) : String :=
  let stripped := stripEmojiLead ⟨removeDoubleStar (cleanBulletLineStr line).data⟩
  if stripped = "" then "Slide " ++ toString (index + 1) else stripped

/-- `split(/\n+/)` followed by per-line trim and `filter(Boolean)` — equal to
single-newline splitting with the same trim/filter. -/
def nonBlankLines (block : String) : List String :=
  ((splitOnCharL '\n' block.data).map (fun p => jsTrim ⟨p⟩)).filter (· ≠ "")

/-- The italic headline unwrap `/^\*([^*]+)\*$/`. -/
def italicMid (l : String) : Option String :=
  match l.data with
  | '*' :: rest =>
    (match rest.reverse with
     | '*' :: midRev =>
       let mid := midRev.reverse
       if mid ≠ [] ∧ mid.all (· ≠ '*') then some ⟨mid⟩ else none
     | _ => none)
  | _ => none

/-- `parseExplicitSlideBlocks`: each regex capture becomes a
headline-plus-bullets pair; the headline index counts pushed slides. -/
def parseExplicitSlideBlocks (text : String) : List (String × List String) :=
  (explicitGo text.data (text.data.length + 1)).foldl (fun acc blockRaw =>
    let block := jsTrim ⟨blockRaw⟩
    if block = "" then acc
    else
      match nonBlankLines block with
      | [] => acc
      | l0 :: restLines =>
        let headlineLine := match italicMid l0 with | some m => jsTrim m | none => l0
        let bullets := ((restLines.map cleanBulletLineStr).filter (· ≠ "")).take 5
        acc ++ [(cleanHeadline headlineLine acc.length,
                 if bullets.isEmpty then [""] else bullets)]) []

/-- Index of the last newline in a list, if any. -/
def lastNlIdx (xs : List Char) : Option ℕ :=
  (xs.reverse.findIdx? (· = '\n')).map (fun i => xs.length - 1 - i)

/-- `split(/\n\s*\n/)`: a separator is a newline, greedy whitespace, and a
final newline (the greedy run backtracks to end at the last newline of the
whitespace run that follows). -/
def groupSplitGo (cur : List Char) : List Char → ℕ → List (List Char)
  | _, 0 => [cur.reverse]
  | [], _ + 1 => [cur.reverse]
  | c :: rest, fuel + 1 =>
    if c = '\n' then
      match lastNlIdx (rest.takeWhile jsWhitespace) with
      | some m => cur.reverse :: groupSplitGo [] (rest.drop (m + 1)) fuel
      | none => groupSplitGo ('\n' :: cur) rest fuel
    else groupSplitGo (c :: cur) rest fuel

/-- `parseGroupedSections`: blank-line-delimited blocks with a headline line
and at least one bullet line; the headline index is the block index. -/
def parseGroupedSections (text : String) : List (String × List String) :=
  let blocks :=
    ((groupSplitGo [] text.data (text.data.length + 1)).map (fun p => jsTrim ⟨p⟩)).filter (· ≠ "")
  (blocks.enum.foldl (fun acc ib =>
    match nonBlankLines ib.2 with
    | l0 :: l1 :: restL =>
      let bulletCandidates := ((l1 :: restL).map cleanBulletLineStr).filter (· ≠ "")
      if bulletCandidates.isEmpty then acc
      else acc ++ [(cleanHeadline l0 ib.1, bulletCandidates.take 5)]
    | _ => acc) [])

/-- `buildSlidePayload`: wrap extracted headline/bullet pairs (note: no
`paragraph` key — the normalizer derives it from the bullets). -/
def buildSlidePayload (slides : List (String × List String)) : Option JsonV :=
  match slides with
  | [] => none
  | s0 :: _ =>
    some (.obj [("docTitle", .str (if s0.1 = "" then "Generated Summary" else s0.1)),
                ("slides", .arr (slides.map (fun sl =>
                  JsonV.obj [("headline", .str sl.1),
                             ("bullets", .arr (sl.2.map JsonV.str)),
                             ("chart", .null)])))])

/-- `parseSlidesFromText`: explicit `**Slide N:**` blocks first, then
paragraph-grouped sections. -/
def parseSlidesFromText (content : String) : Option JsonV :=
  let text : String := ⟨crlfToLf content.data⟩
  let explicitSlides := parseExplicitSlideBlocks text
  if ¬explicitSlides.isEmpty then buildSlidePayload explicitSlides
  else
    let grouped := parseGroupedSections text
    if ¬grouped.isEmpty then buildSlidePayload grouped else none

/-- `parseStructuredResponse`: empty payloads raise the empty-response error;
then JSON extraction, then heuristic slide extraction, then the
not-valid-JSON error. -/
def parseStructuredResponse (content : String) : Except JsErr JsonV :=
  if content = "" then .error (jsError "Longcat returned an empty response")
  else
    match tryExtractJson content with
    | some j => .ok j
    | none =>
      match parseSlidesFromText content with
      | some s => .ok s
      | none => .error (jsError "Longcat response was not valid JSON")

example : tryExtractJson "\x22```json 1 ```\x22" = some (.num (mkRat 1 1)) := by decide
example : safeParse "\x22```json 1 ```\x22" = some (.str "```json 1 ```") := by decide
example : tryExtractJson "noise \x7b\x22a\x22: 2\x7d tail" =
    some (.obj [("a", .num (mkRat 2 1))]) := by decide

/-- Decidable equality for thrown errors (structural, cause chain included). -/
def beqE : JsErr → JsErr → Bool
  | .mk n m c e k, .mk n2 m2 c2 e2 k2 =>
    n = n2 && m = m2 && c = c2 && e = e2 &&
      (match k, k2 with
       | none, none => true
       | some a, some b => beqE a b
       | _, _ => false)

theorem beqE_iff : ∀ (a b : JsErr), beqE a b = true ↔ a = b
  | .mk n m c e none, .mk n2 m2 c2 e2 none => by simp [beqE, and_assoc]
  | .mk n m c e none, .mk n2 m2 c2 e2 (some b2) => by simp [beqE]
  | .mk n m c e (some a2), .mk n2 m2 c2 e2 none => by simp [beqE]
  | .mk n m c e (some a2), .mk n2 m2 c2 e2 (some b2) => by
    simp [beqE, beqE_iff a2 b2, and_assoc]

instance : DecidableEq JsErr := fun a b => decidable_of_iff _ (beqE_iff a b)

/-! ## part_006: nullish helpers and the gated slide stage of `summarizeToSlides` -/

/-- `v ?? w` triggers on `null` and `undefined` only. -/
def jsNullish : JsonV → Bool
  | .null => true
  | .undef => true
  | _ => false

/-- `pickFallbackSlide`: `fallbackSlides[index] ?? fallbackSlides[last] ?? null`
over the (already normalized) fallback document. -/
def pickFallbackSlide (fb : JsonV) (index : ℕ) : JsonV :=
  let fallbackSlides := match jsGet fb "slides" with | .arr xs => xs | _ => []
  if fallbackSlides.isEmpty then .null
  else
    let first := fallbackSlides.getD index .undef
    if ¬jsNullish first then first
    else
      let last := fallbackSlides.getD (fallbackSlides.length - 1) .undef
      if ¬jsNullish last then last else .null

/-- The state threaded through `summarizeToSlides`' slide map: processed
slides, the substitution counter, the (possibly replaced) title, and the
lazily computed fallback document. -/
def gateSlides (text : String) (stats : SummaryStats) :
    List JsonV → ℕ → ℕ → String → Option JsonV →
    Except JsErr (List JsonV × ℕ × String × Option JsonV)
  | [], _, fbCount, docTitle, fbCache => .ok ([], fbCount, docTitle, fbCache)
  | slide :: restS, index, fbCount, docTitle, fbCache => do
    let sourceSlide := match slide with | .obj _ => slide | .arr _ => slide | _ => JsonV.null
    let meaningful ← slideHasMeaningfulContent sourceSlide
    let (sourceSlide, fbCount, docTitle, fbCache) ←
      if meaningful then pure (sourceSlide, fbCount, docTitle, fbCache)
      else do
        let fb ←
          match fbCache with
          | some fb => pure fb
          | none => do
            let built ← buildHeuristicSummary text stats
            normalizeStructuredResponse built
        let fallbackSlide := pickFallbackSlide fb index
        let fbMeaningful ← slideHasMeaningfulContent fallbackSlide
        if fbMeaningful then
          let docTitle :=
            match jsGet fb "docTitle" with
            | .str s2 =>
              if index = 0 ∧ isDocTitleWeak docTitle ∧ s2 ≠ "" then s2 else docTitle
            | _ => docTitle
          pure (fallbackSlide, fbCount + 1, docTitle, some fb)
        else pure (sourceSlide, fbCount, docTitle, some fb)
    let sourceSlide :=
      if sourceSlide = JsonV.null then
        JsonV.obj [("headline", .str ("Section " ++ toString (index + 1))),
                   ("paragraph", .str ""), ("bullets", .arr []), ("chart", .null)]
      else sourceSlide
    let paragraph ← normalizeParagraph (jsGet sourceSlide "paragraph") (jsGet sourceSlide "bullets")
    let bullets ← normalizeBullets (jsGet sourceSlide "bullets") paragraph
    let outSlide :=
      JsonV.obj [("headline", .str (normalizeHeadline (jsGet sourceSlide "headline") index)),
                 ("paragraph", .str paragraph),
                 ("bullets", .arr (bullets.map JsonV.str)),
                 ("chart", normalizeChart (jsGet sourceSlide "chart"))]
    let (restOut, fbCount, docTitle, fbCache) ←
      gateSlides text stats restS (index + 1) fbCount docTitle fbCache
    return (outSlide :: restOut, fbCount, docTitle, fbCache)

/-- The post-`catch` body of `summarizeToSlides` (everything after
`structured` is obtained): zod validation, slide-count shaping, the gated
per-slide map, and the final document with stats and warnings. -/
def summarizeAfterRemote (structured : JsonV) (text : String) : Except JsErr JsonV := do
  let stats := determineSlideCount text
  let parsed ← zodParseSummary structured
  let parsedSlides := match jsGet parsed "slides" with | .arr xs => xs | _ => []
  let parsedTitle := match jsGet parsed "docTitle" with | .str s => s | _ => ""
  let desiredCount := min (max stats.slideCount 2) 8
  let slides := parsedSlides.take desiredCount
  let slides := if slides.isEmpty then parsedSlides.take 2 else slides
  let slides := slides ++
    (List.range (desiredCount - slides.length)).map
      (fun i => parsedSlides.getD (slides.length + i) JsonV.null)
  let slides := if slides.isEmpty then List.replicate desiredCount JsonV.null else slides
  let (outSlides, fbCount, docTitle, _) ← gateSlides text stats slides 0 0 parsedTitle none
  let warnings : List String :=
    if fbCount > 0 then
      ["Longcat returned incomplete content; substituted heuristic text for " ++
        toString fbCount ++ " section" ++ (if fbCount = 1 then "" else "s") ++ "."]
    else []
  let statsObj := statsJson stats outSlides.length desiredCount
    (if fbCount > 0 then some fbCount else none)
  return .obj [("docTitle", .str docTitle), ("slides", .arr outSlides),
               ("stats", statsObj), ("warnings", .arr (warnings.map JsonV.str))]

/-- `summarizeToSlides` from the remote payload on: the `try` block parses
and normalizes the payload, a failure there goes to the `catch` stage, and a
success continues with `SummarySchema.parse` and the gated map (whose own
errors, like zod's, propagate uncaught). -/
def summarizeFromContent (content : String) (text : String) : Except JsErr JsonV :=
  match (parseStructuredResponse content).bind normalizeStructuredResponse with
  | .error e => summarizeCatchStage e text
  | .ok structured => summarizeAfterRemote structured text

/-! ## document-text.js: credential pool and failover client -/

/-- `replace(/^[0-9]+\./, '')`: strip one leading digit run followed by a
dot. -/
def stripNumDot (cs : List Char) : List Char :=
  if cs.takeWhile digitChar = [] then cs
  else
    match cs.dropWhile digitChar with
    | '.' :: rest => rest
    | _ => cs

/-- `sanitizeKey`: trim, strip a `digits.` numbering, trim again. -/
def sanitizeKey (value : String) : String :=
  if value = "" then ""
  else
    let trimmed := jsTrim value
    if trimmed = "" then ""
    else jsTrim ⟨stripNumDot trimmed.data⟩

/-- The key manager's closure state: the de-duplicated ordered pool plus the
cursor. -/
structure KMState where
  pool : List String
  index : ℕ
deriving Repr, DecidableEq

/-- `createKeyManager`: sanitize, drop empties, de-duplicate (first
occurrence wins), cursor at 0. -/
def createKeyManager (keys : List String) : KMState :=
  ⟨jsSetDedup ((keys.map sanitizeKey).filter (· ≠ "")), 0⟩

/-- `current()`: reset an out-of-range cursor to 0, then read the pool. -/
def kmCurrent (st : KMState) : Option String × KMState :=
  if st.pool.isEmpty then (none, st)
  else
    let st := if st.index ≥ st.pool.length then { st with index := 0 } else st
    (some (st.pool.getD st.index ""), st)

/-- `markInvalid(key)`: remove the sanitized key if present, fix up the
cursor (`index % pool.length` when the removal was at or before it), and
return the new current credential. -/
def kmMarkInvalid (key : String) (st : KMState) : Option String × KMState :=
  let sanitized := sanitizeKey key
  match st.pool.findIdx? (· = sanitized) with
  | none => kmCurrent st
  | some position =>
    let pool := st.pool.eraseIdx position
    if pool.isEmpty then (none, { st with pool := pool })
    else
      let index := if position ≤ st.index then st.index % pool.length else st.index
      kmCurrent { pool := pool, index := index }

def MAX_ATTEMPTS : ℕ := 3

def RETRYABLE_STATUS_CODES : List ℕ := [408, 409, 425, 429, 500, 502, 503, 504]

def RETRYABLE_CAUSE_CODES : List String :=
  ["UND_ERR_CONNECT_TIMEOUT", "UND_ERR_HEADERS_TIMEOUT", "UND_ERR_SOCKET",
   "UND_ERR_BODY_TIMEOUT", "ECONNRESET", "ECONNREFUSED", "EHOSTUNREACH",
   "ETIMEDOUT", "ENOTFOUND"]

/-- `isRetryableFetchError`: recognized transport codes, abort signals, or
timeout/temporarily/socket phrases in the joined messages. -/
def isRetryableFetchError (error : JsErr) : Bool :=
  let cause := match error.cause with | some c => c | none => error
  let codeStr : String :=
    match cause.code with
    | some c => if c = "" then cause.errno.getD "" else c
    | none => cause.errno.getD ""
  if codeStr ≠ "" ∧ codeStr ∈ RETRYABLE_CAUSE_CODES then true
  else if error.name = "AbortError" ∨ cause.name = "AbortError" then true
  else
    let message :=
      lowerStr (String.intercalate " " (([error.message, cause.message]).filter (· ≠ "")))
    strContains message "timeout" ∨ strContains message "temporarily" ∨
      strContains message "socket"

/-- `backoffMs`: linear backoff. -/
def backoffMs (attempt : ℕ) : ℕ := 300 * attempt

/-- `formatFetchError`: message, `code=...`, and a distinct cause message,
joined by pipes. -/
def formatFetchError (error : JsErr) : String :=
  let parts :=
    (if error.message ≠ "" then [error.message] else []) ++
    (match error.cause with
     | some cause =>
       (match cause.code with
        | some c => if c ≠ "" then ["code=" ++ c] else []
        | none => []) ++
       (if cause.message ≠ "" ∧ cause.message ≠ error.message then [cause.message] else [])
     | none => [])
  let joined := String.intercalate " | " (parts.filter (· ≠ ""))
  if joined = "" then "unknown error" else joined

/-- One network interaction: either the `fetch` promise rejects with an
error, or a response arrives with a status, a text body (used for error
details) and a JSON body (`none` models an unreadable body). -/
structure RespOutcome where
  status : ℕ
  detail : String
  body : Option String
deriving Repr, DecidableEq

inductive FetchOutcome where
  | reject (e : JsErr)
  | resp (r : RespOutcome)
deriving DecidableEq

/-- The error produced by `toError` when `response.json()` rejects (message
paraphrases the engine's). -/
def jsonBodyError : JsErr := .mk "SyntaxError" "Unexpected end of JSON input" none none none

/-- How one run of `post`'s inner `for` loop ends. -/
inductive AttemptRes where
  | success (payload : String)
  | thrown (e : JsErr)
  | rotated (next : Option String)
  | exhausted
deriving DecidableEq

/-- The inner `for (attempt = 1..MAX_ATTEMPTS)` loop of `post`. `env n` is
the outcome of the `n`-th network call of the whole invocation; the returned
tuple carries the key-manager state, next call index, `lastError`, and the
backoff sleeps performed. `fuelA` counts the remaining loop iterations
(entered with `MAX_ATTEMPTS` at `attempt = 1`); its exhaustion is the
loop-falls-through case. -/
def attemptRun (env : ℕ → FetchOutcome) (proxyConfigured : Bool) (apiKey : String) :
    ℕ → KMState → ℕ → Option JsErr → List ℕ → ℕ →
    AttemptRes × KMState × ℕ × Option JsErr × List ℕ
  | _, km, callIdx, lastError, sleeps, 0 => (.exhausted, km, callIdx, lastError, sleeps)
  | attempt, km, callIdx, lastError, sleeps, fuelA + 1 =>
    match env callIdx with
    | .reject error =>
      if ¬isRetryableFetchError error ∨ attempt = MAX_ATTEMPTS then
        let msgStart :=
          if proxyConfigured then "Longcat request failed (check proxy settings)"
          else "Longcat request failed"
        (.thrown (jsErrorC (msgStart ++ ": " ++ formatFetchError error) error),
          km, callIdx + 1, some error, sleeps)
      else
        attemptRun env proxyConfigured apiKey (attempt + 1) km (callIdx + 1) (some error)
          (sleeps ++ [backoffMs attempt]) fuelA
    | .resp r =>
      if ¬(200 ≤ r.status ∧ r.status ≤ 299) then
        let detailSlice : String := ⟨r.detail.data.take 200⟩
        let error := jsError ("Longcat request failed (" ++ toString r.status ++ "): " ++
          (if detailSlice = "" then "no details" else detailSlice))
        if r.status = 401 ∨ r.status = 403 then
          match kmMarkInvalid apiKey km with
          | (none, km2) =>
            (.thrown (jsErrorC "All Longcat API keys were rejected by the server" error),
              km2, callIdx + 1, some error, sleeps)
          | (some nk, km2) => (.rotated (some nk), km2, callIdx + 1, some error, sleeps)
        else if ¬(r.status ∈ RETRYABLE_STATUS_CODES) ∨ attempt = MAX_ATTEMPTS then
          (.thrown error, km, callIdx + 1, lastError, sleeps)
        else
          attemptRun env proxyConfigured apiKey (attempt + 1) km (callIdx + 1) (some error)
            (sleeps ++ [backoffMs attempt]) fuelA
      else
        match r.body with
        | some payload => (.success payload, km, callIdx + 1, lastError, sleeps)
        | none =>
          if attempt = MAX_ATTEMPTS then
            (.thrown (jsErrorC "Longcat returned an unreadable response body" jsonBodyError),
              km, callIdx + 1, some jsonBodyError, sleeps)
          else
            attemptRun env proxyConfigured apiKey (attempt + 1) km (callIdx + 1)
              (some jsonBodyError) (sleeps ++ [backoffMs attempt]) fuelA

/-- How a whole `post` invocation ends (plus `fuelOut` for the fuelled model
of its unbounded `while (true)`). -/
inductive PostRes where
  | ok (payload : String)
  | err (e : JsErr)
  | fuelOut
deriving DecidableEq

/-- The network calls made and backoff sleeps performed. -/
structure ClientTrace where
  calls : ℕ
  sleeps : List ℕ
deriving Repr, DecidableEq

/-- The `throw` for an empty pool (`no API keys available` /
`after exhausting all API keys`). -/
def noKeysError (lastError : Option JsErr) : JsErr :=
  match lastError with
  | some le =>
    if le.message ≠ "" then
      .mk "Error" ("Longcat request failed after exhausting all API keys: " ++ le.message)
        none none (some le)
    else .mk "Error" "Longcat request failed: no API keys available" none none (some le)
  | none => .mk "Error" "Longcat request failed: no API keys available" none none none

/-- The outer `while (true)` of `post`, fuelled: select the current
credential, run the attempt loop, and loop again only after a rotation. -/
def postLoop (env : ℕ → FetchOutcome) (proxyConfigured : Bool) :
    ℕ → KMState → ℕ → Option JsErr → List ℕ → PostRes × ClientTrace
  | 0, _, callIdx, _, sleeps => (.fuelOut, ⟨callIdx, sleeps⟩)
  | fuel + 1, km, callIdx, lastError, sleeps =>
    let (curKey, km) := kmCurrent km
    match curKey with
    | none => (.err (noKeysError lastError), ⟨callIdx, sleeps⟩)
    | some apiKey =>
      if apiKey = "" then (.err (noKeysError lastError), ⟨callIdx, sleeps⟩)
      else
        match attemptRun env proxyConfigured apiKey 1 km callIdx lastError sleeps MAX_ATTEMPTS with
        | (.success p, _, c2, _, sl2) => (.ok p, ⟨c2, sl2⟩)
        | (.thrown e, _, c2, _, sl2) => (.err e, ⟨c2, sl2⟩)
        | (.rotated _, km2, c2, le2, sl2) => postLoop env proxyConfigured fuel km2 c2 le2 sl2
        | (.exhausted, _, c2, le2, sl2) =>
          (.err (.mk "Error" "Longcat request failed" none none le2), ⟨c2, sl2⟩)

/-- `post` over a fresh key manager. -/
def postModel (env : ℕ → FetchOutcome) (proxyConfigured : Bool) (keys : List String)
    (fuel : ℕ) : PostRes × ClientTrace :=
  postLoop env proxyConfigured fuel (createKeyManager keys) 0 none []

/-! ## Claim C8: `determineSlideCount` thresholds -/

/-- The slide-count rule as the specification states it: the fixed
threshold chain, a raise to 6 for five-or-more unique sections, and a final
clamp to `[2, 8]`. -/
def specSlideCount (chars sections : ℕ) : ℕ :=
  let base :=
    if chars < 1200 ∧ sections ≤ 1 then 2
    else if chars < 2600 ∧ sections ≤ 2 then 3
    else if chars < 4200 then 4
    else if chars < 6200 then 5
    else if chars < 8800 then 6
    else if chars < 11500 ∨ sections ≥ 6 then 7
    else 8
  let raised := if sections ≥ 5 ∧ base < 6 then 6 else base
  min 8 (max 2 raised)

/-- C8: `determineSlideCount` computes exactly the specified threshold
chain over the document's character count and unique-section count. -/
theorem c8_determineSlideCount_thresholds (text : String) :
    (determineSlideCount text).slideCount =
      specSlideCount (jsLength text) (countSections text) ∧
    (determineSlideCount text).charCount = jsLength text ∧
    (determineSlideCount text).uniqueSections = countSections text := by
  unfold determineSlideCount specSlideCount
  dsimp only
  refine ⟨?_, rfl, rfl⟩
  split_ifs <;> omega

/-! ## Claim C7: the Quality Gate characterization -/

/-- A slide value with a string paragraph and string bullets, the shape
every slide reaching the gate on the main path has. -/
def mkSlideV (p : String) (bullets : List String) : JsonV :=
  .obj [("headline", .str "H"), ("paragraph", .str p),
        ("bullets", .arr (bullets.map JsonV.str)), ("chart", .null)]

/-- The cleaned, non-placeholder bullet texts the gate weighs. -/
def gateBulletTexts (bullets : List String) : List String :=
  (bullets.map cleanBulletLineStr).filter (fun t => t ≠ "" ∧ ¬isPlaceholderBullet t)

/-- C7 as the specification words it: meaningful iff a long non-placeholder
paragraph, or two non-placeholder bullets totalling 50, or a medium
paragraph with bullet support. -/
def meaningfulOriginalSpec (p : String) (bullets : List String) : Prop :=
  let paragraphText := collapseWhitespace p
  let bulletTexts := gateBulletTexts bullets
  let substantial := bulletTexts.filter (fun t => jsLength t ≥ 12)
  let total := (bulletTexts.map jsLength).sum
  (¬isPlaceholderParagraph paragraphText ∧ jsLength paragraphText ≥ 80) ∨
  (bulletTexts.length ≥ 2 ∧ total ≥ 50) ∨
  (¬isPlaceholderParagraph paragraphText ∧ jsLength paragraphText ≥ 40 ∧
    (substantial.length ≥ 1 ∨ total ≥ 30))

/-- C7 amended: the two bullets of the middle disjunct must moreover be
substantial (length at least 12 after cleanup); the 50-character total still
ranges over all non-placeholder bullets. -/
def meaningfulAmendedSpec (p : String) (bullets : List String) : Prop :=
  let paragraphText := collapseWhitespace p
  let bulletTexts := gateBulletTexts bullets
  let substantial := bulletTexts.filter (fun t => jsLength t ≥ 12)
  let total := (bulletTexts.map jsLength).sum
  (¬isPlaceholderParagraph paragraphText ∧ jsLength paragraphText ≥ 80) ∨
  (substantial.length ≥ 2 ∧ total ≥ 50) ∨
  (¬isPlaceholderParagraph paragraphText ∧ jsLength paragraphText ≥ 40 ∧
    (substantial.length ≥ 1 ∨ total ≥ 30))

theorem jsCleanBulletLine_str (s : String) :
    jsCleanBulletLine (.str s) = .ok (cleanBulletLineStr s) := by
  by_cases h : s = ""
  · subst h; simp [jsCleanBulletLine, jsFalsy, cleanBulletLineStr]
  · simp [jsCleanBulletLine, jsFalsy, h]

theorem mapM_clean_loop (bs : List String) (acc : List String) :
    List.mapM.loop jsCleanBulletLine (bs.map JsonV.str) acc =
      .ok (acc.reverse ++ bs.map cleanBulletLineStr) := by
  induction bs generalizing acc with
  | nil => simp [List.mapM.loop, pure, Except.pure]
  | cons b bs ih =>
    simp [List.mapM.loop, jsCleanBulletLine_str, ih, Bind.bind, Except.bind]

theorem mapM_clean_str (bs : List String) :
    (bs.map JsonV.str).mapM jsCleanBulletLine = .ok (bs.map cleanBulletLineStr) := by
  simpa [List.mapM] using mapM_clean_loop bs []

/-- C7 (amended): on string-shaped slides the Quality Gate holds exactly for
the amended three-clause condition (middle clause over substantial
bullets). -/
theorem c7_quality_gate_amended (p : String) (bs : List String) :
    slideHasMeaningfulContent (mkSlideV p bs) = .ok true ↔ meaningfulAmendedSpec p bs := by
  have hb : jsGet (mkSlideV p bs) "bullets" = .arr (bs.map JsonV.str) := rfl
  have hp : jsGet (mkSlideV p bs) "paragraph" = .str p := rfl
  have hf : jsFalsy (mkSlideV p bs) = false := rfl
  unfold meaningfulAmendedSpec gateBulletTexts
  rw [show slideHasMeaningfulContent (mkSlideV p bs) = (do
      let mapped ← (bs.map JsonV.str).mapM jsCleanBulletLine
      let bulletTexts := mapped.filter (fun t => t ≠ "" ∧ ¬isPlaceholderBullet t)
      let isParagraphPh := isPlaceholderParagraph (collapseWhitespace p)
      let meaningfulBulletCount := (bulletTexts.filter (fun t => jsLength t ≥ 12)).length
      let totalBulletChars := (bulletTexts.map jsLength).sum
      if ¬isParagraphPh ∧ jsLength (collapseWhitespace p) ≥ 80 then pure true
      else if meaningfulBulletCount ≥ 2 ∧ totalBulletChars ≥ 50 then pure true
      else if ¬isParagraphPh ∧ jsLength (collapseWhitespace p) ≥ 40 ∧
          (meaningfulBulletCount ≥ 1 ∨ totalBulletChars ≥ 30) then pure true
      else pure false : Except JsErr Bool) from rfl]
  rw [mapM_clean_str]
  simp only [Bind.bind, Except.bind, pure, Except.pure]
  split_ifs with h1 h2 h3 <;> simp_all

/-- C7 counterexample: two non-placeholder bullets totalling 62 characters
(so the claim's middle clause holds), but only one of them is substantial,
and the gate rejects the slide. -/
theorem c7_counterexample :
    slideHasMeaningfulContent (mkSlideV "Summary forthcoming."
      ["first tiny", "this is a long bullet with plenty of characters here"]) = .ok false ∧
    meaningfulOriginalSpec "Summary forthcoming."
      ["first tiny", "this is a long bullet with plenty of characters here"] := by
  constructor
  · rfl
  · unfold meaningfulOriginalSpec gateBulletTexts
    decide

/-! ## Claim C6: salvage-parser attempt order -/

/-- First candidate text whose `safeParse` yields a truthy value. -/
def firstTruthyParse : List String → Option JsonV
  | [] => none
  | t :: ts =>
    match safeParse t with
    | some v => if jsFalsy v then firstTruthyParse ts else some v
    | none => firstTruthyParse ts

/-- The third salvage candidate: the first-`\x7b`-to-last-`\x7d` slice, when
braces exist in that order. -/
def braceCandidates (content : String) : List String :=
  let cleaned := jsTrim content
  match cleaned.data.findIdx? (· = Char.ofNat 0x7b),
        (cleaned.data.reverse.findIdx? (· = Char.ofNat 0x7d)).map
          (fun i => cleaned.data.length - 1 - i) with
  | some firstB, some lastB =>
    if lastB > firstB then [jsTrim ⟨(cleaned.data.drop firstB).take (lastB + 1 - firstB)⟩]
    else []
  | _, _ => []

/-- The salvage attempts in the order the code makes them: the fenced-block
capture when the fence regex matches, then the whole trimmed payload, then
the brace slice. -/
def salvageCandidates (content : String) : List String :=
  (match fencedGo (jsTrim content).data with
   | some cap => [jsTrim cap]
   | none => []) ++
  [jsTrim content] ++ braceCandidates content

theorem firstTruthy_nil : firstTruthyParse [] = none := rfl

theorem firstTruthy_cons (t : String) (ts : List String) :
    firstTruthyParse (t :: ts) =
      (match safeParse t with
       | some v => if jsFalsy v then firstTruthyParse ts else some v
       | none => firstTruthyParse ts) := rfl

theorem braceTail_eq (content : String) :
    (match (jsTrim content).data.findIdx? (· = Char.ofNat 0x7b),
           ((jsTrim content).data.reverse.findIdx? (· = Char.ofNat 0x7d)).map
             (fun i => (jsTrim content).data.length - 1 - i) with
     | some firstB, some lastB =>
       if lastB > firstB then
         (match safeParse (jsTrim ⟨((jsTrim content).data.drop firstB).take
             (lastB + 1 - firstB)⟩) with
          | some v => if jsFalsy v then none else some v
          | none => none)
       else none
     | _, _ => none) =
    firstTruthyParse (braceCandidates content) := by
  unfold braceCandidates
  dsimp only
  rcases (jsTrim content).data.findIdx? (· = Char.ofNat 0x7b) with _ | fb <;>
    rcases ((jsTrim content).data.reverse.findIdx? (· = Char.ofNat 0x7d)).map
      (fun i => (jsTrim content).data.length - 1 - i) with _ | lb <;>
    simp only [firstTruthy_nil]
  split_ifs with hgt
  · simp only [firstTruthy_cons, firstTruthy_nil]
  · rfl

theorem tryExtractJson_eq_first (content : String) :
    tryExtractJson content = firstTruthyParse (salvageCandidates content) := by
  unfold tryExtractJson salvageCandidates
  dsimp only
  rw [braceTail_eq]
  rcases fencedGo (jsTrim content).data with _ | cap <;>
    simp only [List.nil_append, List.cons_append, firstTruthy_cons]
  · rcases safeParse (jsTrim content) with _ | v
    · rfl
    · dsimp only
      split_ifs <;> rfl
  · rcases safeParse (jsTrim cap) with _ | v
    · dsimp only
      rcases safeParse (jsTrim content) with _ | v2
      · rfl
      · dsimp only
        split_ifs <;> rfl
    · dsimp only
      split_ifs <;>
        first
        | rfl
        | (rcases safeParse (jsTrim content) with _ | v2
           · rfl
           · dsimp only
             split_ifs <;> rfl)

/-- C6 (amended): the salvage parser tries the fenced block first, then the
direct parse, then the brace slice, then heuristic slide extraction; the
first attempt producing a truthy value wins, an empty payload raises the
empty-response error, and otherwise failure raises the not-valid-JSON
error. -/
theorem c6_salvage_order_amended (content : String) :
    parseStructuredResponse content =
      (if content = "" then .error (jsError "Longcat returned an empty response")
       else
         match firstTruthyParse (salvageCandidates content) with
         | some v => .ok v
         | none =>
           match parseSlidesFromText content with
           | some s => .ok s
           | none => .error (jsError "Longcat response was not valid JSON")) := by
  unfold parseStructuredResponse
  rw [tryExtractJson_eq_first]

def c6payload : String := "\x22```json 1 ```\x22"

/-- C6 counterexample: a payload that is itself valid JSON (a string
literal) and also contains a fenced block; the direct parse succeeds with
the string, yet the parser returns the fenced block's number — so the
direct parse is not attempted first. The final conjuncts show the empty
payload raises a distinct empty-response error rather than the
not-valid-JSON error. -/
theorem c6_counterexample :
    safeParse (jsTrim c6payload) = some (.str "```json 1 ```") ∧
    jsFalsy (JsonV.str "```json 1 ```") = false ∧
    parseStructuredResponse c6payload = .ok (.num (mkRat 1 1)) ∧
    JsonV.num (mkRat 1 1) ≠ JsonV.str "```json 1 ```" ∧
    parseStructuredResponse "" = .error (jsError "Longcat returned an empty response") ∧
    "Longcat returned an empty response" ≠ "Longcat response was not valid JSON" := by
  refine ⟨rfl, rfl, rfl, ?_, rfl, ?_⟩ <;> decide

/-! ## Claim C4: retry ceiling with linear backoff -/

/-- A retryable transient failure: a rejected fetch whose error the client
classifies as retryable, or a response with a retryable status. -/
def retryableTransient : FetchOutcome → Prop
  | .reject e => isRetryableFetchError e = true
  | .resp r => r.status ∈ RETRYABLE_STATUS_CODES

instance : DecidablePred retryableTransient := fun o =>
  match o with
  | .reject _ => inferInstanceAs (Decidable (_ = true))
  | .resp _ => inferInstanceAs (Decidable (_ ∈ _))

def PostRes.isErr : PostRes → Bool
  | .err _ => true
  | _ => false

theorem retryable_status_facts {st : ℕ} (h : st ∈ RETRYABLE_STATUS_CODES) :
    ¬(200 ≤ st ∧ st ≤ 299) ∧ ¬(st = 401 ∨ st = 403) := by
  fin_cases h <;> omega

/-- Three retryable outcomes drive the inner loop through all three
attempts, sleeping the linear backoff after the first two, and end in a
thrown error. -/
theorem attemptRun_all_retryable (env : ℕ → FetchOutcome) (proxy : Bool) (key : String)
    (km : KMState) (callIdx : ℕ) (lastError : Option JsErr) (sleeps : List ℕ)
    (h0 : retryableTransient (env callIdx)) (h1 : retryableTransient (env (callIdx + 1)))
    (h2 : retryableTransient (env (callIdx + 2))) :
    ((attemptRun env proxy key 1 km callIdx lastError sleeps MAX_ATTEMPTS).1 matches .thrown _) ∧
    (attemptRun env proxy key 1 km callIdx lastError sleeps MAX_ATTEMPTS).2.1 = km ∧
    (attemptRun env proxy key 1 km callIdx lastError sleeps MAX_ATTEMPTS).2.2.1 = callIdx + 3 ∧
    (attemptRun env proxy key 1 km callIdx lastError sleeps MAX_ATTEMPTS).2.2.2.2 =
      sleeps ++ [backoffMs 1, backoffMs 2] := by
  rcases hA : env callIdx with e0 | r0 <;>
    rcases hB : env (callIdx + 1) with e1 | r1 <;>
    rcases hC : env (callIdx + 2) with e2 | r2 <;>
    rw [hA] at h0 <;> rw [hB] at h1 <;> rw [hC] at h2 <;>
    unfold retryableTransient at h0 h1 h2
  all_goals try have f0 := retryable_status_facts h0
  all_goals try have f1 := retryable_status_facts h1
  all_goals try have f2 := retryable_status_facts h2
  all_goals
    simp_all [attemptRun, MAX_ATTEMPTS, backoffMs, show callIdx + 1 + 1 = callIdx + 2 from rfl,
      show callIdx + 1 + 1 + 1 = callIdx + 3 from rfl]

/-- C4: with a single-credential pool and every call failing with a
retryable transient error, `post` makes exactly `MAX_ATTEMPTS = 3` network
calls, sleeps the linear backoff `300·attempt` between consecutive
attempts, and ends by raising an error. -/
theorem c4_retry_ceiling (env : ℕ → FetchOutcome) (proxy : Bool) (k : String) (fuel : ℕ)
    (hk : sanitizeKey k ≠ "") (henv : ∀ n, retryableTransient (env n)) (hfuel : fuel ≠ 0) :
    (postModel env proxy [k] fuel).1.isErr = true ∧
    (postModel env proxy [k] fuel).2 = ⟨3, [backoffMs 1, backoffMs 2]⟩ ∧
    backoffMs 1 = 300 ∧ backoffMs 2 = 600 := by
  obtain ⟨f, rfl⟩ : ∃ f, fuel = f + 1 := ⟨fuel - 1, by omega⟩
  have hpool : createKeyManager [k] = ⟨[sanitizeKey k], 0⟩ := by
    simp [createKeyManager, jsSetDedup, hk]
  have h := attemptRun_all_retryable env proxy (sanitizeKey k) ⟨[sanitizeKey k], 0⟩ 0 none []
    (henv 0) (henv 1) (henv 2)
  rcases hres : attemptRun env proxy (sanitizeKey k) 1 ⟨[sanitizeKey k], 0⟩ 0 none []
      MAX_ATTEMPTS with ⟨ar, km2, c2, le2, sl2⟩
  rw [hres] at h
  rcases ar with p | e | nk | _ <;> simp at h
  obtain ⟨hc, hsl⟩ := h.2
  unfold postModel
  rw [hpool]
  unfold postLoop
  simp [kmCurrent, hk, hres, hc, hsl, PostRes.isErr, backoffMs]

def c4TimeoutErr : JsErr := .mk "Error" "fetch failed" (some "ETIMEDOUT") none none

theorem c4_retry_ceiling_witness :
    sanitizeKey "key-one" ≠ "" ∧
    (postModel (fun _ => .reject c4TimeoutErr) false ["key-one"] 1).1.isErr = true ∧
    (postModel (fun _ => .reject c4TimeoutErr) false ["key-one"] 1).2 =
      ⟨3, [backoffMs 1, backoffMs 2]⟩ ∧
    backoffMs 1 = 300 ∧ backoffMs 2 = 600 :=
  ⟨by decide,
   c4_retry_ceiling (fun _ => .reject c4TimeoutErr) false "key-one" 1 (by decide)
     (fun n => show retryableTransient (FetchOutcome.reject c4TimeoutErr) by decide)
     (by decide)⟩

/-! ## Claim C5: credential-rotation exhaustion -/

/-- A credential-rejection outcome: an HTTP 401/403 response. -/
def rejection401 : FetchOutcome → Prop
  | .resp r => r.status = 401 ∨ r.status = 403
  | .reject _ => False

instance : DecidablePred rejection401 := fun o =>
  match o with
  | .resp _ => inferInstanceAs (Decidable (_ ∨ _))
  | .reject _ => inferInstanceAs (Decidable False)

def respOf : FetchOutcome → RespOutcome
  | .resp r => r
  | .reject _ => ⟨0, "", none⟩

/-- The non-2xx error built by `post` for a response. -/
def statusError (r : RespOutcome) : JsErr :=
  jsError ("Longcat request failed (" ++ toString r.status ++ "): " ++
    (if (⟨r.detail.data.take 200⟩ : String) = "" then "no details"
     else (⟨r.detail.data.take 200⟩ : String)))

/-- The all-keys-rejected error with its cause chain. -/
def rejectionExhaustErr (r : RespOutcome) : JsErr :=
  jsErrorC "All Longcat API keys were rejected by the server" (statusError r)

def PostRes.errMessage : PostRes → Option String
  | .err e => some e.message
  | _ => none

theorem kmMarkInvalid_head (k : String) (rest : List String) (hfix : sanitizeKey k = k) :
    kmMarkInvalid k ⟨k :: rest, 0⟩ =
      (if rest.isEmpty then (none, ⟨rest, 0⟩)
       else (some (rest.getD 0 ""), ⟨rest, 0⟩)) := by
  unfold kmMarkInvalid
  rw [hfix]
  dsimp only
  have hidx : (k :: rest).findIdx? (· = k) = some 0 := by
    simp [List.findIdx?_cons]
  rw [hidx]
  cases rest with
  | nil => simp
  | cons r2 rs =>
    simp [List.eraseIdx, kmCurrent]

theorem attemptRun_401_step (env : ℕ → FetchOutcome) (proxy : Bool) (k : String)
    (attempt : ℕ) (km : KMState) (cIdx : ℕ) (le : Option JsErr) (sl : List ℕ)
    (fA : ℕ) (r0 : RespOutcome)
    (hA : env cIdx = .resp r0) (h0 : r0.status = 401 ∨ r0.status = 403) :
    attemptRun env proxy k attempt km cIdx le sl (fA + 1) =
      (match kmMarkInvalid k km with
       | (none, km2) => (.thrown (rejectionExhaustErr r0), km2, cIdx + 1, some (statusError r0), sl)
       | (some nk, km2) => (.rotated (some nk), km2, cIdx + 1, some (statusError r0), sl)) := by
  have hnot2xx : ¬(200 ≤ r0.status ∧ r0.status ≤ 299) := by omega
  rw [attemptRun, hA]
  rcases hm : kmMarkInvalid k km with ⟨nk, km2⟩
  cases nk <;>
    simp [hm, hnot2xx, h0, rejectionExhaustErr, statusError, jsErrorC, jsError]

/-- Each rejection pass removes exactly the head credential and rotates;
with sanitizer-fixed non-empty keys the pool shrinks by one per pass until
the exhaustion error is raised, after exactly one call per credential. -/
theorem post401_cycles (env : ℕ → FetchOutcome) (proxy : Bool)
    (henv : ∀ n, rejection401 (env n)) :
    ∀ (P : List String), P ≠ [] → (∀ k ∈ P, k ≠ "" ∧ sanitizeKey k = k) →
    ∀ (fuel cIdx : ℕ) (le : Option JsErr) (sl : List ℕ), P.length ≤ fuel →
    postLoop env proxy fuel ⟨P, 0⟩ cIdx le sl =
      (.err (rejectionExhaustErr (respOf (env (cIdx + P.length - 1)))), ⟨cIdx + P.length, sl⟩) := by
  intro P
  induction P with
  | nil => intro h; exact absurd rfl h
  | cons k rest ih =>
    intro _ hkeys fuel cIdx le sl hfuel
    obtain ⟨f, rfl⟩ : ∃ f, fuel = f + 1 := ⟨fuel - 1, by simp at hfuel; omega⟩
    have hk := hkeys k (by simp)
    have h0 := henv cIdx
    rcases hA : env cIdx with e0 | r0
    · rw [hA] at h0; exact absurd h0 (by simp [rejection401])
    rw [hA] at h0
    unfold rejection401 at h0
    have hcur : kmCurrent ⟨k :: rest, 0⟩ = (some k, ⟨k :: rest, 0⟩) := by
      simp [kmCurrent]
    rw [postLoop, hcur]
    dsimp only
    rw [if_neg hk.1]
    rw [show MAX_ATTEMPTS = 2 + 1 from rfl]
    rw [attemptRun_401_step env proxy k 1 ⟨k :: rest, 0⟩ cIdx le sl 2 r0 hA h0]
    rw [kmMarkInvalid_head k rest hk.2]
    cases rest with
    | nil =>
      simp [hA, respOf]
    | cons r2 rs =>
      rw [if_neg (by simp)]
      dsimp only
      rw [ih (by simp) (fun k2 hk2 => hkeys k2 (by simp [hk2])) f (cIdx + 1)
        (some (statusError r0)) sl (by simp at hfuel ⊢; omega)]
      simp only [List.length_cons]
      have h1 : cIdx + 1 + (rs.length + 1) - 1 = cIdx + (rs.length + 1 + 1) - 1 := by omega
      have h2 : cIdx + 1 + (rs.length + 1) = cIdx + (rs.length + 1 + 1) := by omega
      rw [h1, h2]

/-- For a pool whose single key is not a fixed point of `sanitizeKey`,
`markInvalid` never finds (and so never removes) the key: the rotation
loop runs out of any amount of fuel, one network call per cycle. -/
theorem postLoop_nonfixed_diverges (r : RespOutcome) (h : r.status = 401 ∨ r.status = 403) :
    ∀ (fuel cIdx : ℕ) (le : Option JsErr) (sl : List ℕ),
    postLoop (fun _ => .resp r) false fuel ⟨["2.abc"], 0⟩ cIdx le sl =
      (.fuelOut, ⟨cIdx + fuel, sl⟩) := by
  intro fuel
  induction fuel with
  | zero => intro cIdx le sl; simp [postLoop]
  | succ f ih =>
    intro cIdx le sl
    have hcur : kmCurrent ⟨["2.abc"], 0⟩ = (some "2.abc", ⟨["2.abc"], 0⟩) := by decide
    rw [postLoop, hcur]
    dsimp only
    rw [if_neg (by decide)]
    rw [show MAX_ATTEMPTS = 2 + 1 from rfl]
    rw [attemptRun_401_step (fun _ => .resp r) false "2.abc" 1 ⟨["2.abc"], 0⟩ cIdx le sl 2 r
      rfl h]
    have hm : kmMarkInvalid "2.abc" ⟨["2.abc"], 0⟩ = (some "2.abc", ⟨["2.abc"], 0⟩) := by
      decide
    rw [hm]
    dsimp only
    rw [ih (cIdx + 1) (some (statusError r)) sl]
    have : cIdx + 1 + f = cIdx + (f + 1) := by omega
    rw [this]

/-- C5, amended. When the initialised pool consists of non-empty keys that
are fixed points of the sanitizer, an all-401/403 endpoint makes the client
perform exactly one network call per credential — `N` calls in total, well
under the claimed `N × 3` bound and with `N` rotation cycles — and raise the
all-keys-rejected error whose cause chain carries the status error of the
last call. The original claim's termination guarantee is refuted by
`c5_counterexample`: a key that is not a fixed point of `sanitizeKey`
(such as "1.2.abc") is never removed by `markInvalid`, and the rotation
loop runs forever. -/
theorem c5_rotation_exhaustion_amended (env : ℕ → FetchOutcome) (proxy : Bool)
    (keys P : List String) (fuel : ℕ)
    (henv : ∀ n, rejection401 (env n))
    (hpool : (createKeyManager keys).pool = P)
    (hne : P ≠ []) (hfix : ∀ k ∈ P, k ≠ "" ∧ sanitizeKey k = k)
    (hfuel : P.length ≤ fuel) :
    postModel env proxy keys fuel =
      (.err (rejectionExhaustErr (respOf (env (P.length - 1)))), ⟨P.length, []⟩) := by
  unfold postModel
  have hkm : createKeyManager keys = ⟨P, 0⟩ := by
    rw [← hpool]; rfl
  rw [hkm]
  rw [post401_cycles env proxy henv P hne hfix fuel 0 none [] hfuel]
  rw [Nat.zero_add]

theorem c5_rotation_exhaustion_witness :
    postModel (fun _ => FetchOutcome.resp ⟨401, "denied", none⟩) false
      ["alpha", "beta"] 2 =
      (.err (rejectionExhaustErr (respOf (FetchOutcome.resp ⟨401, "denied", none⟩))),
        ⟨2, []⟩) :=
  c5_rotation_exhaustion_amended (fun _ => FetchOutcome.resp ⟨401, "denied", none⟩)
    false ["alpha", "beta"] ["alpha", "beta"] 2 (fun _ => Or.inl rfl) (by decide)
    (by decide) (by decide) (by decide)

/-- C5, counterexample to the original claim. The pool holds the single
credential "1.2.abc" (N = 1): the claim promises at most N × 3 = 3 network
calls and termination with the exhaustion error, but because `sanitizeKey`
is not idempotent the stored key "2.abc" is re-sanitized to "abc" by
`markInvalid`, is never found in the pool, and is never removed: after 50
rotation cycles the client has made 50 calls and is still looping. -/
theorem c5_counterexample :
    postModel (fun _ => FetchOutcome.resp ⟨401, "denied", none⟩) false ["1.2.abc"] 50 =
      (.fuelOut, ⟨50, []⟩) ∧
    sanitizeKey "1.2.abc" = "2.abc" ∧
    sanitizeKey (sanitizeKey "1.2.abc") = "abc" := by
  refine ⟨?_, by decide, by decide⟩
  decide

/-! ## Claim C2: key-manager rotation -/

/-- The cyclic rotation order of a key-manager state: the credentials from
the cursor to the end, then those before the cursor. -/
def rotationList (st : KMState) : List String :=
  st.pool.drop st.index ++ st.pool.take st.index

theorem findIdx_append_self (A : List String) (k : String) (B : List String)
    (hA : k ∉ A) : (A ++ k :: B).findIdx? (· = k) = some A.length := by
  induction A with
  | nil => simp [List.findIdx?_cons]
  | cons a as ih =>
    simp only [List.mem_cons, not_or] at hA
    simp [List.findIdx?_cons, hA.1, ih hA.2, Ne.symm]

/-- C2, counterexample. Removing a credential that sits before the cursor
rebases the cursor with `index % pool.length`, which skips the credential
the cursor was on: with pool `["a", "b", "c"]` and current credential "b",
`markInvalid "a"` jumps straight to "c", so "b" is skipped from the
rotation. And a credential that is not a fixed point of the sanitizer
(`sanitizeKey "2.abc" = "abc"`) is present in the pool yet never removed:
`markInvalid "2.abc"` leaves the pool unchanged. -/
theorem c2_counterexample :
    (kmCurrent ⟨["a", "b", "c"], 1⟩).1 = some "b" ∧
    kmMarkInvalid "a" ⟨["a", "b", "c"], 1⟩ = (some "c", ⟨["b", "c"], 1⟩) ∧
    kmMarkInvalid "2.abc" ⟨["2.abc"], 0⟩ = (some "2.abc", ⟨["2.abc"], 0⟩) := by
  exact ⟨by decide, by decide, by decide⟩

/-- C2, amended. For removal of the credential the cursor is on — the only
use the clients make of `markInvalid` — with a sanitizer-fixed key that does
not occur earlier in the pool, the spec's property holds: exactly that
credential is removed, the cyclic rotation order of the new state is the
tail of the old one (no credential beyond the removed one is skipped or
repeated, and the wrap past the end lands on index 0), and the returned
credential is the head of the new rotation (`none` when the pool empties).
Removal of a non-current credential can skip one (see
`c2_counterexample`). -/
theorem c2_markInvalid_amended (A B : List String) (k : String)
    (hfix : sanitizeKey k = k) (hA : k ∉ A) :
    (kmMarkInvalid k ⟨A ++ k :: B, A.length⟩).2.pool = A ++ B ∧
    rotationList (kmMarkInvalid k ⟨A ++ k :: B, A.length⟩).2 = B ++ A ∧
    (kmMarkInvalid k ⟨A ++ k :: B, A.length⟩).1 = (B ++ A).head? ∧
    rotationList ⟨A ++ k :: B, A.length⟩ = k :: (B ++ A) := by
  have h4 : rotationList ⟨A ++ k :: B, A.length⟩ = k :: (B ++ A) := by
    simp [rotationList, List.drop_left, List.take_left]
  have herase : (A ++ k :: B).eraseIdx A.length = A ++ B := by
    simp [List.eraseIdx_append_of_length_le]
  have hmk : kmMarkInvalid k ⟨A ++ k :: B, A.length⟩ =
      (if (A ++ B).isEmpty then (none, ⟨A ++ B, A.length⟩)
       else kmCurrent ⟨A ++ B, A.length % (A ++ B).length⟩) := by
    unfold kmMarkInvalid
    rw [hfix]
    dsimp only
    rw [findIdx_append_self A k B hA]
    dsimp only
    rw [herase, if_pos (Nat.le_refl A.length)]
  rw [hmk]
  cases B with
  | nil =>
    cases A with
    | nil => simp [rotationList]
    | cons a as =>
      rw [if_neg (by simp)]
      simp only [List.append_nil]
      rw [Nat.mod_self]
      unfold kmCurrent
      rw [if_neg (by simp)]
      dsimp only
      rw [if_neg (by simp)]
      exact ⟨rfl, by simp [rotationList], by simp, h4⟩
  | cons b bs =>
    rw [if_neg (by simp)]
    have hlt : A.length < (A ++ b :: bs).length := by simp
    rw [Nat.mod_eq_of_lt hlt]
    unfold kmCurrent
    rw [if_neg (by simp)]
    dsimp only
    rw [if_neg (Nat.not_le.mpr hlt)]
    have hge : (A ++ b :: bs)[A.length] = b := by
      rw [List.getElem_append_right (Nat.le_refl _)]
      simp
    refine ⟨rfl, ?_, ?_, h4⟩
    · simp [rotationList, List.drop_left, List.take_left]
    · simp [hge]

theorem c2_markInvalid_witness :
    (kmMarkInvalid "kk" ⟨["x", "kk", "y"], 1⟩).2.pool = ["x", "y"] ∧
    rotationList (kmMarkInvalid "kk" ⟨["x", "kk", "y"], 1⟩).2 = ["y", "x"] ∧
    (kmMarkInvalid "kk" ⟨["x", "kk", "y"], 1⟩).1 = some "y" ∧
    rotationList ⟨["x", "kk", "y"], 1⟩ = ["kk", "y", "x"] :=
  c2_markInvalid_amended ["x"] ["y"] "kk" (by decide) (by decide)

/-! ## Claim C3: sanitation totality lemmas -/

/-- Printable ASCII, the exact range `toAscii` keeps verbatim. -/
def printableA (c : Char) : Bool := 32 ≤ c.val && c.val ≤ 126

/-- A non-empty string whose head is not JavaScript whitespace and whose
characters are all printable ASCII: the shape of every sanitized string the
heuristic summarizer produces. -/
def saneChars (cs : List Char) : Bool :=
  (match cs with | [] => false | c :: _ => !jsWhitespace c) && cs.all printableA

def saneStr (s : String) : Bool := saneChars s.data

theorem u32BitToNat (x : UInt32) : x.toBitVec.toNat = x.toNat := rfl

theorem u32size : UInt32.size = 4294967296 := rfl

theorem asciiCharOut_repl (c : Char) (r : List Char) (h : asciiRepl c = some r) :
    asciiCharOut c = r := by
  unfold asciiCharOut
  rw [h]

theorem asciiCharOut_none (c : Char) (h : asciiRepl c = none) :
    asciiCharOut c =
      (if c.val = 10 ∨ c.val = 13 ∨ c.val = 9 then [' ']
       else if 32 ≤ c.val ∧ c.val ≤ 126 then [c] else []) := by
  unfold asciiCharOut
  rw [h]

theorem asciiCharOut_printable (c : Char) : (asciiCharOut c).all printableA = true := by
  rcases h : asciiRepl c with _ | r
  · rw [asciiCharOut_none c h]
    split_ifs with h1 h2
    · decide
    · simp [printableA, h2.1, h2.2]
    · decide
  · rw [asciiCharOut_repl c r h]
    unfold asciiRepl at h
    split_ifs at h
    all_goals injection h with h2
    all_goals subst h2
    all_goals decide

theorem toAsciiL_printable (cs : List Char) : (toAsciiL cs).all printableA = true := by
  unfold toAsciiL
  rw [List.all_eq_true]
  intro d hd
  rw [List.mem_flatMap] at hd
  obtain ⟨c, _, hdc⟩ := hd
  have h := asciiCharOut_printable c
  rw [List.all_eq_true] at h
  exact h d hdc

theorem asciiCharOut_of_printable (c : Char) (h : printableA c = true) :
    asciiCharOut c = [c] := by
  unfold printableA at h
  rw [Bool.and_eq_true, decide_eq_true_eq, decide_eq_true_eq] at h
  unfold asciiCharOut asciiRepl
  split_ifs <;> first
    | rfl
    | (exfalso
       simp only [UInt32.le_def, UInt32.ext_iff, BitVec.le_def, u32BitToNat,
         UInt32.toNat_ofNat, u32size] at *
       omega)

theorem isCombining_of_printable (c : Char) (h : printableA c = true) :
    isCombining c = false := by
  unfold printableA at h
  rw [Bool.and_eq_true, decide_eq_true_eq, decide_eq_true_eq] at h
  unfold isCombining
  simp only [UInt32.le_def, UInt32.ext_iff, BitVec.le_def, u32BitToNat,
    UInt32.toNat_ofNat, u32size, decide_eq_false_iff_not] at *
  omega

theorem toAsciiL_id : ∀ (cs : List Char), cs.all printableA = true → toAsciiL cs = cs := by
  intro cs h
  induction cs with
  | nil => rfl
  | cons a as ih =>
    rw [List.all_cons, Bool.and_eq_true] at h
    unfold toAsciiL
    rw [List.filter_cons, isCombining_of_printable a h.1]
    simp only [Bool.not_false, if_true, List.flatMap_cons,
      asciiCharOut_of_printable a h.1]
    have ih2 := ih h.2
    unfold toAsciiL at ih2
    rw [ih2]
    rfl

theorem wsChunksL_spec : ∀ (cs : List Char), ∀ w ∈ wsChunksL cs,
    w ≠ [] ∧ ∀ c ∈ w, jsWhitespace c = false ∧ c ∈ cs := by
  intro cs
  induction cs with
  | nil => intro w hw; simp [wsChunksL] at hw
  | cons a as ih =>
    intro w hw
    rw [wsChunksL.eq_def] at hw
    dsimp only at hw
    split_ifs at hw with ha
    · obtain ⟨h1, h2⟩ := ih w hw
      exact ⟨h1, fun c hc => ⟨(h2 c hc).1, List.mem_cons_of_mem a (h2 c hc).2⟩⟩
    · rw [Bool.not_eq_true] at ha
      cases as with
      | nil =>
        simp [wsChunksL] at hw
        subst hw
        refine ⟨by simp, ?_⟩
        intro c hc
        rw [List.mem_singleton] at hc
        subst hc
        exact ⟨ha, by simp⟩
      | cons a2 as2 =>
        dsimp only at hw
        split_ifs at hw with ha2
        · rcases List.mem_cons.mp hw with rfl | hw2
          · refine ⟨by simp, ?_⟩
            intro c hc
            rw [List.mem_singleton] at hc
            subst hc
            exact ⟨ha, by simp⟩
          · obtain ⟨h1, h2⟩ := ih w hw2
            exact ⟨h1, fun c hc => ⟨(h2 c hc).1, List.mem_cons_of_mem a (h2 c hc).2⟩⟩
        · rcases hch : wsChunksL (a2 :: as2) with _ | ⟨w0, ws0⟩
          · rw [hch] at hw
            simp at hw
            subst hw
            refine ⟨by simp, ?_⟩
            intro c hc
            rw [List.mem_singleton] at hc
            subst hc
            exact ⟨ha, by simp⟩
          · rw [hch] at hw
            dsimp only at hw
            rcases List.mem_cons.mp hw with rfl | hw2
            · refine ⟨by simp, ?_⟩
              intro c hc
              rcases List.mem_cons.mp hc with rfl | hc2
              · exact ⟨ha, by simp⟩
              · have := (ih w0 (by rw [hch]; simp)).2 c hc2
                exact ⟨this.1, List.mem_cons_of_mem a this.2⟩
            · have h0 := ih w (by rw [hch]; exact List.mem_cons_of_mem w0 hw2)
              exact ⟨h0.1, fun c hc => ⟨(h0.2 c hc).1, List.mem_cons_of_mem a (h0.2 c hc).2⟩⟩

theorem wsChunksL_ne : ∀ (cs : List Char),
    (∃ c ∈ cs, jsWhitespace c = false) → wsChunksL cs ≠ [] := by
  intro cs
  induction cs with
  | nil => rintro ⟨c, hc, _⟩; simp at hc
  | cons a as ih =>
    rintro ⟨c, hc, hcw⟩
    rw [wsChunksL.eq_def]
    dsimp only
    split_ifs with ha
    · apply ih
      rcases List.mem_cons.mp hc with rfl | h
      · rw [ha] at hcw; cases hcw
      · exact ⟨c, h, hcw⟩
    · cases as with
      | nil => simp
      | cons a2 as2 =>
        dsimp only
        split_ifs
        · simp
        · rcases hch : wsChunksL (a2 :: as2) with _ | ⟨w0, ws0⟩ <;> simp

theorem foldl_chunks_ex : ∀ (ws : List (List Char)) (acc : List Char),
    ∃ r, List.foldl (fun a chunk => a ++ ' ' :: chunk) acc ws = acc ++ r ∧
      ∀ c ∈ r, c = ' ' ∨ ∃ w ∈ ws, c ∈ w := by
  intro ws
  induction ws with
  | nil => intro acc; exact ⟨[], by simp⟩
  | cons w0 ws0 ih =>
    intro acc
    obtain ⟨r, hr, hmem⟩ := ih (acc ++ ' ' :: w0)
    refine ⟨' ' :: w0 ++ r, ?_, ?_⟩
    · rw [List.foldl_cons, hr]; simp
    · intro c hc
      rcases List.mem_append.mp hc with h | h
      · rcases List.mem_cons.mp h with rfl | h2
        · exact Or.inl rfl
        · exact Or.inr ⟨w0, by simp, h2⟩
      · rcases hmem c h with h2 | ⟨w, hw, hcw⟩
        · exact Or.inl h2
        · exact Or.inr ⟨w, by simp [hw], hcw⟩

theorem collapseL_eq (cs : List Char) :
    collapseL cs = [] ∧ wsChunksL cs = [] ∨
    ∃ w ws r, wsChunksL cs = w :: ws ∧ collapseL cs = w ++ r ∧
      ∀ c ∈ r, c = ' ' ∨ ∃ w2 ∈ ws, c ∈ w2 := by
  unfold collapseL
  rcases h : wsChunksL cs with _ | ⟨w, ws⟩
  · exact Or.inl ⟨rfl, rfl⟩
  · obtain ⟨r, hr, hmem⟩ := foldl_chunks_ex ws w
    exact Or.inr ⟨w, ws, r, rfl, hr, hmem⟩

theorem collapseL_ne (cs : List Char) (h : ∃ c ∈ cs, jsWhitespace c = false) :
    collapseL cs ≠ [] := by
  rcases collapseL_eq cs with ⟨_, h2⟩ | ⟨w, ws, r, hch, hcol, _⟩
  · exact absurd h2 (wsChunksL_ne cs h)
  · rw [hcol]
    have hw := (wsChunksL_spec cs w (by rw [hch]; simp)).1
    simp [hw]

theorem collapseL_head (cs : List Char) (d : Char) (ds : List Char)
    (h : collapseL cs = d :: ds) : jsWhitespace d = false := by
  rcases collapseL_eq cs with ⟨h1, _⟩ | ⟨w, ws, r, hch, hcol, _⟩
  · rw [h1] at h; cases h
  · have hspec := wsChunksL_spec cs w (by rw [hch]; simp)
    rw [hcol] at h
    cases w with
    | nil => exact absurd rfl hspec.1
    | cons w1 wr =>
      simp only [List.cons_append] at h
      injection h with h1 _
      subst h1
      exact (hspec.2 w1 (by simp)).1

theorem collapseL_printable (cs : List Char) (h : cs.all printableA = true) :
    (collapseL cs).all printableA = true := by
  rcases collapseL_eq cs with ⟨h1, _⟩ | ⟨w, ws, r, hch, hcol, hmem⟩
  · rw [h1]; rfl
  · rw [List.all_eq_true] at h
    rw [hcol, List.all_append, Bool.and_eq_true]
    constructor
    · rw [List.all_eq_true]
      intro c hcw
      exact h c ((wsChunksL_spec cs w (by rw [hch]; simp)).2 c hcw).2
    · rw [List.all_eq_true]
      intro c hcr
      rcases hmem c hcr with rfl | ⟨w2, hw2, hcw2⟩
      · decide
      · exact h c ((wsChunksL_spec cs w2
          (by rw [hch]; exact List.mem_cons_of_mem w hw2)).2 c hcw2).2

theorem jsTrimL_subset (cs : List Char) : ∀ c ∈ jsTrimL cs, c ∈ cs := by
  intro c hc
  unfold jsTrimL at hc
  rw [List.mem_reverse] at hc
  have h1 : c ∈ (List.dropWhile jsWhitespace cs).reverse :=
    List.Sublist.subset (List.dropWhile_sublist _) hc
  rw [List.mem_reverse] at h1
  exact List.Sublist.subset (List.dropWhile_sublist _) h1

theorem jsTrimL_eq_nil_iff (cs : List Char) :
    jsTrimL cs = [] ↔ ∀ c ∈ cs, jsWhitespace c = true := by
  unfold jsTrimL
  rw [List.reverse_eq_nil_iff, List.dropWhile_eq_nil_iff]
  constructor
  · intro h c hc
    rw [← @List.takeWhile_append_dropWhile _ jsWhitespace cs] at hc
    rcases List.mem_append.mp hc with h1 | h1
    · exact List.mem_takeWhile_imp h1
    · exact h c (List.mem_reverse.mpr h1)
  · intro h c hc
    rw [List.mem_reverse] at hc
    exact h c (List.Sublist.subset (List.dropWhile_sublist _) hc)

theorem jsTrimL_head (cs : List Char) (d : Char) (ds : List Char)
    (h : jsTrimL cs = d :: ds) : jsWhitespace d = false := by
  unfold jsTrimL at h
  obtain ⟨k, hk⟩ : ∃ n, List.dropWhile jsWhitespace (List.dropWhile jsWhitespace cs).reverse
      = ((List.dropWhile jsWhitespace cs).reverse).drop n := by
    generalize (List.dropWhile jsWhitespace cs).reverse = L
    induction L with
    | nil => exact ⟨0, rfl⟩
    | cons a as ih =>
      rw [List.dropWhile_cons]
      split_ifs
      · obtain ⟨n, hn⟩ := ih
        exact ⟨n + 1, by simp [hn]⟩
      · exact ⟨0, rfl⟩
  rw [hk, List.reverse_drop, List.reverse_reverse] at h
  have hne : List.dropWhile jsWhitespace cs ≠ [] := by
    intro h0
    rw [h0] at h
    simp at h
  have hhead := List.head_dropWhile_not jsWhitespace cs hne
  rcases hA : List.dropWhile jsWhitespace cs with _ | ⟨a, as⟩
  · exact absurd hA hne
  · rw [hA] at h
    rcases hm : (((a :: as) : List Char).reverse.length - k) with _ | m2
    · rw [hm] at h; simp at h
    · rw [hm, List.take_succ_cons] at h
      injection h with h1 _
      subst h1
      rw [← hhead]
      congr 1
      simp [hA]

theorem sane_collapse_toAscii (cs : List Char) (h : saneChars cs = true) :
    collapseL (toAsciiL cs) ≠ [] := by
  unfold saneChars at h
  rw [Bool.and_eq_true] at h
  obtain ⟨h1, h2⟩ := h
  rcases cs with _ | ⟨d, ds⟩
  · cases h1
  · rw [toAsciiL_id _ h2]
    apply collapseL_ne
    refine ⟨d, by simp, ?_⟩
    simpa using h1

theorem trim_sane_of (cs : List Char) (d : Char) (ds : List Char)
    (hcs : cs = d :: ds) (hd : jsWhitespace d = false)
    (hall : cs.all printableA = true) : saneStr (jsTrim ⟨cs⟩) = true := by
  have hdata : (jsTrim ⟨cs⟩).data = jsTrimL cs := rfl
  have hne : jsTrimL cs ≠ [] := by
    rw [Ne, jsTrimL_eq_nil_iff]
    intro hforall
    have hcon := hforall d (by rw [hcs]; simp)
    rw [hd] at hcon
    cases hcon
  unfold saneStr
  rw [hdata]
  rcases ht : jsTrimL cs with _ | ⟨e, es⟩
  · exact absurd ht hne
  · unfold saneChars
    rw [Bool.and_eq_true]
    refine ⟨by simp [jsTrimL_head cs e es ht], ?_⟩
    rw [List.all_eq_true]
    intro c hc
    rw [List.all_eq_true] at hall
    exact hall c (jsTrimL_subset cs c (by rw [ht]; exact hc))

theorem trunc_sane (s : String) (mc : ℕ) (hmc : 1 ≤ mc)
    (h : collapseL (toAsciiL s.data) ≠ []) :
    saneStr (truncateSummaryText s mc) = true := by
  have hA : (collapseWhitespace (toAscii s)).data = collapseL (toAsciiL s.data) := rfl
  rcases hAd : collapseL (toAsciiL s.data) with _ | ⟨d, ds⟩
  · exact absurd hAd h
  have hall : (collapseL (toAsciiL s.data)).all printableA = true :=
    collapseL_printable _ (toAsciiL_printable _)
  have hd : jsWhitespace d = false := collapseL_head _ d ds hAd
  have hne2 : ¬(collapseWhitespace (toAscii s) = "") := by
    intro h0
    have hcon : (collapseWhitespace (toAscii s)).data = [] := by rw [h0]
    rw [hA, hAd] at hcon
    cases hcon
  obtain ⟨m, rfl⟩ : ∃ m, mc = m + 1 := ⟨mc - 1, by omega⟩
  unfold truncateSummaryText
  rw [if_neg hne2]
  split_ifs with hlen
  · unfold saneStr
    rw [hA, hAd]
    rw [hAd] at hall
    unfold saneChars
    simp [hd, hall]
  · have hslice : (collapseWhitespace (toAscii s)).data.take (m + 1) = d :: ds.take m := by
      rw [hA, hAd, List.take_succ_cons]
    have hallslice : ((collapseWhitespace (toAscii s)).data.take (m + 1)).all printableA
        = true := by
      rw [List.all_eq_true]
      intro c hc
      rw [hA] at hc
      rw [List.all_eq_true] at hall
      exact hall c (List.Sublist.subset (List.take_sublist _ _) hc)
    dsimp only
    rcases hLS : lastSpaceIdx ((collapseWhitespace (toAscii s)).data.take (m + 1))
        with _ | i
    · exact trim_sane_of _ d (ds.take m) hslice hd hallslice
    · dsimp only
      split_ifs with hi
      · obtain ⟨i2, rfl⟩ : ∃ i2, i = i2 + 1 := ⟨i - 1, by omega⟩
        refine trim_sane_of _ d ((ds.take m).take i2) ?_ hd ?_
        · rw [hslice, List.take_succ_cons]
        · rw [List.all_eq_true]
          intro c hc
          rw [List.all_eq_true] at hallslice
          exact hallslice c (List.Sublist.subset (List.take_sublist _ _) hc)
      · exact trim_sane_of _ d (ds.take m) hslice hd hallslice

theorem trunc_sane_of_sane (s : String) (mc : ℕ) (hmc : 1 ≤ mc) (h : saneStr s = true) :
    saneStr (truncateSummaryText s mc) = true :=
  trunc_sane s mc hmc (sane_collapse_toAscii s.data h)

theorem trunc_cases (s : String) (mc : ℕ) (hmc : 1 ≤ mc) :
    truncateSummaryText s mc = "" ∨ saneStr (truncateSummaryText s mc) = true := by
  by_cases h : collapseL (toAsciiL s.data) = []
  · left
    unfold truncateSummaryText
    rw [if_pos]
    apply String.ext
    exact h
  · right
    exact trunc_sane s mc hmc h

theorem sane_ne (s : String) (h : saneStr s = true) : s ≠ "" := by
  intro h0
  rw [h0] at h
  cases h

/-- A string value whose characters are all printable ASCII. -/
def printableStrB : JsonV → Bool
  | .str s => s.data.all printableA
  | _ => false

/-- The invariant shape of every slide the heuristic summarizer and the
normalizer emit: the four schema fields in order, a sane-or-empty paragraph,
printable string bullets, and a `null` chart. -/
def goodSlideP (v : JsonV) : Prop :=
  ∃ (hl t : String) (ss : List String),
    v = .obj [("headline", .str hl), ("paragraph", .str t),
    ("bullets", .arr (ss.map JsonV.str)), ("chart", .null)] ∧
    (t = "" ∨ saneStr t = true) ∧ ∀ s ∈ ss, s.data.all printableA = true

theorem jsLength_pos (s : String) (h : s ≠ "") : 1 ≤ jsLength s := by
  unfold jsLength
  rcases hd : s.data with _ | ⟨c, cs⟩
  · exact absurd (String.ext hd) h
  · rw [List.map_cons, List.sum_cons]
    split_ifs <;> omega

theorem trunc_printable (s : String) (mc : ℕ) :
    (truncateSummaryText s mc).data.all printableA = true := by
  have hall : (collapseWhitespace (toAscii s)).data.all printableA = true :=
    collapseL_printable _ (toAsciiL_printable _)
  rw [List.all_eq_true] at hall
  simp only [truncateSummaryText]
  split_ifs with h1 h2
  · rfl
  · rw [List.all_eq_true]; exact hall
  · rcases lastSpaceIdx ((collapseWhitespace (toAscii s)).data.take mc) with _ | i
    · rw [List.all_eq_true]
      intro c hc
      exact hall c (List.Sublist.subset (List.take_sublist _ _)
        (jsTrimL_subset _ c hc))
    · dsimp only
      split_ifs with hi
      · rw [List.all_eq_true]
        intro c hc
        exact hall c (List.Sublist.subset (List.take_sublist _ _)
          (List.Sublist.subset (List.take_sublist _ _) (jsTrimL_subset _ c hc)))
      · rw [List.all_eq_true]
        intro c hc
        exact hall c (List.Sublist.subset (List.take_sublist _ _)
          (jsTrimL_subset _ c hc))

theorem cleanBullet_subset (s : String) :
    ∀ c ∈ (cleanBulletLineStr s).data, c ∈ s.data := by
  intro c hc
  unfold cleanBulletLineStr at hc
  split_ifs at hc with h1
  · exact absurd hc (by simp)
  · rcases hsd : s.data with _ | ⟨c0, cs0⟩
    · rw [hsd] at hc
      dsimp only at hc
      exact absurd (jsTrimL_subset _ c hc) (by simp)
    · rw [hsd] at hc
      dsimp only at hc
      split_ifs at hc with hbm
      · have h2 := jsTrimL_subset _ c hc
        exact List.Sublist.subset (List.dropWhile_sublist _)
          (List.Sublist.subset (List.dropWhile_sublist _) h2)
      · exact jsTrimL_subset _ c hc

theorem intercalate_go_mem : ∀ (as : List String) (acc : String) (c : Char),
    c ∈ (String.intercalate.go acc " " as).data →
      c ∈ acc.data ∨ c = ' ' ∨ ∃ s ∈ as, c ∈ s.data := by
  intro as
  induction as with
  | nil =>
    intro acc c h
    rw [String.intercalate.go] at h
    exact Or.inl h
  | cons a as ih =>
    intro acc c h
    rw [String.intercalate.go] at h
    rcases ih _ c h with h1 | h2 | ⟨s2, hs2, hc2⟩
    · rw [String.data_append, String.data_append] at h1
      rcases List.mem_append.mp h1 with h3 | h3
      · rcases List.mem_append.mp h3 with h4 | h4
        · exact Or.inl h4
        · right; left
          simpa using h4
      · exact Or.inr (Or.inr ⟨a, by simp, h3⟩)
    · exact Or.inr (Or.inl h2)
    · exact Or.inr (Or.inr ⟨s2, by simp [hs2], hc2⟩)

theorem intercalate_mem (ss : List String) (c : Char)
    (h : c ∈ (String.intercalate " " ss).data) :
    c = ' ' ∨ ∃ s ∈ ss, c ∈ s.data := by
  cases ss with
  | nil => exact absurd h (by simp [String.intercalate])
  | cons a as =>
    rw [String.intercalate] at h
    rcases intercalate_go_mem as a c h with h1 | h2 | ⟨s2, hs2, hc2⟩
    · exact Or.inr ⟨a, by simp, h1⟩
    · exact Or.inl h2
    · exact Or.inr ⟨s2, by simp [hs2], hc2⟩

theorem jsSetDedup_subset (xs : List String) : ∀ x ∈ jsSetDedup xs, x ∈ xs := by
  unfold jsSetDedup
  suffices h : ∀ (xs : List String) (acc : List String),
      ∀ x ∈ xs.foldl (fun acc x => if x ∈ acc then acc else acc ++ [x]) acc,
        x ∈ acc ∨ x ∈ xs by
    intro x hx
    rcases h xs [] x hx with h1 | h1
    · exact absurd h1 (by simp)
    · exact h1
  intro xs
  induction xs with
  | nil => intro acc x hx; exact Or.inl hx
  | cons a as ih =>
    intro acc x hx
    rw [List.foldl_cons] at hx
    rcases ih _ x hx with h1 | h1
    · split_ifs at h1
      · exact Or.inl h1
      · rcases List.mem_append.mp h1 with h2 | h2
        · exact Or.inl h2
        · right; simp at h2; simp [h2]
    · right; exact List.mem_cons_of_mem a h1

theorem collapse_sane (t : String) (h : saneStr t = true) :
    saneStr (collapseWhitespace t) = true := by
  unfold saneStr saneChars at h
  rw [Bool.and_eq_true] at h
  obtain ⟨h1, h2⟩ := h
  rcases htd : t.data with _ | ⟨d, ds⟩
  · rw [htd] at h1; cases h1
  · have hne : collapseL t.data ≠ [] := by
      apply collapseL_ne
      refine ⟨d, by rw [htd]; simp, ?_⟩
      rw [htd] at h1
      simpa using h1
    have hdata : (collapseWhitespace t).data = collapseL t.data := rfl
    unfold saneStr saneChars
    rw [hdata]
    rcases hcd : collapseL t.data with _ | ⟨e, es⟩
    · exact absurd hcd hne
    · rw [Bool.and_eq_true]
      constructor
      · simp [collapseL_head t.data e es hcd]
      · have hp := collapseL_printable t.data h2
        rw [hcd] at hp
        exact hp

theorem np_eval (t : String) (ss : List String) :
    normalizeParagraph (.str t) (.arr (ss.map JsonV.str)) =
      (if collapseWhitespace t ≠ ""
       then .ok (truncateSummaryText (collapseWhitespace t) 420)
       else
         if jsTrim (String.intercalate " " ((ss.map cleanBulletLineStr).filter (· ≠ ""))) ≠ ""
         then .ok (truncateSummaryText
           (String.intercalate " " ((ss.map cleanBulletLineStr).filter (· ≠ ""))) 420)
         else .ok SUMMARY_PARAGRAPH_PLACEHOLDER) := by
  have hb : normalizeParagraph (.str t) (.arr (ss.map JsonV.str)) =
      (if collapseWhitespace t ≠ ""
       then Except.ok (truncateSummaryText (collapseWhitespace t) 420)
       else
         Except.bind ((ss.map JsonV.str).mapM jsCleanBulletLine)
           (fun mapped =>
             (fun fallback =>
               if jsTrim fallback ≠ ""
               then Except.ok (truncateSummaryText fallback 420)
               else Except.ok SUMMARY_PARAGRAPH_PLACEHOLDER)
             (String.intercalate " " (mapped.filter (· ≠ ""))))) := rfl
  rw [hb, mapM_clean_str ss]
  by_cases h : collapseWhitespace t = ""
  · rw [if_neg (by simp [h]), if_neg (by simp [h])]
    rfl
  · rw [if_pos h, if_pos h]

theorem np_all (t : String) (ss : List String)
    (ht : t = "" ∨ saneStr t = true)
    (hss : ∀ s ∈ ss, s.data.all printableA = true) :
    ∃ r, normalizeParagraph (.str t) (.arr (ss.map JsonV.str)) = .ok r ∧
      saneStr r = true := by
  rw [np_eval]
  rcases ht with rfl | hsane
  · rw [if_neg (by decide)]
    by_cases hT : jsTrim (String.intercalate " "
        ((ss.map cleanBulletLineStr).filter (· ≠ ""))) = ""
    · rw [if_neg (not_not_intro hT)]
      exact ⟨_, rfl, by decide⟩
    · rw [if_pos hT]
      refine ⟨_, rfl, ?_⟩
      have hFprint : (String.intercalate " "
          ((ss.map cleanBulletLineStr).filter (· ≠ ""))).data.all printableA = true := by
        rw [List.all_eq_true]
        intro c hc
        rcases intercalate_mem _ c hc with rfl | ⟨s2, hs2, hc2⟩
        · decide
        · have hs3 := List.mem_filter.mp hs2
          obtain ⟨s0, hs0, rfl⟩ := List.mem_map.mp hs3.1
          have hsub := cleanBullet_subset s0 c hc2
          have hpr := hss s0 hs0
          rw [List.all_eq_true] at hpr
          exact hpr c hsub
      apply trunc_sane _ _ (by omega)
      rw [toAsciiL_id _ hFprint]
      apply collapseL_ne
      have h2 : ¬∀ c ∈ (String.intercalate " "
          ((ss.map cleanBulletLineStr).filter (· ≠ ""))).data, jsWhitespace c = true := by
        intro hforall
        exact hT (String.ext ((jsTrimL_eq_nil_iff _).mpr hforall))
      push_neg at h2
      obtain ⟨c, hc1, hc2⟩ := h2
      exact ⟨c, hc1, by simpa using hc2⟩
  · have hcol_ne : collapseWhitespace t ≠ "" := by
      intro h0
      have hdat : collapseL t.data = [] := by
        have := congrArg String.data h0
        exact this
      unfold saneStr saneChars at hsane
      rw [Bool.and_eq_true] at hsane
      rcases htd : t.data with _ | ⟨d, ds⟩
      · rw [htd] at hsane; exact absurd hsane.1 (by simp)
      · apply collapseL_ne t.data ?_ hdat
        refine ⟨d, by rw [htd]; simp, ?_⟩
        have h1 := hsane.1
        rw [htd] at h1
        simpa using h1
    rw [if_pos hcol_ne]
    refine ⟨_, rfl, ?_⟩
    apply trunc_sane _ _ (by omega)
    exact sane_collapse_toAscii _ (collapse_sane t hsane)

theorem fillBullets_len (xs : List String) : 2 ≤ (fillBullets xs).length := by
  unfold fillBullets
  rcases xs with _ | ⟨a, _ | ⟨b, rest⟩⟩ <;> simp [BULLET_FILLER_STRINGS]

theorem fillBullets_mem (xs : List String) :
    ∀ b ∈ fillBullets xs, b ∈ xs ∨ b ∈ BULLET_FILLER_STRINGS := by
  unfold fillBullets
  rcases xs with _ | ⟨a, _ | ⟨b2, rest⟩⟩
  · intro b hb; right; exact hb
  · intro b hb
    rcases List.mem_cons.mp hb with rfl | hb2
    · left; simp
    · right
      simp at hb2
      subst hb2
      simp [BULLET_FILLER_STRINGS]
  · intro b hb; left; exact hb

theorem foldl_hl_mem : ∀ (hs : List String) (acc : List String) (x : String),
    x ∈ hs.foldl (fun acc h =>
      if acc.length ≥ 4 then acc else if h ∈ acc then acc else acc ++ [h]) acc →
    x ∈ acc ∨ x ∈ hs := by
  intro hs
  induction hs with
  | nil => intro acc x hx; exact Or.inl hx
  | cons h0 hs ih =>
    intro acc x hx
    rw [List.foldl_cons] at hx
    rcases ih _ x hx with h1 | h1
    · split_ifs at h1
      · exact Or.inl h1
      · exact Or.inl h1
      · rcases List.mem_append.mp h1 with h2 | h2
        · exact Or.inl h2
        · right; simp at h2; simp [h2]
    · right; exact List.mem_cons_of_mem _ h1

theorem highlights_printable (p : String) :
    ∀ h ∈ paragraphHighlights p, h.data.all printableA = true := by
  intro h hh
  unfold paragraphHighlights at hh
  have h1 := List.Sublist.subset (List.take_sublist _ _) hh
  have h2 := (List.mem_filter.mp h1).1
  obtain ⟨s0, _, rfl⟩ := List.mem_map.mp h2
  exact trunc_printable s0 110

theorem nb_eval (ss : List String) (p : String) :
    normalizeBullets (.arr (ss.map JsonV.str)) p =
      .ok ((fillBullets ((paragraphHighlights p).foldl
        (fun acc h => if acc.length ≥ 4 then acc else if h ∈ acc then acc else acc ++ [h])
        (jsSetDedup (((ss.map cleanBulletLineStr).filter (· ≠ "")).map
          (truncateSummaryText · 110))))).take 4) := by
  have hb : normalizeBullets (.arr (ss.map JsonV.str)) p =
      Except.bind ((ss.map JsonV.str).mapM jsCleanBulletLine)
        (fun mapped =>
          Except.pure ((fillBullets ((paragraphHighlights p).foldl
            (fun acc h =>
              if acc.length ≥ 4 then acc else if h ∈ acc then acc else acc ++ [h])
            (jsSetDedup ((mapped.filter (· ≠ "")).map
              (truncateSummaryText · 110))))).take 4)) := rfl
  rw [hb, mapM_clean_str ss]
  rfl

theorem nb_all (ss : List String) (p : String) :
    ∃ bs, normalizeBullets (.arr (ss.map JsonV.str)) p = .ok bs ∧
      2 ≤ bs.length ∧ bs.length ≤ 4 ∧ ∀ b ∈ bs, b.data.all printableA = true := by
  rw [nb_eval]
  refine ⟨_, rfl, ?_, ?_, ?_⟩
  · rw [List.length_take]
    have h2 := fillBullets_len ((paragraphHighlights p).foldl
      (fun acc h => if acc.length ≥ 4 then acc else if h ∈ acc then acc else acc ++ [h])
      (jsSetDedup (((ss.map cleanBulletLineStr).filter (· ≠ "")).map
        (truncateSummaryText · 110))))
    omega
  · rw [List.length_take]; omega
  · intro b hb
    have hb2 := List.Sublist.subset (List.take_sublist _ _) hb
    rcases fillBullets_mem _ b hb2 with h1 | h1
    · rcases foldl_hl_mem _ _ b h1 with h2 | h2
      · have h3 := jsSetDedup_subset _ b h2
        obtain ⟨s0, _, rfl⟩ := List.mem_map.mp h3
        exact trunc_printable s0 110
      · exact highlights_printable p b h2
    · rcases List.mem_cons.mp h1 with rfl | h2
      · decide
      · simp at h2
        subst h2
        decide

theorem nos_eval (hl t : String) (ss : List String) (ch : JsonV) (i : ℕ) :
    normalizeOneSlide (.obj [("headline", .str hl), ("paragraph", .str t),
      ("bullets", .arr (ss.map JsonV.str)), ("chart", ch)]) i =
    Except.bind (normalizeParagraph (.str t) (.arr (ss.map JsonV.str)))
      (fun paragraph =>
        Except.bind (normalizeBullets (.arr (ss.map JsonV.str)) paragraph)
          (fun bullets =>
            Except.pure (.obj [("headline", .str (normalizeHeadline (.str
              (if jsTrim hl ≠ "" then jsTrim hl else "Section " ++ toString (i + 1))) i)),
              ("paragraph", .str paragraph),
              ("bullets", .arr (bullets.map JsonV.str)),
              ("chart", normalizeChart ch)]))) := rfl

theorem nos_all (hl t : String) (ss : List String) (i : ℕ)
    (ht : t = "" ∨ saneStr t = true)
    (hss : ∀ s ∈ ss, s.data.all printableA = true) :
    ∃ out, normalizeOneSlide (.obj [("headline", .str hl), ("paragraph", .str t),
      ("bullets", .arr (ss.map JsonV.str)), ("chart", .null)]) i = .ok out ∧
      zodSlideOk out = true ∧ goodSlideP out := by
  obtain ⟨r, hr, hrs⟩ := np_all t ss ht hss
  obtain ⟨bs, hbs, hb2, hb4, hbp⟩ := nb_all ss r
  refine ⟨.obj [("headline", .str (normalizeHeadline (.str
      (if jsTrim hl ≠ "" then jsTrim hl else "Section " ++ toString (i + 1))) i)),
      ("paragraph", .str r),
      ("bullets", .arr (bs.map JsonV.str)),
      ("chart", normalizeChart .null)], ?_, ?_, ?_⟩
  · rw [nos_eval, hr]
    simp only [Except.bind]
    rw [hbs]
    rfl
  · have hlen := jsLength_pos r (sane_ne r hrs)
    simp only [zodSlideOk, jsGet, zodChartOk]
    simp [hlen, hb2, hb4, List.all_map, normalizeChart, jsFalsy]
  · exact ⟨_, r, bs, by rw [show normalizeChart .null = .null from rfl], Or.inr hrs, hbp⟩

theorem mapIdxM_nos : ∀ (sl : List JsonV) (i : ℕ), (∀ s ∈ sl, goodSlideP s) →
    ∃ out, mapIdxM normalizeOneSlide sl i = .ok out ∧ out.length = sl.length ∧
      ∀ o ∈ out, zodSlideOk o = true ∧ goodSlideP o := by
  intro sl
  induction sl with
  | nil => intro i _; exact ⟨[], rfl, rfl, by simp⟩
  | cons s0 sl ih =>
    intro i hg
    obtain ⟨hl, t, ss, rfl, ht, hss⟩ := hg s0 (by simp)
    obtain ⟨o0, ho0, hz0, hp0⟩ := nos_all hl t ss i ht hss
    obtain ⟨out, hout, hlen, hall⟩ := ih (i + 1) (fun s hs => hg s (by simp [hs]))
    refine ⟨o0 :: out, ?_, by simp [hlen], ?_⟩
    · rw [mapIdxM, ho0]
      simp only [Except.bind, Bind.bind]
      rw [hout]
      rfl
    · intro o ho
      rcases List.mem_cons.mp ho with rfl | ho2
      · exact ⟨hz0, hp0⟩
      · exact hall o ho2

theorem padSlide_zero :
    ∃ out, padSlide 0 = .ok out ∧ zodSlideOk out = true ∧ goodSlideP out := by
  refine ⟨_, rfl, by decide, ?_⟩
  exact ⟨"Section 1", "Summary forthcoming.",
    ["Summary forthcoming.", "Highlight a concrete detail from the document."],
    by decide, Or.inr (by decide), by decide⟩

theorem padSlide_one :
    ∃ out, padSlide 1 = .ok out ∧ zodSlideOk out = true ∧ goodSlideP out := by
  refine ⟨_, rfl, by decide, ?_⟩
  exact ⟨"Section 2", "Summary forthcoming.",
    ["Summary forthcoming.", "Highlight a concrete detail from the document."],
    by decide, Or.inr (by decide), by decide⟩

theorem padSlides_all (xs : List JsonV) (hlen : xs.length ≤ 8)
    (hall : ∀ x ∈ xs, zodSlideOk x = true ∧ goodSlideP x) :
    ∃ out, padSlides xs = .ok out ∧ 2 ≤ out.length ∧ out.length ≤ 8 ∧
      ∀ o ∈ out, zodSlideOk o = true ∧ goodSlideP o := by
  cases xs with
  | nil =>
    obtain ⟨p0, hp0, hz0, hg0⟩ := padSlide_zero
    obtain ⟨p1, hp1, hz1, hg1⟩ := padSlide_one
    refine ⟨[p0, p1], ?_, by simp, by simp, ?_⟩
    · rw [padSlides, hp0]
      simp only [Except.bind, Bind.bind]
      rw [hp1]
      rfl
    · intro o ho
      rcases List.mem_cons.mp ho with rfl | ho2
      · exact ⟨hz0, hg0⟩
      · rcases List.mem_cons.mp ho2 with rfl | ho3
        · exact ⟨hz1, hg1⟩
        · exact absurd ho3 (by simp)
  | cons x1 rest =>
    cases rest with
    | nil =>
      obtain ⟨p1, hp1, hz1, hg1⟩ := padSlide_one
      refine ⟨[x1, p1], ?_, by simp, by simp, ?_⟩
      · rw [padSlides, hp1]
        rfl
      · intro o ho
        rcases List.mem_cons.mp ho with rfl | ho2
        · exact hall o (by simp)
        · rcases List.mem_cons.mp ho2 with rfl | ho3
          · exact ⟨hz1, hg1⟩
          · exact absurd ho3 (by simp)
    | cons x2 rest2 =>
      refine ⟨x1 :: x2 :: rest2, rfl, by simp, ?_, hall⟩
      simpa using hlen

theorem toAsciiV_printable (v : JsonV) : (toAsciiV v).data.all printableA = true := by
  cases v with
  | null => rfl
  | undef => rfl
  | bool b => exact toAsciiL_printable _
  | num q => exact toAsciiL_printable _
  | str sv => exact toAsciiL_printable _
  | arr xs => exact toAsciiL_printable _
  | obj fs => exact toAsciiL_printable _

theorem collapse_toAsciiV_sane (c : JsonV)
    (h : collapseWhitespace (toAsciiV c) ≠ "") :
    saneStr (collapseWhitespace (toAsciiV c)) = true := by
  have hcp : (collapseWhitespace (toAsciiV c)).data.all printableA = true :=
    collapseL_printable _ (toAsciiV_printable c)
  rcases hcd : (collapseWhitespace (toAsciiV c)).data with _ | ⟨e, es⟩
  · exact absurd (String.ext hcd) h
  · unfold saneStr saneChars
    rw [hcd]
    have hh := collapseL_head (toAsciiV c).data e es hcd
    rw [hcd] at hcp
    simp [hh, hcp]

theorem firstClean_ne : ∀ (cs : List JsonV), deriveDocTitle.firstClean cs ≠ "" := by
  intro cs
  induction cs with
  | nil => rw [deriveDocTitle.firstClean]; decide
  | cons c cs ih =>
    rw [deriveDocTitle.firstClean]
    split_ifs with h
    · apply sane_ne
      apply trunc_sane _ _ (by omega)
      exact sane_collapse_toAscii _ (collapse_toAsciiV_sane c h)
    · exact ih

theorem deriveDocTitle_ne (data : JsonV) (slides : List JsonV) :
    deriveDocTitle data slides ≠ "" := by
  unfold deriveDocTitle
  exact firstClean_ne _

theorem ns_all (dt : String) (sl : List JsonV)
    (hgood : ∀ s ∈ sl, goodSlideP s) :
    ∃ dt2 sl2, normalizeStructuredResponse
        (.obj [("docTitle", .str dt), ("slides", .arr sl)]) =
        .ok (.obj [("docTitle", .str dt2), ("slides", .arr sl2)]) ∧
      zodSummaryOk (.obj [("docTitle", .str dt2), ("slides", .arr sl2)]) = true ∧
      sl2 ≠ [] ∧ ∀ s ∈ sl2, goodSlideP s := by
  have hb : normalizeStructuredResponse (.obj [("docTitle", .str dt), ("slides", .arr sl)]) =
      Except.bind (mapIdxM normalizeOneSlide (sl.take 8) 0)
        (fun mapped => Except.bind (padSlides mapped)
          (fun normalized => Except.pure (.obj
            [("docTitle", .str (deriveDocTitle
               (.obj [("docTitle", .str dt), ("slides", .arr sl)]) normalized)),
             ("slides", .arr normalized)]))) := rfl
  obtain ⟨mapped, hm, hmlen, hmall⟩ := mapIdxM_nos (sl.take 8) 0
    (fun s hs => hgood s (List.Sublist.subset (List.take_sublist _ _) hs))
  have hmlen8 : mapped.length ≤ 8 := by
    rw [hmlen, List.length_take]
    omega
  obtain ⟨out, hout, ho2, ho8, hoall⟩ := padSlides_all mapped hmlen8 hmall
  refine ⟨deriveDocTitle (.obj [("docTitle", .str dt), ("slides", .arr sl)]) out, out,
    ?_, ?_, ?_, fun s hs => (hoall s hs).2⟩
  · rw [hb, hm]
    simp only [Except.bind]
    rw [hout]
    rfl
  · have hdt := deriveDocTitle_ne (.obj [("docTitle", .str dt), ("slides", .arr sl)]) out
    have hlen := jsLength_pos _ hdt
    simp only [zodSummaryOk, jsGet]
    simp [hlen, ho2, ho8, List.all_eq_true]
    intro x hx
    exact (hoall x hx).1
  · intro h0
    rw [h0] at ho2
    simp at ho2

theorem np_any (t : String) :
    ∃ r, normalizeParagraph (.str t) (.arr []) = .ok r ∧
      (r = "" ∨ saneStr r = true) := by
  have he : normalizeParagraph (.str t) (.arr []) =
      normalizeParagraph (.str t) (.arr (([] : List String).map JsonV.str)) := rfl
  rw [he, np_eval]
  by_cases h : collapseWhitespace t = ""
  · rw [if_neg (not_not_intro h), if_neg (by decide)]
    exact ⟨_, rfl, Or.inr (by decide)⟩
  · rw [if_pos h]
    exact ⟨_, rfl, trunc_cases _ 420 (by omega)⟩

theorem bfs_good (seed : List String) :
    ∃ slides, buildFallbackSlides seed = .ok slides ∧ slides ≠ [] ∧
      ∀ s ∈ slides, goodSlideP s := by
  obtain ⟨r, hr, hro⟩ := np_any (String.intercalate " " seed)
  obtain ⟨bs, hbs0, _, _, hbp⟩ := nb_all [] r
  have hbs : normalizeBullets (.arr []) r = .ok bs := hbs0
  have hb : buildFallbackSlides seed =
      Except.bind (normalizeParagraph (.str (String.intercalate " " seed)) (.arr []))
        (fun paragraph =>
          Except.bind (normalizeBullets (.arr []) paragraph)
            (fun bullets => Except.pure
              [JsonV.obj [("headline", .str "Section 1"), ("paragraph", .str paragraph),
                     ("bullets", .arr (bullets.map JsonV.str)), ("chart", .null)],
               JsonV.obj [("headline", .str "Section 2"), ("paragraph", .str paragraph),
                     ("bullets", .arr (bullets.map JsonV.str)), ("chart", .null)]])) := rfl
  rw [hb, hr]
  simp only [Except.bind]
  rw [hbs]
  refine ⟨_, rfl, by simp, ?_⟩
  intro s hs
  rcases List.mem_cons.mp hs with rfl | hs2
  · exact ⟨"Section 1", r, bs, rfl, hro, hbp⟩
  · rcases List.mem_cons.mp hs2 with rfl | hs3
    · exact ⟨"Section 2", r, bs, rfl, hro, hbp⟩
    · exact absurd hs3 (by simp)

/-- The slide-count target of the heuristic summarizer. -/
def bhTarget (stats : SummaryStats) : ℕ :=
  min (max (if stats.slideCount = 0 then 3 else stats.slideCount) 2) 8

/-- The sentence-chunk width of the heuristic summarizer. -/
def bhChunk (cleaned : String) (stats : SummaryStats) : ℕ :=
  max 1 (((splitIntoSentences cleaned).length + bhTarget stats - 1) / bhTarget stats)

/-- One candidate slide of the heuristic summarizer. -/
def bhSlideF (cleaned : String) (stats : SummaryStats) (index : ℕ) : Option JsonV :=
  let chunk := ((splitIntoSentences cleaned).drop
    (index * bhChunk cleaned stats)).take (bhChunk cleaned stats)
  if chunk.isEmpty then none
  else
    let paragraph := truncateSummaryText (String.intercalate " " chunk) 420
    let headline := heuristicHeadline paragraph index
    let bullets := (paragraphHighlights paragraph).take 4
    some (JsonV.obj [("headline", .str headline), ("paragraph", .str paragraph),
      ("bullets", .arr (bullets.map JsonV.str)), ("chart", .null)])

/-- The heuristic summarizer's slide list. -/
def bhSlides (cleaned : String) (stats : SummaryStats) : List JsonV :=
  (List.range (bhTarget stats)).filterMap (bhSlideF cleaned stats)

/-- The `docTitle` source picked from the first heuristic slide. -/
def bhTitleSrc (cleaned : String) (stats : SummaryStats) : String :=
  match bhSlides cleaned stats with
  | s0 :: _ =>
    (match jsGet s0 "headline" with
     | .str h => if h ≠ "" then h else cleaned
     | _ => cleaned)
  | [] => cleaned

theorem bh_eval (text : String) (stats : SummaryStats) :
    buildHeuristicSummary text stats =
      (if jsTrim ⟨crlfToLf text.data⟩ = ""
       then Except.bind (buildFallbackSlides ["No readable content found in document."])
         (fun slides => Except.pure (JsonV.obj [("docTitle", .str "Generated Summary"),
           ("slides", .arr slides)]))
       else if (bhSlides (jsTrim ⟨crlfToLf text.data⟩) stats).isEmpty
       then Except.bind (buildFallbackSlides
           [(⟨(jsTrim ⟨crlfToLf text.data⟩).data.take 200⟩ : String)])
         (fun fb => Except.pure (JsonV.obj
           [("docTitle", .str (heuristicDocTitle (jsTrim ⟨crlfToLf text.data⟩))),
            ("slides", .arr fb)]))
       else Except.pure (JsonV.obj
         [("docTitle", .str (heuristicDocTitle
            (bhTitleSrc (jsTrim ⟨crlfToLf text.data⟩) stats))),
          ("slides", .arr ((bhSlides (jsTrim ⟨crlfToLf text.data⟩) stats).take
            (bhTarget stats)))])) := rfl

theorem bhSlides_good (cleaned : String) (stats : SummaryStats) :
    ∀ v ∈ bhSlides cleaned stats, goodSlideP v := by
  intro v hv
  obtain ⟨i, _, hf⟩ := List.mem_filterMap.mp hv
  simp only [bhSlideF] at hf
  split_ifs at hf with hchunk
  all_goals injection hf with hf
  all_goals subst hf
  all_goals refine ⟨_, _, _, rfl, trunc_cases _ 420 (by omega), ?_⟩
  all_goals intro s2 hs2
  all_goals exact highlights_printable _ s2 (List.Sublist.subset (List.take_sublist _ _) hs2)

theorem bhTarget_ge2 (stats : SummaryStats) : 2 ≤ bhTarget stats := by
  unfold bhTarget
  split_ifs <;> omega

theorem take_ne (l : List JsonV) (n : ℕ) (hl : l ≠ []) (hn : 1 ≤ n) :
    l.take n ≠ [] := by
  cases l with
  | nil => exact absurd rfl hl
  | cons a as =>
    cases n with
    | zero => omega
    | succ m => simp

theorem bh_good (text : String) (stats : SummaryStats) :
    ∃ dt sl, buildHeuristicSummary text stats =
      .ok (.obj [("docTitle", .str dt), ("slides", .arr sl)]) ∧
      sl ≠ [] ∧ ∀ s ∈ sl, goodSlideP s := by
  rw [bh_eval]
  by_cases h1 : jsTrim ⟨crlfToLf text.data⟩ = ""
  · rw [if_pos h1]
    obtain ⟨slides, hs, hne, hgood⟩ := bfs_good ["No readable content found in document."]
    rw [hs]
    simp only [Except.bind]
    exact ⟨"Generated Summary", slides, rfl, hne, hgood⟩
  · rw [if_neg h1]
    by_cases h2 : (bhSlides (jsTrim ⟨crlfToLf text.data⟩) stats).isEmpty = true
    · rw [if_pos h2]
      obtain ⟨fb, hf, hne, hgood⟩ :=
        bfs_good [(⟨(jsTrim ⟨crlfToLf text.data⟩).data.take 200⟩ : String)]
      rw [hf]
      simp only [Except.bind]
      exact ⟨_, fb, rfl, hne, hgood⟩
    · rw [if_neg h2]
      refine ⟨_, _, rfl, ?_, ?_⟩
      · apply take_ne
        · simpa using h2
        · have := bhTarget_ge2 stats
          omega
      · intro s hs
        exact bhSlides_good _ _ s (List.Sublist.subset (List.take_sublist _ _) hs)

/-- The per-slide renormalization done inside `tryHeuristicFallback`'s map
(the same calls as `normalizeOneSlide`, but with the fallback-literal slide
for non-object entries and no headline trimming step). -/
def thfSlide (slide : JsonV) (index : ℕ) : Except JsErr JsonV := do
  let safeSlide :=
    match slide with
    | .obj _ | .arr _ => slide
    | _ => JsonV.obj [("headline", .str ("Section " ++ toString (index + 1))),
                      ("paragraph", .str ""), ("bullets", .arr []), ("chart", .null)]
  let paragraph ← normalizeParagraph (jsGet safeSlide "paragraph") (jsGet safeSlide "bullets")
  let bullets ← normalizeBullets (jsGet safeSlide "bullets") paragraph
  return JsonV.obj [("headline", .str (normalizeHeadline (jsGet safeSlide "headline") index)),
                    ("paragraph", .str paragraph),
                    ("bullets", .arr (bullets.map JsonV.str)),
                    ("chart", normalizeChart (jsGet safeSlide "chart"))]

theorem thfSlide_ok (slide : JsonV) (i : ℕ) (hg : goodSlideP slide) :
    ∃ o, thfSlide slide i = .ok o := by
  obtain ⟨hl, t, ss, rfl, ht, hss⟩ := hg
  obtain ⟨r, hr, _⟩ := np_all t ss ht hss
  obtain ⟨bs, hbs, _, _, _⟩ := nb_all ss r
  have hb : thfSlide (.obj [("headline", .str hl), ("paragraph", .str t),
      ("bullets", .arr (ss.map JsonV.str)), ("chart", .null)]) i =
    Except.bind (normalizeParagraph (.str t) (.arr (ss.map JsonV.str)))
      (fun paragraph =>
        Except.bind (normalizeBullets (.arr (ss.map JsonV.str)) paragraph)
          (fun bullets =>
            Except.pure (JsonV.obj
              [("headline", .str (normalizeHeadline (.str hl) i)),
               ("paragraph", .str paragraph),
               ("bullets", .arr (bullets.map JsonV.str)),
               ("chart", normalizeChart .null)]))) := rfl
  rw [hb, hr]
  simp only [Except.bind]
  rw [hbs]
  exact ⟨_, rfl⟩

theorem mapIdxM_thf : ∀ (sl : List JsonV) (i : ℕ), (∀ s ∈ sl, goodSlideP s) →
    ∃ out, mapIdxM thfSlide sl i = .ok out := by
  intro sl
  induction sl with
  | nil => intro i _; exact ⟨[], rfl⟩
  | cons s0 sl ih =>
    intro i hg
    obtain ⟨o0, ho0⟩ := thfSlide_ok s0 i (hg s0 (by simp))
    obtain ⟨out, hout⟩ := ih (i + 1) (fun s hs => hg s (by simp [hs]))
    refine ⟨o0 :: out, ?_⟩
    rw [mapIdxM, ho0]
    simp only [Except.bind, Bind.bind]
    rw [hout]
    rfl

/-- The tail of `tryHeuristicFallback` after `safe` is validated: clip the
slides, re-normalize each, and wrap the document. -/
def thfTail (stats : SummaryStats) (safe : JsonV) : Except JsErr (Option JsonV) :=
  if ((match jsGet safe "slides" with
       | .arr xs => xs
       | _ => []).take (min (max stats.slideCount 2) 8)).isEmpty
  then
    Except.bind (buildFallbackSlides [SUMMARY_PARAGRAPH_PLACEHOLDER])
      (fun slides =>
        Except.bind (mapIdxM thfSlide slides 0)
          (fun normalizedSlides =>
            Except.pure (some (JsonV.obj
              [("docTitle", jsGet safe "docTitle"),
               ("slides", .arr normalizedSlides),
               ("stats", statsJson stats normalizedSlides.length
                 (min (max stats.slideCount 2) 8) none),
               ("warnings", .arr [.str "Longcat request failed; generated heuristic summary instead."])]))))
  else
    Except.bind (mapIdxM thfSlide ((match jsGet safe "slides" with
        | .arr xs => xs
        | _ => []).take (min (max stats.slideCount 2) 8)) 0)
      (fun normalizedSlides =>
        Except.pure (some (JsonV.obj
          [("docTitle", jsGet safe "docTitle"),
           ("slides", .arr normalizedSlides),
           ("stats", statsJson stats normalizedSlides.length
             (min (max stats.slideCount 2) 8) none),
           ("warnings", .arr [.str "Longcat request failed; generated heuristic summary instead."])])))

theorem thf_eval (e : JsErr) (text : String) (stats : SummaryStats) :
    tryHeuristicFallback e text stats =
      (if ¬isLikelyNetworkError e then Except.ok none
       else Except.bind (buildHeuristicSummary text stats) (fun summary =>
         if zodSummaryOk summary then thfTail stats summary
         else Except.bind (normalizeStructuredResponse summary)
           (fun n => Except.bind (zodParseSummary n) (thfTail stats)))) := rfl

theorem thfTail_ok (stats : SummaryStats) (xs : List JsonV) (safe : JsonV)
    (hslides : jsGet safe "slides" = .arr xs)
    (hxs : xs ≠ []) (hgood : ∀ s ∈ xs, goodSlideP s) :
    ∃ doc, thfTail stats safe = .ok (some doc) := by
  unfold thfTail
  rw [hslides]
  dsimp only
  have hne : (xs.take (min (max stats.slideCount 2) 8)).isEmpty = false := by
    have h1 := take_ne xs (min (max stats.slideCount 2) 8) hxs (by omega)
    simpa using h1
  rw [if_neg (by simp [hne])]
  obtain ⟨out, hout⟩ := mapIdxM_thf (xs.take (min (max stats.slideCount 2) 8)) 0
    (fun s hs => hgood s (List.Sublist.subset (List.take_sublist _ _) hs))
  rw [hout]
  exact ⟨_, rfl⟩

theorem thf_network (e : JsErr) (text : String) (stats : SummaryStats)
    (h : isLikelyNetworkError e = true) :
    ∃ doc, tryHeuristicFallback e text stats = .ok (some doc) := by
  rw [thf_eval, if_neg (by simp [h])]
  obtain ⟨dt, sl, hbh, hne, hgood⟩ := bh_good text stats
  rw [hbh]
  simp only [Except.bind]
  by_cases hz : zodSummaryOk (.obj [("docTitle", .str dt), ("slides", .arr sl)]) = true
  · rw [if_pos hz]
    exact thfTail_ok stats sl (.obj [("docTitle", .str dt), ("slides", .arr sl)]) rfl hne hgood
  · rw [if_neg hz]
    obtain ⟨dt2, sl2, hns, hzod2, hne2, hgood2⟩ := ns_all dt sl hgood
    rw [hns]
    simp only [Except.bind]
    unfold zodParseSummary
    rw [if_pos hzod2]
    simp only [Except.bind]
    exact thfTail_ok stats sl2 (.obj [("docTitle", .str dt2), ("slides", .arr sl2)]) rfl
      hne2 hgood2

/-- C3. The `catch` stage of `summarizeToSlides` converts the error into the
heuristic fallback document exactly when `isLikelyNetworkError` classifies it
as network-shaped (recognized cause code, or a "fetch failed" / "timeout" /
"temporarily" phrase); every other error — credential exhaustion, the
not-valid-JSON error, zod violations — propagates unchanged to the caller.
The fallback construction itself never fails: the heuristic summary, its
re-normalization and the zod re-parse always succeed. -/
theorem c3_network_fallback_gate (e : JsErr) (text : String) :
    if isLikelyNetworkError e
    then ∃ doc, summarizeCatchStage e text = .ok doc
    else summarizeCatchStage e text = .error e := by
  rcases h : isLikelyNetworkError e with _ | _
  · rw [if_neg (by simp [h])]
    unfold summarizeCatchStage
    have ht : tryHeuristicFallback e text (determineSlideCount text) = .ok none := by
      rw [thf_eval, if_pos (by simp [h])]
    rw [ht]
  · rw [if_pos (by simp [h])]
    unfold summarizeCatchStage
    obtain ⟨doc, hdoc⟩ := thf_network e text (determineSlideCount text) h
    rw [hdoc]
    exact ⟨doc, rfl⟩

/-! ## Claim C1: the Schema Contract of the Content Normalizer -/

/-- The claim's chart clause, written from the specification's words: the
chart is absent (`null`), or has an allowed type, non-empty categories and a
non-empty series list of numeric values. -/
def contractChartOk (v : JsonV) : Bool :=
  match v with
  | .null => true
  | .undef => true
  | _ =>
    (match jsGet v "type" with
     | .str s => s = "bar" ∨ s = "line" ∨ s = "pie"
     | _ => false) &&
    (match jsGet v "categories" with | .arr cs => !cs.isEmpty | _ => false) &&
    (match jsGet v "series" with
     | .arr ss => !ss.isEmpty && ss.all (fun e =>
        match jsGet e "values" with
        | .arr vs => !vs.isEmpty && vs.all (fun q =>
            match q with | .num _ => true | _ => false)
        | _ => false)
     | _ => false)

/-- The claim's per-slide Schema Contract: non-empty headline and paragraph,
2–5 bullets with no duplicates, valid-or-absent chart. -/
def contractSlideOk (v : JsonV) : Bool :=
  (match jsGet v "headline" with | .str s => s ≠ "" | _ => false) &&
  (match jsGet v "paragraph" with | .str s => s ≠ "" | _ => false) &&
  (match jsGet v "bullets" with
   | .arr bs => 2 ≤ bs.length && bs.length ≤ 5 && decide bs.Nodup
   | _ => false) &&
  contractChartOk (jsGet v "chart")

/-- The claim's Schema Contract on a normalizer output document. -/
def schemaContract (v : JsonV) : Bool :=
  match jsGet v "slides" with
  | .arr slides => 2 ≤ slides.length && slides.length ≤ 8 && slides.all contractSlideOk
  | _ => false

/-- A raw candidate whose slide holds a truthy non-string bullet: the
normalizer calls `.replace` on it and crashes. -/
def c1crash : JsonV :=
  .obj [("slides", .arr [.obj [("paragraph", .str ""), ("bullets", .arr [natNum 5])]])]

/-- A raw candidate that survives normalization but violates the contract:
the NUL-character paragraph is erased by `toAscii` inside
`truncateSummaryText` (empty paragraph), and a bullet equal to the second
filler string makes the `while`-loop filler a duplicate. -/
def c1bad : JsonV :=
  .obj [("slides", .arr [
    .obj [("paragraph", .str "\x00")],
    .obj [("bullets", .arr [.str "Highlight a concrete detail from the document."])]])]

def c1out : JsonV :=
  match normalizeStructuredResponse c1bad with | .ok v => v | .error _ => .null

/-- Read index `i` of a JSON array (`null` otherwise). -/
def jsArrGetD (v : JsonV) (i : ℕ) : JsonV :=
  match v with | .arr xs => xs.getD i .null | _ => .null

/-- C1: REFUTED — code bug. The Content Normalizer does not always satisfy
the Schema Contract: on `c1crash` (a truthy non-string bullet) it throws the
`line.replace is not a function` `TypeError` instead of producing output,
and on `c1bad` it returns a document whose first slide has an empty
paragraph and whose second slide has two identical bullets, both
contract violations. -/
theorem c1_schema_contract_bug :
    normalizeStructuredResponse c1crash = .error replaceTypeError ∧
    normalizeStructuredResponse c1bad = .ok c1out ∧
    schemaContract c1out = false ∧
    jsGet (jsArrGetD (jsGet c1out "slides") 0) "paragraph" = .str "" ∧
    jsGet (jsArrGetD (jsGet c1out "slides") 1) "bullets" =
      .arr [.str "Highlight a concrete detail from the document.",
            .str "Highlight a concrete detail from the document."] :=
  ⟨rfl, rfl, by decide, rfl, rfl⟩

/-! ## Claim C10: the per-slide fallback replacement of `summarizeToSlides` -/

/-- The tail of one `gateSlides` step once the source-or-fallback slide has
been chosen: null-guard, normalize, and recurse on the remaining slides. -/
def gateFinish (text : String) (stats : SummaryStats) (src : JsonV)
    (restS : List JsonV) (index fbCount : ℕ) (docTitle : String)
    (fbCache : Option JsonV) :
    Except JsErr (List JsonV × ℕ × String × Option JsonV) := do
  let src :=
    if src = JsonV.null then
      JsonV.obj [("headline", .str ("Section " ++ toString (index + 1))),
                 ("paragraph", .str ""), ("bullets", .arr []), ("chart", .null)]
    else src
  let paragraph ← normalizeParagraph (jsGet src "paragraph") (jsGet src "bullets")
  let bullets ← normalizeBullets (jsGet src "bullets") paragraph
  let outSlide :=
    JsonV.obj [("headline", .str (normalizeHeadline (jsGet src "headline") index)),
               ("paragraph", .str paragraph),
               ("bullets", .arr (bullets.map JsonV.str)),
               ("chart", normalizeChart (jsGet src "chart"))]
  let (restOut, fbCount, docTitle, fbCache) ←
    gateSlides text stats restS (index + 1) fbCount docTitle fbCache
  return (outSlide :: restOut, fbCount, docTitle, fbCache)

/-- C10, amended. With the fallback document cached, a slide that fails the
Quality Gate is replaced by the chunk `pickFallbackSlide` chooses exactly
when that chunk itself passes the gate (incrementing the substitution
counter and possibly adopting the fallback title); when the chunk fails the
gate the original thin slide is kept and the counter is untouched. But the
chosen chunk is NOT only the one at the slide's index: when the index is
beyond the fallback list, `pickFallbackSlide` falls back to the FINAL chunk
(`c10_counterexample` shows a slide being replaced although no chunk exists
at its index). -/
theorem c10_gate_replacement_amended (text : String) (stats : SummaryStats)
    (fs : List (String × JsonV)) (restS : List JsonV) (fb : JsonV)
    (index fbCount : ℕ) (docTitle : String) (b : Bool)
    (hthin : slideHasMeaningfulContent (.obj fs) = .ok false)
    (hfb : slideHasMeaningfulContent (pickFallbackSlide fb index) = .ok b) :
    gateSlides text stats (JsonV.obj fs :: restS) index fbCount docTitle (some fb) =
      (if b then
        gateFinish text stats (pickFallbackSlide fb index) restS index (fbCount + 1)
          (match jsGet fb "docTitle" with
           | .str s2 =>
             if index = 0 ∧ isDocTitleWeak docTitle ∧ s2 ≠ "" then s2 else docTitle
           | _ => docTitle) (some fb)
       else gateFinish text stats (.obj fs) restS index fbCount docTitle (some fb)) ∧
    (∀ xs, jsGet fb "slides" = .arr xs → xs ≠ [] → (∀ x ∈ xs, jsNullish x = false) →
      pickFallbackSlide fb index =
        xs.getD (if index < xs.length then index else xs.length - 1) .undef) := by
  constructor
  · rw [gateSlides]
    dsimp only
    rw [hthin]
    simp only [Bind.bind, Except.bind, pure, Except.pure]
    rw [if_neg (by decide)]
    rw [hfb]
    dsimp only
    cases b
    · rw [if_neg (by decide)]
      rfl
    · rw [if_pos rfl]
      rfl
  · intro xs hxs hne hnn
    unfold pickFallbackSlide
    rw [hxs]
    dsimp only
    have hie : xs.isEmpty = false := by
      cases xs
      · exact absurd rfl hne
      · rfl
    rw [if_neg (by rw [hie]; decide)]
    by_cases hi : index < xs.length
    · rw [if_pos hi]
      have hfirst : jsNullish (xs.getD index .undef) = false := by
        rw [List.getD_eq_getElem?_getD, List.getElem?_eq_getElem hi, Option.getD_some]
        exact hnn _ (List.getElem_mem hi)
      rw [if_pos (by rw [hfirst]; decide)]
    · rw [if_neg hi]
      have hgd : xs.getD index .undef = .undef := by
        rw [List.getD_eq_getElem?_getD, List.getElem?_eq_none (by omega)]
        rfl
      rw [hgd]
      rw [if_neg (by simp [jsNullish])]
      have hlast : jsNullish (xs.getD (xs.length - 1) .undef) = false := by
        have hlt : xs.length - 1 < xs.length := by
          cases xs
          · exact absurd rfl hne
          · simp
        rw [List.getD_eq_getElem?_getD, List.getElem?_eq_getElem hlt, Option.getD_some]
        exact hnn _ (List.getElem_mem hlt)
      rw [if_pos (by rw [hlast]; decide)]

def secA : String := "Alpha section covers the launch timeline and the budget plan for the coming quarter with detailed milestones and staffing estimates for two teams."
def secB : String := "Beta section describes the marketing strategy including channel selection audience research and the creative assets required for the first campaign."
def secC : String := "Gamma section reviews the engineering roadmap covering infrastructure upgrades testing automation and the deployment cadence planned for the release."

/-- Source text with three sections: slide target 4, but only 3 heuristic
fallback chunks. -/
def c10text : String := secA ++ "\n\n" ++ secB ++ "\n\n" ++ secC

/-- A remote payload with three meaningful slides and a thin fourth slide. -/
def c10content : String :=
  "\x7b\x22docTitle\x22:\x22Quarterly Plan\x22,\x22slides\x22:[" ++
  "\x7b\x22headline\x22:\x22One\x22,\x22paragraph\x22:\x22The first remote slide paragraph describes the quarterly objectives in enough depth to be clearly meaningful content.\x22,\x22bullets\x22:[\x22first bullet with plenty of supporting detail\x22,\x22second bullet with more supporting detail\x22]\x7d," ++
  "\x7b\x22headline\x22:\x22Two\x22,\x22paragraph\x22:\x22The second remote slide paragraph explains the marketing approach in enough depth to be clearly meaningful content.\x22,\x22bullets\x22:[\x22first bullet with plenty of supporting detail\x22,\x22second bullet with more supporting detail\x22]\x7d," ++
  "\x7b\x22headline\x22:\x22Three\x22,\x22paragraph\x22:\x22The third remote slide paragraph outlines the engineering roadmap in enough depth to be clearly meaningful content.\x22,\x22bullets\x22:[\x22first bullet with plenty of supporting detail\x22,\x22second bullet with more supporting detail\x22]\x7d," ++
  "\x7b\x22headline\x22:\x22Tail\x22,\x22paragraph\x22:\x22Tiny.\x22,\x22bullets\x22:[]\x7d]\x7d"

def c10doc : JsonV :=
  match summarizeFromContent c10content c10text with | .ok v => v | .error _ => .null

/-- The normalized heuristic fallback document for `c10text`. -/
def c10fb : JsonV :=
  match (buildHeuristicSummary c10text (determineSlideCount c10text)).bind
      normalizeStructuredResponse with
  | .ok v => v | .error _ => .null

/-- C10, counterexample to the original claim. The fallback document for
`c10text` has only three chunks, so no fallback chunk exists at index 3;
the claim says the thin fourth slide must then be kept with no counter or
warning update. Instead `pickFallbackSlide`'s `?? fallbackSlides[length-1]`
arm substitutes the FINAL chunk: the produced document counts one
replacement, emits the substitution warning, and its fourth slide carries
the third chunk's text rather than the original "Tiny." paragraph. -/
theorem c10_counterexample :
    summarizeFromContent c10content c10text = .ok c10doc ∧
    (buildHeuristicSummary c10text (determineSlideCount c10text)).bind
        normalizeStructuredResponse = .ok c10fb ∧
    (match jsGet c10fb "slides" with | .arr xs => xs.length | _ => 0) = 3 ∧
    pickFallbackSlide c10fb 3 = jsArrGetD (jsGet c10fb "slides") 2 ∧
    jsGet (jsGet c10doc "stats") "fallbackReplacements" = natNum 1 ∧
    jsGet c10doc "warnings" =
      .arr [.str "Longcat returned incomplete content; substituted heuristic text for 1 section."] ∧
    jsGet (jsArrGetD (jsGet c10doc "slides") 3) "paragraph" = .str secC ∧
    secC ≠ "Tiny." :=
  ⟨rfl, rfl, rfl, rfl, rfl, rfl, rfl, by decide⟩

/-- A small fallback document for the amended theorem's witness. -/
def c10wfb : JsonV :=
  .obj [("docTitle", .str "Fallback Title"),
        ("slides", .arr [.obj [("paragraph",
          .str "A single fallback chunk paragraph that is comfortably longer than the eighty character gate.")]])]

theorem c10_gate_replacement_witness :
    gateSlides "x" (determineSlideCount "x")
        [JsonV.obj [("paragraph", JsonV.str "Tiny.")]] 5 0 "t" (some c10wfb) =
      (if true then
        gateFinish "x" (determineSlideCount "x") (pickFallbackSlide c10wfb 5) [] 5 (0 + 1)
          (match jsGet c10wfb "docTitle" with
           | .str s2 => if 5 = 0 ∧ isDocTitleWeak "t" ∧ s2 ≠ "" then s2 else "t"
           | _ => "t") (some c10wfb)
       else gateFinish "x" (determineSlideCount "x")
         (.obj [("paragraph", JsonV.str "Tiny.")]) [] 5 0 "t" (some c10wfb)) ∧
    (∀ xs, jsGet c10wfb "slides" = .arr xs → xs ≠ [] →
      (∀ x ∈ xs, jsNullish x = false) →
      pickFallbackSlide c10wfb 5 =
        xs.getD (if 5 < xs.length then 5 else xs.length - 1) .undef) :=
  c10_gate_replacement_amended "x" (determineSlideCount "x")
    [("paragraph", JsonV.str "Tiny.")] [] c10wfb 5 0 "t" true rfl rfl

/-! ## Claim C9: idempotence of the Content Normalizer -/

/-- Non-whitespace chunks joined by single spaces: the shape of
`collapseWhitespace` output. -/
def joinSp : List (List Char) → List Char
  | [] => []
  | [w] => w
  | w :: ws => w ++ ' ' :: joinSp ws

theorem joinSp_shift (a b : List Char) (l : List (List Char)) :
    joinSp ((a ++ ' ' :: b) :: l) = a ++ ' ' :: joinSp (b :: l) := by
  cases l with
  | nil => rfl
  | cons w ws =>
    show (a ++ ' ' :: b) ++ ' ' :: joinSp (w :: ws) = a ++ ' ' :: joinSp (b :: w :: ws)
    rw [show joinSp (b :: w :: ws) = b ++ ' ' :: joinSp (w :: ws) from rfl]
    simp

theorem foldl_joinSp : ∀ (ws : List (List Char)) (w : List Char),
    List.foldl (fun a chunk => a ++ ' ' :: chunk) w ws = joinSp (w :: ws) := by
  intro ws
  induction ws with
  | nil => intro w; rfl
  | cons w2 ws ih =>
    intro w
    rw [List.foldl_cons, ih (w ++ ' ' :: w2), joinSp_shift]
    rfl

theorem collapseL_joinSp (cs : List Char) : collapseL cs = joinSp (wsChunksL cs) := by
  unfold collapseL
  rcases h : wsChunksL cs with _ | ⟨w, ws⟩
  · rfl
  · exact foldl_joinSp ws w

theorem wsChunksL_chunk_append (w : List Char) (hw : w ≠ [])
    (hnw : ∀ c ∈ w, jsWhitespace c = false) :
    ∀ rest, (rest = [] ∨ ∃ r2, rest = ' ' :: r2) →
    wsChunksL (w ++ rest) = w :: wsChunksL rest := by
  induction w with
  | nil => exact absurd rfl hw
  | cons c w2 ih =>
    intro rest hrest
    have hc : jsWhitespace c = false := hnw c (by simp)
    rw [List.cons_append, wsChunksL.eq_def]
    dsimp only
    rw [hc, if_neg (by decide)]
    cases w2 with
    | nil =>
      rcases hrest with rfl | ⟨r2, rfl⟩
      · rfl
      · show (if jsWhitespace ' ' = true then [c] :: wsChunksL (' ' :: r2)
          else match wsChunksL (' ' :: r2) with
            | [] => [[c]]
            | w :: ws => (c :: w) :: ws) = [c] :: wsChunksL (' ' :: r2)
        rw [if_pos (show jsWhitespace ' ' = true from rfl)]
    | cons c2 w3 =>
      have hc2 : jsWhitespace c2 = false := hnw c2 (by simp)
      rw [List.cons_append]
      show (if jsWhitespace c2 = true then [c] :: wsChunksL (c2 :: (w3 ++ rest))
        else match wsChunksL (c2 :: (w3 ++ rest)) with
          | [] => [[c]]
          | w :: ws => (c :: w) :: ws) = (c :: c2 :: w3) :: wsChunksL rest
      rw [hc2, if_neg (by decide)]
      rw [show (c2 :: (w3 ++ rest)) = (c2 :: w3) ++ rest from rfl]
      rw [ih (by simp) (fun d hd => hnw d (by simp [List.mem_cons.mp hd])) rest hrest]
  
theorem wsChunksL_joinSp : ∀ (ws : List (List Char)),
    (∀ w ∈ ws, w ≠ [] ∧ ∀ c ∈ w, jsWhitespace c = false) →
    wsChunksL (joinSp ws) = ws := by
  intro ws
  induction ws with
  | nil => intro _; rfl
  | cons w ws ih =>
    intro h
    obtain ⟨hw, hnw⟩ := h w (by simp)
    cases ws with
    | nil =>
      have h2 := wsChunksL_chunk_append w hw hnw [] (Or.inl rfl)
      rw [List.append_nil] at h2
      show wsChunksL w = [w]
      rw [h2]
      rfl
    | cons w2 ws2 =>
      show wsChunksL (w ++ ' ' :: joinSp (w2 :: ws2)) = w :: w2 :: ws2
      rw [wsChunksL_chunk_append w hw hnw (' ' :: joinSp (w2 :: ws2))
        (Or.inr ⟨_, rfl⟩)]
      rw [show wsChunksL (' ' :: joinSp (w2 :: ws2)) = wsChunksL (joinSp (w2 :: ws2)) by
        rw [wsChunksL.eq_def]
        dsimp only
        rw [show jsWhitespace ' ' = true from rfl]
        rfl]
      rw [ih (fun v hv => h v (by simp [hv]))]

theorem collapseL_idem (cs : List Char) : collapseL (collapseL cs) = collapseL cs := by
  calc collapseL (collapseL cs)
      = joinSp (wsChunksL (collapseL cs)) := collapseL_joinSp _
    _ = joinSp (wsChunksL (joinSp (wsChunksL cs))) := by rw [collapseL_joinSp cs]
    _ = joinSp (wsChunksL cs) := by
        rw [wsChunksL_joinSp (wsChunksL cs) (fun w hw =>
          ⟨(wsChunksL_spec cs w hw).1, fun c hc => ((wsChunksL_spec cs w hw).2 c hc).1⟩)]
    _ = collapseL cs := (collapseL_joinSp cs).symm

/-- Like `goodSlideP`, but with an arbitrary chart value: the shape of every
`normalizeOneSlide` output whatever its input. -/
def goodSlideC (v : JsonV) : Prop :=
  ∃ (hl t : String) (ss : List String) (ch : JsonV),
    v = .obj [("headline", .str hl), ("paragraph", .str t),
    ("bullets", .arr (ss.map JsonV.str)), ("chart", ch)] ∧
    (t = "" ∨ saneStr t = true) ∧ ∀ s ∈ ss, s.data.all printableA = true

theorem goodSlideP_C (v : JsonV) (h : goodSlideP v) : goodSlideC v := by
  obtain ⟨hl, t, ss, rfl, ht, hss⟩ := h
  exact ⟨hl, t, ss, .null, rfl, ht, hss⟩

theorem np_evalG (p b : JsonV) :
    normalizeParagraph p b =
      (if collapseWhitespace (match p with | .str s => s | _ => "") ≠ ""
       then .ok (truncateSummaryText
         (collapseWhitespace (match p with | .str s => s | _ => "")) 420)
       else
         (match b with
          | .arr xs => Except.bind (xs.mapM jsCleanBulletLine)
              (fun mapped =>
                (fun fallback =>
                  if jsTrim fallback ≠ ""
                  then Except.ok (truncateSummaryText fallback 420)
                  else Except.ok SUMMARY_PARAGRAPH_PLACEHOLDER)
                (String.intercalate " " (mapped.filter (· ≠ ""))))
          | _ =>
            if jsTrim "" ≠ ""
            then Except.ok (truncateSummaryText "" 420)
            else Except.ok SUMMARY_PARAGRAPH_PLACEHOLDER)) := rfl

theorem np_out_cases (p b : JsonV) (r : String)
    (h : normalizeParagraph p b = .ok r) : r = "" ∨ saneStr r = true := by
  rw [np_evalG] at h
  split at h
  · injection h with h2
    exact h2 ▸ trunc_cases _ 420 (by omega)
  · cases b with
    | arr xs =>
      dsimp only at h
      rcases hm : xs.mapM jsCleanBulletLine with e | mapped
      · rw [hm] at h
        simp only [Except.bind] at h
        exact Except.noConfusion h
      · rw [hm] at h
        simp only [Except.bind] at h
        split at h
        · injection h with h3
          exact h3 ▸ trunc_cases _ 420 (by omega)
        · injection h with h3
          exact Or.inr (h3 ▸ (by decide))
    | null =>
      dsimp only at h
      rw [if_neg (by decide)] at h
      injection h with h3
      exact Or.inr (h3 ▸ (by decide))
    | undef =>
      dsimp only at h
      rw [if_neg (by decide)] at h
      injection h with h3
      exact Or.inr (h3 ▸ (by decide))
    | bool v =>
      dsimp only at h
      rw [if_neg (by decide)] at h
      injection h with h3
      exact Or.inr (h3 ▸ (by decide))
    | num q =>
      dsimp only at h
      rw [if_neg (by decide)] at h
      injection h with h3
      exact Or.inr (h3 ▸ (by decide))
    | str sv =>
      dsimp only at h
      rw [if_neg (by decide)] at h
      injection h with h3
      exact Or.inr (h3 ▸ (by decide))
    | obj fs =>
      dsimp only at h
      rw [if_neg (by decide)] at h
      injection h with h3
      exact Or.inr (h3 ▸ (by decide))

theorem nb_evalG (inp : JsonV) (p : String) :
    normalizeBullets inp p =
      Except.bind ((match inp with | .arr xs => xs | _ => []).mapM jsCleanBulletLine)
        (fun mapped =>
          Except.pure ((fillBullets ((paragraphHighlights p).foldl
            (fun acc h =>
              if acc.length ≥ 4 then acc else if h ∈ acc then acc else acc ++ [h])
            (jsSetDedup ((mapped.filter (· ≠ "")).map
              (truncateSummaryText · 110))))).take 4)) := rfl

theorem nb_out (inp : JsonV) (p : String) (bs : List String)
    (h : normalizeBullets inp p = .ok bs) :
    2 ≤ bs.length ∧ bs.length ≤ 4 ∧ ∀ b ∈ bs, b.data.all printableA = true := by
  rw [nb_evalG] at h
  rcases hm : (match inp with | .arr xs => xs | _ => []).mapM jsCleanBulletLine
      with e | mapped
  · rw [hm] at h
    simp only [Except.bind] at h
    exact Except.noConfusion h
  · rw [hm] at h
    simp only [Except.bind, Except.pure] at h
    injection h with h3
    subst h3
    refine ⟨?_, ?_, ?_⟩
    · rw [List.length_take]
      have h2 := fillBullets_len ((paragraphHighlights p).foldl
        (fun acc h => if acc.length ≥ 4 then acc else if h ∈ acc then acc else acc ++ [h])
        (jsSetDedup ((mapped.filter (· ≠ "")).map (truncateSummaryText · 110))))
      omega
    · rw [List.length_take]; omega
    · intro b hb
      have hb2 := List.Sublist.subset (List.take_sublist _ _) hb
      rcases fillBullets_mem _ b hb2 with h1 | h1
      · rcases foldl_hl_mem _ _ b h1 with h2 | h2
        · have h3 := jsSetDedup_subset _ b h2
          obtain ⟨s0, _, rfl⟩ := List.mem_map.mp h3
          exact trunc_printable s0 110
        · exact highlights_printable p b h2
      · rcases List.mem_cons.mp h1 with rfl | h2
        · decide
        · simp at h2
          subst h2
          decide

theorem nos_out_aux (A B : JsonV) (mkHl : String) (ch : JsonV) (o : JsonV)
    (h : Except.bind (normalizeParagraph A B) (fun paragraph =>
      Except.bind (normalizeBullets B paragraph) (fun bullets =>
        Except.pure (JsonV.obj [("headline", .str mkHl), ("paragraph", .str paragraph),
          ("bullets", .arr (bullets.map JsonV.str)), ("chart", ch)]))) = .ok o) :
    goodSlideC o := by
  rcases hnp : normalizeParagraph A B with e | r
  · rw [hnp] at h
    simp only [Except.bind] at h
    exact Except.noConfusion h
  · rw [hnp] at h
    simp only [Except.bind] at h
    rcases hnb : normalizeBullets B r with e | bs
    · rw [hnb] at h
      simp only [Except.bind] at h
      exact Except.noConfusion h
    · rw [hnb] at h
      simp only [Except.bind, Except.pure] at h
      injection h with h3
      subst h3
      exact ⟨mkHl, r, bs, ch, rfl, np_out_cases A B r hnp, (nb_out B r bs hnb).2.2⟩

/-- The `safeSlide` local of `normalizeOneSlide`, as a standalone function. -/
def safeSlideOf (s : JsonV) : JsonV :=
  match s with | .obj _ => s | .arr _ => s | _ => .obj []

/-- The `headlineText` local of `normalizeOneSlide`, as a standalone function. -/
def headlineTextOf (s : JsonV) (i : ℕ) : String :=
  match jsGet (safeSlideOf s) "headline" with
  | .str t => if jsTrim t ≠ "" then jsTrim t else "Section " ++ toString (i + 1)
  | _ => "Section " ++ toString (i + 1)

theorem nos_out (s : JsonV) (i : ℕ) (o : JsonV)
    (h : normalizeOneSlide s i = .ok o) : goodSlideC o :=
  nos_out_aux
    (jsGet (safeSlideOf s) "paragraph")
    (jsGet (safeSlideOf s) "bullets")
    (normalizeHeadline (.str (headlineTextOf s i)) i)
    (normalizeChart (jsGet (safeSlideOf s) "chart"))
    o h

theorem nos_ok_C (s : JsonV) (i : ℕ) (h : goodSlideC s) :
    ∃ out, normalizeOneSlide s i = .ok out := by
  obtain ⟨hl, t, ss, ch, rfl, ht, hss⟩ := h
  obtain ⟨r, hr, _⟩ := np_all t ss ht hss
  obtain ⟨bs, hbs, _, _, _⟩ := nb_all ss r
  refine ⟨.obj [("headline", .str (normalizeHeadline (.str
      (if jsTrim hl ≠ "" then jsTrim hl else "Section " ++ toString (i + 1))) i)),
      ("paragraph", .str r),
      ("bullets", .arr (bs.map JsonV.str)),
      ("chart", normalizeChart ch)], ?_⟩
  rw [nos_eval, hr]
  simp only [Except.bind]
  rw [hbs]
  rfl

theorem mapIdxM_okC : ∀ (sl : List JsonV) (i : ℕ), (∀ s ∈ sl, goodSlideC s) →
    ∃ out, mapIdxM normalizeOneSlide sl i = .ok out := by
  intro sl
  induction sl with
  | nil => intro i _; exact ⟨[], rfl⟩
  | cons s0 sl ih =>
    intro i hg
    obtain ⟨o0, ho0⟩ := nos_ok_C s0 i (hg s0 (by simp))
    obtain ⟨out, hout⟩ := ih (i + 1) (fun s hs => hg s (by simp [hs]))
    refine ⟨o0 :: out, ?_⟩
    rw [mapIdxM, ho0]
    simp only [Except.bind, Bind.bind]
    rw [hout]
    rfl

theorem mapIdxM_mem : ∀ (sl : List JsonV) (i : ℕ) (out : List JsonV),
    mapIdxM normalizeOneSlide sl i = .ok out →
    ∀ o ∈ out, ∃ s j, normalizeOneSlide s j = .ok o := by
  intro sl
  induction sl with
  | nil =>
    intro i out h o ho
    rw [mapIdxM] at h
    injection h with h2
    subst h2
    exact absurd ho (by simp)
  | cons s0 sl ih =>
    intro i out h o ho
    rw [mapIdxM] at h
    rcases hf : normalizeOneSlide s0 i with e | y
    · rw [hf] at h
      simp only [Except.bind, Bind.bind] at h
      exact Except.noConfusion h
    · rw [hf] at h
      simp only [Except.bind, Bind.bind] at h
      rcases hrest : mapIdxM normalizeOneSlide sl (i + 1) with e | ys
      · rw [hrest] at h
        simp only [Except.bind] at h
        exact Except.noConfusion h
      · rw [hrest] at h
        simp only [Except.bind, Except.pure] at h
        injection h with h2
        subst h2
        rcases List.mem_cons.mp ho with rfl | ho2
        · exact ⟨s0, i, hf⟩
        · exact ih (i + 1) ys hrest o ho2

theorem padSlides_ok (xs : List JsonV) : ∃ out, padSlides xs = .ok out := by
  cases xs with
  | nil =>
    obtain ⟨p0, hp0, _, _⟩ := padSlide_zero
    obtain ⟨p1, hp1, _, _⟩ := padSlide_one
    refine ⟨[p0, p1], ?_⟩
    rw [padSlides, hp0]
    simp only [Except.bind, Bind.bind]
    rw [hp1]
    rfl
  | cons x1 rest =>
    cases rest with
    | nil =>
      obtain ⟨p1, hp1, _, _⟩ := padSlide_one
      refine ⟨[x1, p1], ?_⟩
      rw [padSlides, hp1]
      rfl
    | cons x2 rest2 => exact ⟨x1 :: x2 :: rest2, rfl⟩

theorem padSlides_out (xs out : List JsonV) (h : padSlides xs = .ok out) :
    ∀ o ∈ out, o ∈ xs ∨ padSlide 0 = .ok o ∨ padSlide 1 = .ok o := by
  cases xs with
  | nil =>
    obtain ⟨p0, hp0, _, _⟩ := padSlide_zero
    obtain ⟨p1, hp1, _, _⟩ := padSlide_one
    have hps : padSlides [] = .ok [p0, p1] := by
      rw [padSlides, hp0]
      simp only [Except.bind, Bind.bind]
      rw [hp1]
      rfl
    rw [hps] at h
    injection h with h2
    subst h2
    intro o ho
    rcases List.mem_cons.mp ho with rfl | ho2
    · exact Or.inr (Or.inl hp0)
    · rcases List.mem_cons.mp ho2 with rfl | ho3
      · exact Or.inr (Or.inr hp1)
      · exact absurd ho3 (by simp)
  | cons x1 rest =>
    cases rest with
    | nil =>
      obtain ⟨p1, hp1, _, _⟩ := padSlide_one
      have hps : padSlides [x1] = .ok [x1, p1] := by
        rw [padSlides, hp1]
        rfl
      rw [hps] at h
      injection h with h2
      subst h2
      intro o ho
      rcases List.mem_cons.mp ho with rfl | ho2
      · exact Or.inl (by simp)
      · rcases List.mem_cons.mp ho2 with rfl | ho3
        · exact Or.inr (Or.inr hp1)
        · exact absurd ho3 (by simp)
    | cons x2 rest2 =>
      have hps : padSlides (x1 :: x2 :: rest2) = .ok (x1 :: x2 :: rest2) := rfl
      rw [hps] at h
      injection h with h2
      subst h2
      exact fun o ho => Or.inl ho

theorem normalize_pass (v : JsonV)
    (hv : (match v with | .obj _ => false | .arr _ => false | _ => true) = true) :
    normalizeStructuredResponse v = .ok v := by
  cases v with
  | obj fs => exact Bool.noConfusion hv
  | arr es => exact Bool.noConfusion hv
  | null => rfl
  | undef => rfl
  | bool b =>
    unfold normalizeStructuredResponse
    split <;> rfl
  | num q =>
    unfold normalizeStructuredResponse
    split <;> rfl
  | str sv =>
    unfold normalizeStructuredResponse
    split <;> rfl

theorem normalize_again_pass (v y : JsonV)
    (hpass : normalizeStructuredResponse v = .ok v)
    (h : normalizeStructuredResponse v = .ok y) :
    ∃ z, normalizeStructuredResponse y = .ok z := by
  rw [hpass] at h
  injection h with h2
  exact ⟨y, h2 ▸ hpass⟩

theorem normalize_again_main (data y : JsonV)
    (hb : normalizeStructuredResponse data =
      Except.bind (mapIdxM normalizeOneSlide ((extractSlideCandidates data).take 8) 0)
        (fun mapped => Except.bind (padSlides mapped)
          (fun normalized => Except.pure (JsonV.obj
            [("docTitle", .str (deriveDocTitle data normalized)),
             ("slides", .arr normalized)]))))
    (h : normalizeStructuredResponse data = .ok y) :
    ∃ z, normalizeStructuredResponse y = .ok z := by
  rw [hb] at h
  rcases hm : mapIdxM normalizeOneSlide ((extractSlideCandidates data).take 8) 0
      with e | mapped
  · rw [hm] at h
    simp only [Except.bind] at h
    exact Except.noConfusion h
  · rw [hm] at h
    simp only [Except.bind] at h
    rcases hp : padSlides mapped with e | normalized
    · rw [hp] at h
      simp only [Except.bind] at h
      exact Except.noConfusion h
    · rw [hp] at h
      simp only [Except.bind, Except.pure] at h
      injection h with h2
      subst h2
      have hgood : ∀ o ∈ normalized, goodSlideC o := by
        intro o ho
        rcases padSlides_out mapped normalized hp o ho with hmem | h01
        · obtain ⟨s, j, hf⟩ := mapIdxM_mem _ _ _ hm o hmem
          exact nos_out s j o hf
        · rcases h01 with h0 | h1
          · obtain ⟨p0, hp0, _, hg0⟩ := padSlide_zero
            rw [hp0] at h0
            injection h0 with h02
            exact h02 ▸ goodSlideP_C p0 hg0
          · obtain ⟨p1, hp1, _, hg1⟩ := padSlide_one
            rw [hp1] at h1
            injection h1 with h12
            exact h12 ▸ goodSlideP_C p1 hg1
      have hb2 : normalizeStructuredResponse (JsonV.obj
          [("docTitle", .str (deriveDocTitle data normalized)),
           ("slides", .arr normalized)]) =
        Except.bind (mapIdxM normalizeOneSlide (normalized.take 8) 0)
          (fun mapped2 => Except.bind (padSlides mapped2)
            (fun normalized2 => Except.pure (JsonV.obj
              [("docTitle", .str (deriveDocTitle (JsonV.obj
                 [("docTitle", .str (deriveDocTitle data normalized)),
                  ("slides", .arr normalized)]) normalized2)),
               ("slides", .arr normalized2)]))) := rfl
      obtain ⟨mapped2, hm2⟩ := mapIdxM_okC (normalized.take 8) 0
        (fun s hs => hgood s (List.Sublist.subset (List.take_sublist _ _) hs))
      obtain ⟨out2, hp2⟩ := padSlides_ok mapped2
      refine ⟨JsonV.obj
          [("docTitle", .str (deriveDocTitle (JsonV.obj
             [("docTitle", .str (deriveDocTitle data normalized)),
              ("slides", .arr normalized)]) out2)),
           ("slides", .arr out2)], ?_⟩
      rw [hb2, hm2]
      simp only [Except.bind]
      rw [hp2]
      rfl

theorem normalize_again (x y : JsonV) (h : normalizeStructuredResponse x = .ok y) :
    ∃ z, normalizeStructuredResponse y = .ok z := by
  cases x with
  | obj fs => exact normalize_again_main (.obj fs) y rfl h
  | arr es => exact normalize_again_main (.arr es) y rfl h
  | null => exact normalize_again_pass _ y (normalize_pass _ rfl) h
  | undef => exact normalize_again_pass _ y (normalize_pass _ rfl) h
  | bool b => exact normalize_again_pass _ y (normalize_pass _ rfl) h
  | num q => exact normalize_again_pass _ y (normalize_pass _ rfl) h
  | str sv => exact normalize_again_pass _ y (normalize_pass _ rfl) h

theorem trunc_id (s : String) (mc : ℕ)
    (hp : s.data.all printableA = true)
    (hc : collapseL s.data = s.data)
    (hne : s ≠ "") (hlen : s.length ≤ mc) :
    truncateSummaryText s mc = s := by
  have hascii : collapseWhitespace (toAscii s) = s := by
    show (⟨collapseL (toAsciiL s.data)⟩ : String) = s
    rw [toAsciiL_id s.data hp, hc]
  simp only [truncateSummaryText]
  rw [hascii, if_neg hne, if_pos hlen]

theorem np_early (t : String) (B : JsonV) (h : collapseWhitespace t ≠ "") :
    normalizeParagraph (.str t) B =
      .ok (truncateSummaryText (collapseWhitespace t) 420) := by
  rw [np_evalG]
  dsimp only
  rw [if_pos h]

theorem np_id (r : String) (B : JsonV)
    (hs : saneStr r = true) (hc : collapseL r.data = r.data)
    (hlen : r.length ≤ 420) :
    normalizeParagraph (.str r) B = .ok r := by
  have hr : collapseWhitespace r = r := by
    show (⟨collapseL r.data⟩ : String) = r
    rw [hc]
  have hne : r ≠ "" := sane_ne r hs
  have hp : r.data.all printableA = true := ((Bool.and_eq_true _ _).mp hs).2
  rw [np_early r B (by rw [hr]; exact hne), hr, trunc_id r 420 hp hc hne hlen]

/-- A structured response whose slide headline starts with a zero-width
joiner followed by a dash: the first pass strips only the joiner, the
second strips the now-leading dash. -/
def c9x : JsonV := .obj [("slides", .arr [.obj
  [("headline", .str "\u200d- hi"),
   ("paragraph", .str "Alpha beta gamma."),
   ("bullets", .arr [.str "First point here.", .str "Second point here."])]])]

/-- `normalizeStructuredResponse c9x` (first pass). -/
def c9out : JsonV := .obj
  [("docTitle", .str "- hi"),
   ("slides", .arr
      [.obj
         [("headline", .str "- hi"),
          ("paragraph", .str "Alpha beta gamma."),
          ("bullets", .arr [.str "First point here.", .str "Second point here.",
            .str "Alpha beta gamma."]),
          ("chart", .null)],
       .obj
         [("headline", .str "Section 2"),
          ("paragraph", .str "Summary forthcoming."),
          ("bullets", .arr [.str "Summary forthcoming.",
            .str "Highlight a concrete detail from the document."]),
          ("chart", .null)]])]

/-- `normalizeStructuredResponse c9out` (second pass): the first slide's
headline has lost its leading "- ". -/
def c9out2 : JsonV := .obj
  [("docTitle", .str "- hi"),
   ("slides", .arr
      [.obj
         [("headline", .str "hi"),
          ("paragraph", .str "Alpha beta gamma."),
          ("bullets", .arr [.str "First point here.", .str "Second point here.",
            .str "Alpha beta gamma."]),
          ("chart", .null)],
       .obj
         [("headline", .str "Section 2"),
          ("paragraph", .str "Summary forthcoming."),
          ("bullets", .arr [.str "Summary forthcoming.",
            .str "Highlight a concrete detail from the document."]),
          ("chart", .null)]])]

/-- C9 counterexample: `normalizeStructuredResponse` is not byte-identical
on its own output. A headline that reaches the first pass as
ZWJ-dash-space-text keeps the dash (the emoji stripper removes only the
joiner, and the bullet-marker stripper saw the joiner first); on the second
pass the dash is now leading, so the bullet-marker stripper removes it and
the headline shrinks from "- hi" to "hi". -/
theorem c9_counterexample :
    normalizeStructuredResponse c9x = .ok c9out ∧
    normalizeStructuredResponse c9out = .ok c9out2 ∧
    c9out2 ≠ c9out ∧
    jsGet (jsArrGetD (jsGet c9out "slides") 0) "headline" = .str "- hi" ∧
    jsGet (jsArrGetD (jsGet c9out2 "slides") 0) "headline" = .str "hi" :=
  ⟨rfl, rfl, by decide, rfl, rfl⟩

/-- C9: the Content Normalizer is NOT byte-identical on its own output
(`c9_counterexample`: headline bullet-marker stripping can fire again on a
second pass). What does hold, and is proved here, is the amended pair:
(a) the normalizer is total on its own outputs — a second pass never fails —
and (b) the paragraph normalizer is the identity on text that is already
sanitized (non-empty printable ASCII with no leading whitespace, already
whitespace-collapsed, and within the 420-character budget), so a second
pass preserves any already-clean paragraph byte-for-byte. -/
theorem c9_idempotence_amended :
    (∀ x y, normalizeStructuredResponse x = .ok y →
      ∃ z, normalizeStructuredResponse y = .ok z) ∧
    (∀ (r : String) (B : JsonV), saneStr r = true → collapseL r.data = r.data →
      r.length ≤ 420 → normalizeParagraph (.str r) B = .ok r) :=
  ⟨normalize_again, fun r B hs hc hl => np_id r B hs hc hl⟩
